import Mathlib

/-!
Cell-by-cell sweep scheduler of OpenSn.

A shallow embedding of `CBC_AngleSet::AngleSetAdvance` and
`CBC_AngleSet::ResetSweepBuffers` (cbc_angle_set.cc) and of the `CBC_SPDS`
constructor (spds/cbc.cc), followed by the properties proved about them. Smaller
embeddings follow the same pattern: `LineQuadrature::SetRange`,
`Unknown::GetMap`, the source options of the `ResponseEvaluator`, the function
registry of the console, the groupset angular-flux file and the face counters
of `AAH_SweepChunk::Sweep`.

The calls that leave the angle set (communicator, boundaries, sweep chunk) are
recorded, in program order, in an event log carried by the state; what they
return is an input of the call. The calls of `log.LogEvent` are left out.

A task is named by its position in the task list. An index outside the vector
is undefined behaviour in the source; the model leaves the list as it is there.
-/

namespace OpenSn

/-! ## Data model -/

/-- Modelled from the spec: the declaration of `struct Task` is not among the
sources. The fields are the ones read and written by cbc_angle_set.cc, in the
order of the aggregate initialiser of cbc.cc:93
(`{num_dependencies, succesors, cell.local_id, &cell, false}`); the counter is
the `unsigned int` of cbc.cc:75, kept as a natural number below `2 ^ 32`.
`cell_ptr_` points at the cell named by `reference_id_` and is not kept. -/
structure Task where
  num_dependencies_ : Nat
  successors_ : List Nat
  reference_id_ : Nat
  completed_ : Bool
deriving DecidableEq, Repr

/-- Return value of `AngleSetAdvance`. -/
inductive AngleSetStatus where
  | NOT_FINISHED
  | FINISHED
deriving DecidableEq, Repr

/-- Calls made by the angle set on its collaborators. `SweepCell i` stands for
`sweep_chunk.SetCell(cell_task.cell_ptr_, *this); sweep_chunk.Sweep(*this)` with
`cell_task` the task at position `i` of `current_task_list_`. -/
inductive Event where
  | SetAngleSet
  | ReceiveData
  | SendData
  | CheckAnglesReadyStatus (bid : Nat)
  | UpdateAnglesReadyStatus (bid : Nat)
  | SweepCell (i : Nat)
  | CommReset
  | ClearLocalAndReceivePsi
deriving DecidableEq, Repr

/-- The angle set: the task list of its SPDS (`cbc_spds_.TaskList()`), the keys
of `ref_boundaries_` in map order, the working task list, the `executed_` flag
and the log of the calls made so far. -/
structure CBC_AngleSet where
  cbc_spds_ : List Task
  ref_boundaries_ : List Nat
  current_task_list_ : List Task
  executed_ : Bool
  trace : List Event
deriving DecidableEq, Repr

/-- What the collaborators answer during one call of `AngleSetAdvance`: the
task numbers returned by `async_comm_.ReceiveData()`, the answer of
`CheckAnglesReadyStatus` of each boundary, and the value returned by the last
`async_comm_.SendData()` (line 104; the other return values are discarded). -/
structure AdvanceInput where
  tasks_who_received_data : List Nat
  bndry_ready : Nat → Bool
  all_messages_sent : Bool

/-- Local variables of the ready-task loop (lines 61-85). -/
structure LoopState where
  tasks : List Task
  all_tasks_completed : Bool
  a_task_executed : Bool
  trace : List Event
deriving DecidableEq, Repr

/-! ## `AngleSetAdvance` -/

/-- Pre-decrement `--x` of an `unsigned int`: at 0 it wraps to `2 ^ 32 - 1`. -/
def decrement (n : Nat) : Nat := (n + (2 ^ 32 - 1)) % 2 ^ 32

/-- The statement `--current_task_list_[i].num_dependencies_`. An index outside
the vector is undefined behaviour in the source; the list is left as it is. -/
def decAt (tl : List Task) (i : Nat) : List Task :=
  match tl[i]? with
  | some t => tl.set i { t with num_dependencies_ := decrement t.num_dependencies_ }
  | none => tl

/-- The statement `cell_task.completed_ = true` for the task at position `i`. -/
def setCompleted (tl : List Task) (i : Nat) : List Task :=
  match tl[i]? with
  | some t => tl.set i { t with completed_ := true }
  | none => tl

/-- Body of the range-for of lines 66-83 for the task at position `i`. -/
def visit (st : LoopState) (i : Nat) : LoopState :=
  match st.tasks[i]? with
  | none => st
  | some cell_task =>
    let all := if !cell_task.completed_ then false else st.all_tasks_completed
    if cell_task.num_dependencies_ = 0 ∧ cell_task.completed_ = false then
      { tasks := setCompleted (cell_task.successors_.foldl decAt st.tasks) i
        all_tasks_completed := all
        a_task_executed := true
        trace := st.trace ++ [Event.SweepCell i, Event.SendData] }
    else
      { st with all_tasks_completed := all }

/-- One turn of the `while` loop: lines 65-84. -/
def forPass (st : LoopState) : LoopState :=
  let st1 := (List.range st.tasks.length).foldl visit { st with a_task_executed := false }
  { st1 with trace := st1.trace ++ [Event.SendData] }

/-- The loop `while (a_task_executed)` of lines 63-85, with fuel for `fuel` turns;
`none` when the turns are used up while the loop condition still holds. -/
def whileLoop : Nat → LoopState → Option LoopState
  | 0, st => if st.a_task_executed then none else some st
  | fuel + 1, st => if st.a_task_executed then whileLoop fuel (forPass st) else some st

/-- The loop of lines 58-59 over `ref_boundaries_`: the first boundary that is
not ready ends it. Returns whether all were ready, and the log. -/
def checkBoundaries (ready : Nat → Bool) : List Nat → List Event → Bool × List Event
  | [], tr => (true, tr)
  | bid :: rest, tr =>
    if ready bid then checkBoundaries ready rest (tr ++ [Event.CheckAnglesReadyStatus bid])
    else (false, tr ++ [Event.CheckAnglesReadyStatus bid])

/-- The task list the call works on after line 46. -/
def materialize (s : CBC_AngleSet) : List Task :=
  if s.current_task_list_.isEmpty then s.cbc_spds_ else s.current_task_list_

/-- The method `CBC_AngleSet::AngleSetAdvance` (lines 37-116). The loop gets
fuel for one turn more than there are tasks; the result is `none` only if that
were not enough, which `AngleSetAdvance_total` excludes. -/
def AngleSetAdvance (s : CBC_AngleSet) (inp : AdvanceInput) :
    Option (AngleSetStatus × CBC_AngleSet) :=
  if s.executed_ then some (AngleSetStatus.FINISHED, s)
  else
    let tl0 := materialize s
    let tr1 := s.trace ++ [Event.SetAngleSet, Event.ReceiveData]
    let tl1 := inp.tasks_who_received_data.foldl decAt tl0
    let tr2 := tr1 ++ [Event.SendData]
    match checkBoundaries inp.bndry_ready s.ref_boundaries_ tr2 with
    | (false, tr3) =>
      some (AngleSetStatus.NOT_FINISHED, { s with current_task_list_ := tl1, trace := tr3 })
    | (true, tr3) =>
      match whileLoop (tl1.length + 1)
          { tasks := tl1, all_tasks_completed := true, a_task_executed := true, trace := tr3 } with
      | none => none
      | some st =>
        let tr4 := st.trace ++ [Event.SendData]
        if st.all_tasks_completed ∧ inp.all_messages_sent then
          some (AngleSetStatus.FINISHED,
            { s with
              current_task_list_ := st.tasks
              trace := tr4 ++ s.ref_boundaries_.map Event.UpdateAnglesReadyStatus
              executed_ := true })
        else
          some (AngleSetStatus.NOT_FINISHED,
            { s with current_task_list_ := st.tasks, trace := tr4 })

/-- The method `CBC_AngleSet::ResetSweepBuffers` (lines 118-125). -/
def ResetSweepBuffers (s : CBC_AngleSet) : CBC_AngleSet :=
  { s with
    current_task_list_ := []
    trace := s.trace ++ [Event.CommReset, Event.ClearLocalAndReceivePsi]
    executed_ := false }

/-- A sequence of `AngleSetAdvance` calls, one per input; the statuses returned,
in call order, and the final state. -/
def runAdvances : CBC_AngleSet → List AdvanceInput → Option (List AngleSetStatus × CBC_AngleSet)
  | s, [] => some ([], s)
  | s, inp :: rest =>
    match AngleSetAdvance s inp with
    | none => none
    | some (r, s1) =>
      match runAdvances s1 rest with
      | none => none
      | some (rs, s2) => some (r :: rs, s2)

/-! ## Task list of `CBC_SPDS` -/

/-- Modelled from the spec: the enumeration `FaceOrientation` is declared
outside the sources; cbc.cc tests its values INCOMING and OUTGOING, any other
value leaves the face out. -/
inductive FaceOrientation where
  | PARALLEL
  | INCOMING
  | OUTGOING
deriving DecidableEq, Repr

/-- Modelled from the spec: a face of a mesh cell, declared outside the sources,
with the two fields cbc.cc reads: whether there is a neighbour cell (a boundary
face has none) and its global id. -/
structure CellFace where
  has_neighbor : Bool
  neighbor_id : Nat
deriving DecidableEq, Repr

/-- Modelled from the spec: a mesh cell, declared outside the sources, with the
fields cbc.cc reads. -/
structure Cell where
  local_id : Nat
  faces : List CellFace
deriving DecidableEq, Repr

/-- Modelled from the spec: the mesh, declared outside the sources, as far as
cbc.cc:72-94 reads it: the local cells in iteration order, `IsCellLocal` on a
global id, and `cells[global id].local_id`. -/
structure MeshContinuum where
  local_cells : List Cell
  IsCellLocal : Nat → Bool
  cell_local_id : Nat → Nat

/-- Body of the face loop (cbc.cc:80-90) for a face of orientation `o`; the
pair is `(num_dependencies, succesors)`, the counter an `unsigned int`. -/
def faceStep (grid : MeshContinuum) (o : FaceOrientation) (face : CellFace)
    (acc : Nat × List Nat) : Nat × List Nat :=
  match o with
  | FaceOrientation.INCOMING =>
    if face.has_neighbor then ((acc.1 + 1) % 2 ^ 32, acc.2) else acc
  | FaceOrientation.OUTGOING =>
    if face.has_neighbor && grid.IsCellLocal face.neighbor_id then
      (acc.1, acc.2 ++ [grid.cell_local_id face.neighbor_id])
    else acc
  | FaceOrientation.PARALLEL => acc

/-- The loop `for (size_t f = 0; f < num_faces; ++f)` of cbc.cc:78-91, from face
number `f` on; `orient f` is `cell_face_orientations_[cell.local_id][f]`. -/
def faceLoop (grid : MeshContinuum) (orient : Nat → FaceOrientation) :
    List CellFace → Nat → Nat × List Nat → Nat × List Nat
  | [], _, acc => acc
  | face :: rest, f, acc => faceLoop grid orient rest (f + 1) (faceStep grid (orient f) face acc)

/-- The task pushed for one local cell (cbc.cc:74-93). -/
def cellTask (grid : MeshContinuum) (cell_face_orientations_ : Nat → Nat → FaceOrientation)
    (cell : Cell) : Task :=
  let r := faceLoop grid (cell_face_orientations_ cell.local_id) cell.faces 0 (0, [])
  { num_dependencies_ := r.1, successors_ := r.2, reference_id_ := cell.local_id,
    completed_ := false }

/-- The `task_list_` built by the loop over `grid_.local_cells` (cbc.cc:72-94),
returned by `CBC_SPDS::TaskList`. -/
def CBC_SPDS_TaskList (grid : MeshContinuum)
    (cell_face_orientations_ : Nat → Nat → FaceOrientation) : List Task :=
  grid.local_cells.map (cellTask grid cell_face_orientations_)

/-! ## Quantities used in the statements and proofs -/

/-- A task the scan of lines 66-83 sweeps when it reaches it. -/
def Task.ready (t : Task) : Prop := t.num_dependencies_ = 0 ∧ t.completed_ = false

/-- Sum over the tasks that are not completed of a weight of their successors
list. -/
def openWeight (w : List Nat → Nat) (tl : List Task) : Nat :=
  (tl.map (fun s => if s.completed_ then 0 else w s.successors_)).sum

/-- Number of tasks that are not completed. -/
def uncompleted (tl : List Task) : Nat := openWeight (fun _ => 1) tl

/-- Number of entries equal to `t` in the successors lists of the tasks that are
not completed: the local dependency edges into `t` still to be resolved. -/
def pendingEdges (tl : List Task) (t : Nat) : Nat := openWeight (fun S => S.count t) tl

/-- The boundaries on which `UpdateAnglesReadyStatus` was called, in call order. -/
def updatesOf (tr : List Event) : List Nat :=
  tr.filterMap (fun e => match e with
    | Event.UpdateAnglesReadyStatus b => some b
    | _ => none)

/-- The positions of the tasks handed to the sweep kernel, in call order. -/
def sweptCells (tr : List Event) : List Nat :=
  tr.filterMap (fun e => match e with
    | Event.SweepCell i => some i
    | _ => none)

/-- Whether the task at position `i` exists and has `completed_` set. -/
def isCompleted (tl : List Task) (i : Nat) : Bool :=
  match tl[i]? with
  | some c => c.completed_
  | none => false

/-- Number of entries equal to `t` in the successors lists of all tasks: the
local dependency edges into `t`, one per listing. -/
def localEdgesInto (tl : List Task) (t : Nat) : Nat :=
  (tl.map (fun s => s.successors_.count t)).sum

/-- All task numbers returned by `ReceiveData` over a sequence of calls. -/
def allReceived : List AdvanceInput → List Nat
  | [] => []
  | inp :: rest => inp.tasks_who_received_data ++ allReceived rest

/-- In the sequence `sw` of swept positions, every task comes after all tasks
that list it in their successors. -/
def SweepOrder (tl : List Task) (sw : List Nat) : Prop :=
  ∀ (pre post : List Nat) (t : Nat), sw = pre ++ t :: post →
    ∀ (p : Nat) (c : Task), tl[p]? = some c → t ∈ c.successors_ → p ∈ pre

/-- State of a sweep in which no decrement has been applied at 0: every counter
is the number of open local edges into the task plus `rem`, the data still to
be received for it; it is at most `ub`, and 0 once the task is completed; the
kernel calls logged are those of the completed tasks, in dependency order. -/
def SweepInv (rem ub : Nat → Nat) (tl : List Task) (new : List Event) : Prop :=
  (∀ (t : Nat) (c : Task), tl[t]? = some c →
    c.num_dependencies_ = pendingEdges tl t + rem t ∧ c.num_dependencies_ ≤ ub t ∧
    c.num_dependencies_ < 2 ^ 32 ∧ (c.completed_ = true → c.num_dependencies_ = 0)) ∧
  (∀ i, i ∈ sweptCells new ↔ isCompleted tl i = true) ∧
  SweepOrder tl (sweptCells new)

/-- Number of INCOMING faces, from face number `f` on, that satisfy `p`. -/
def incomingFaces (p : CellFace → Bool) (orient : Nat → FaceOrientation) :
    List CellFace → Nat → Nat
  | [], _ => 0
  | face :: rest, f =>
    (if orient f = FaceOrientation.INCOMING ∧ p face = true then 1 else 0) +
      incomingFaces p orient rest (f + 1)

/-! ## Scenarios -/

/-- Answers of a call in which nothing is received, every boundary is ready and
the last `SendData` reports that all messages are sent. -/
def quietInput : AdvanceInput :=
  { tasks_who_received_data := [], bndry_ready := fun _ => true, all_messages_sent := true }

/-- Answers of a call in which nothing is received, boundary 0 is not ready. -/
def blockedInput : AdvanceInput :=
  { tasks_who_received_data := [], bndry_ready := fun b => b != 0, all_messages_sent := true }

/-- Answers of a call in which `ReceiveData` reports task 0, every boundary is
ready and all messages are sent. -/
def reportsTask0 : AdvanceInput :=
  { tasks_who_received_data := [0], bndry_ready := fun _ => true, all_messages_sent := true }

/-- An angle set with one task without dependencies and one reference boundary,
not yet advanced. -/
def oneTaskSet : CBC_AngleSet :=
  { cbc_spds_ := [{ num_dependencies_ := 0, successors_ := [], reference_id_ := 0,
                    completed_ := false }]
    ref_boundaries_ := [0]
    current_task_list_ := []
    executed_ := false
    trace := [] }

/-- The one-task angle set after its first call: the task is completed, the
set is not yet marked executed. -/
def oneTaskSwept : CBC_AngleSet :=
  { cbc_spds_ := oneTaskSet.cbc_spds_
    ref_boundaries_ := [0]
    current_task_list_ := [{ num_dependencies_ := 0, successors_ := [], reference_id_ := 0,
                             completed_ := true }]
    executed_ := false
    trace := [Event.SetAngleSet, Event.ReceiveData, Event.SendData,
      Event.CheckAnglesReadyStatus 0, Event.SweepCell 0, Event.SendData, Event.SendData,
      Event.SendData, Event.SendData] }

/-- The 2x2 grid swept along a diagonal: a source, two intermediate cells, a
sink. -/
def grid2x2 : List Task :=
  [ { num_dependencies_ := 0, successors_ := [1, 2], reference_id_ := 0, completed_ := false },
    { num_dependencies_ := 1, successors_ := [3], reference_id_ := 1, completed_ := false },
    { num_dependencies_ := 1, successors_ := [3], reference_id_ := 2, completed_ := false },
    { num_dependencies_ := 2, successors_ := [], reference_id_ := 3, completed_ := false } ]

/-- An angle set on the 2x2 grid with reference boundaries 0 and 1, after
`ResetSweepBuffers`. -/
def grid2x2Set : CBC_AngleSet :=
  { cbc_spds_ := grid2x2
    ref_boundaries_ := [0, 1]
    current_task_list_ := []
    executed_ := false
    trace := [] }

/-- The 2x2 grid with its tasks listed against the sweep order: the sink at
position 0, the source at position 3. -/
def sinkFirstSet : CBC_AngleSet :=
  { cbc_spds_ :=
      [ { num_dependencies_ := 2, successors_ := [], reference_id_ := 0, completed_ := false },
        { num_dependencies_ := 1, successors_ := [0], reference_id_ := 1, completed_ := false },
        { num_dependencies_ := 1, successors_ := [0], reference_id_ := 2, completed_ := false },
        { num_dependencies_ := 0, successors_ := [1, 2], reference_id_ := 3,
          completed_ := false } ]
    ref_boundaries_ := [0]
    current_task_list_ := []
    executed_ := false
    trace := [] }

/-- The downstream partition of the two-partition scenario: one local cell
(global id 1) whose face 0 is the cross-partition face, its neighbour (global
id 0) being on the other partition, and whose face 1 is a boundary face. -/
def downstreamGrid : MeshContinuum :=
  { local_cells := [{ local_id := 0, faces := [{ has_neighbor := true, neighbor_id := 0 },
                                                 { has_neighbor := false, neighbor_id := 0 }] }]
    IsCellLocal := fun g => g == 1
    cell_local_id := fun _ => 0 }

/-- The face orientations of the downstream cell: face 0 INCOMING, face 1
OUTGOING. -/
def downstreamOrient : Nat → Nat → FaceOrientation :=
  fun _ f => if f = 0 then FaceOrientation.INCOMING else FaceOrientation.OUTGOING

/-- The angle set of the downstream partition, with one reference boundary. -/
def downstreamSet : CBC_AngleSet :=
  { cbc_spds_ := CBC_SPDS_TaskList downstreamGrid downstreamOrient
    ref_boundaries_ := [0]
    current_task_list_ := []
    executed_ := false
    trace := [] }

/-- An angle set of two tasks without dependencies, the first of which lists
the second in its successors. -/
def wrapSet : CBC_AngleSet :=
  { cbc_spds_ :=
      [ { num_dependencies_ := 0, successors_ := [1], reference_id_ := 0, completed_ := false },
        { num_dependencies_ := 0, successors_ := [], reference_id_ := 1, completed_ := false } ]
    ref_boundaries_ := [0]
    current_task_list_ := []
    executed_ := false
    trace := [] }

/-- The loop state with `p` put in front of its log. -/
def LoopState.prepend (p : List Event) (st : LoopState) : LoopState :=
  { st with trace := p ++ st.trace }

/-- The angle set with `p` put in front of its log. -/
def CBC_AngleSet.prepend (p : List Event) (s : CBC_AngleSet) : CBC_AngleSet :=
  { s with trace := p ++ s.trace }

/-- The angle set right after `ResetSweepBuffers`, with an empty log. -/
def CBC_AngleSet.fresh (s : CBC_AngleSet) : CBC_AngleSet :=
  { s with current_task_list_ := [], executed_ := false, trace := [] }

/-- The task numbers returned by `ReceiveData` in the calls of a sequence that
reach line 50, that is, those entered with `executed_` false. -/
def processedReceived : CBC_AngleSet → List AdvanceInput → List Nat
  | _, [] => []
  | s, inp :: rest =>
    match AngleSetAdvance s inp with
    | none => []
    | some (_, s1) =>
      (if s.executed_ then [] else inp.tasks_who_received_data) ++ processedReceived s1 rest

/-- Number of entries equal to `t` in the successors list of the task at
position `p`: the decrements of line 76 applied to `t` when `p` is swept. -/
def listings (tl : List Task) (t p : Nat) : Nat :=
  match tl[p]? with
  | some c => c.successors_.count t
  | none => 0

/-- Number of decrements of line 76 applied to task `t` by the sweeps logged. -/
def sweepDecrements (tl : List Task) (new : List Event) (t : Nat) : Nat :=
  ((sweptCells new).map (listings tl t)).sum

/-- The counters of the list `tl` are those of `spds` after, for every task `t`,
one decrement per entry `t` of `R` and one per listing of `t` in the successors
of a task swept in `new`; the successors lists are those of `spds`. -/
def DecrementLedger (spds : List Task) (R : List Nat) (tl : List Task) (new : List Event) :
    Prop :=
  tl.map Task.successors_ = spds.map Task.successors_ ∧
  ∀ (t : Nat) (c : Task), tl[t]? = some c → ∃ c0, spds[t]? = some c0 ∧
    c.num_dependencies_ =
      decrement^[R.count t + sweepDecrements spds new t] c0.num_dependencies_

/-! ## The `CBC_SPDS` constructor -/

/-- An edge of the local cell graph, as added by
`boost::add_edge(c, successor.first, successor.second, local_DG)` (cbc.cc:44).
The weight, a `double` in the source, is kept as a natural number: only the
order of the weights is used. -/
structure GraphEdge where
  src : Nat
  dst : Nat
  weight : Nat
deriving DecidableEq, Repr

/-- The edges created by the loops of cbc.cc:42-44: for every local cell `c`, in
order, one edge per entry of `cell_successors[c]`. The vector `cell_successors`
is filled by `PopulateCellRelationships`, outside the sources, and is taken as
given: a list of pairs (successor, weight) per cell. -/
def buildEdges (num_loc_cells : Nat) (cell_successors : List (List (Nat × Nat))) :
    List GraphEdge :=
  (List.range num_loc_cells).flatMap (fun c =>
    (cell_successors.getD c []).map (fun successor =>
      { src := c, dst := successor.1, weight := successor.2 }))

/-- Vertex `v` is not yet in `out` and every edge leaving it leads into `out`. -/
def sinkReady (E : List GraphEdge) (out : List Nat) (v : Nat) : Bool :=
  decide (v ∉ out ∧ ∀ e ∈ E, e.src = v → e.dst ∈ out)

/-- Modelled from the spec: the turns of the topological sort, Kahn-style from
the sinks. Each of the `k` turns appends to `out` the first vertex below `N`
that is not in `out` and whose successors are all in `out`; when there is none
the sort stops. Returns the vertices ordered so far and whether all turns were
made. -/
def sortLoop (N : Nat) (E : List GraphEdge) : Nat → List Nat → List Nat × Bool
  | 0, out => (out, true)
  | k + 1, out =>
    match (List.range N).find? (sinkReady E out) with
    | some v => sortLoop N E k (out ++ [v])
    | none => (out, false)

/-- Errors that end the constructor: `boost::not_a_dag`, thrown by the
topological sort, and the `std::logic_error` of cbc.cc:59. -/
inductive CtorError where
  | not_a_dag
  | cyclic_dependencies
deriving DecidableEq, Repr

/-- Modelled from the spec: `boost::topological_sort`, a library routine outside
the sources. The spec asks for a standard DFS- or Kahn-style topological sort
that fails with an error when no complete ordering exists. As the reversal of
cbc.cc:56 shows, the routine writes the vertices in reverse topological order:
every vertex after all its successors. -/
def topological_sort (N : Nat) (E : List GraphEdge) : Except CtorError (List Nat) :=
  let r := sortLoop N E N []
  if r.2 then Except.ok r.1 else Except.error CtorError.not_a_dag

/-- The first edge of lowest weight in a list. -/
def lightest : List GraphEdge → Option GraphEdge
  | [] => none
  | e :: rest =>
    match lightest rest with
    | none => some e
    | some m => if e.weight ≤ m.weight then some e else some m

/-- The edges of `E` between two vertices that are not in `out`. -/
def stuckEdges (E : List GraphEdge) (out : List Nat) : List GraphEdge :=
  E.filter (fun e => decide (e.src ∉ out ∧ e.dst ∉ out))

/-- Modelled from the spec: the turns of the cycle removal, a greedy heuristic
that removes lowest-weight edges first. While the topological sort cannot order
all vertices, the lightest edge between two vertices it left unordered is
removed from the graph and appended to the removed edges. -/
def breakLoop (N : Nat) : Nat → List GraphEdge → List GraphEdge →
    List GraphEdge × List GraphEdge
  | 0, E, removed => (E, removed)
  | k + 1, E, removed =>
    if (sortLoop N E N []).2 then (E, removed)
    else
      match lightest (stuckEdges E (sortLoop N E N []).1) with
      | some e => breakLoop N k (E.erase e) (removed ++ [e])
      | none => (E, removed)

/-- Modelled from the spec: `SPDS::RemoveCyclicDependencies`, of the base class
and outside the sources. It removes from the graph a set of edges that leaves
it acyclic, preferring edges of low weight, and returns the removed edges in
the order of their removal. The pair holds the graph left and the edges
removed. -/
def RemoveCyclicDependencies (N : Nat) (E : List GraphEdge) : List GraphEdge × List GraphEdge :=
  breakLoop N (E.length + 1) E []

/-- What the `CBC_SPDS` constructor leaves in the object: the feedback arc set
`local_sweep_fas_`, the sweep order `spls_.item_id` and the task list. -/
structure CBC_SPDS where
  local_sweep_fas_ : List (Nat × Nat)
  spls_item_id : List Nat
  task_list_ : List Task
deriving DecidableEq, Repr

/-- The constructor `CBC_SPDS::CBC_SPDS` (cbc.cc:15-111), without the exchange of
the location dependencies (cbc.cc:29-36, 64-66) and the printing. `fas0` is
`local_sweep_fas_` as the base class constructor leaves it. -/
def CBC_SPDS.construct (grid : MeshContinuum)
    (cell_face_orientations_ : Nat → Nat → FaceOrientation)
    (cell_successors : List (List (Nat × Nat))) (fas0 : List (Nat × Nat))
    (allow_cycles : Bool) : Except CtorError CBC_SPDS :=
  let num_loc_cells := grid.local_cells.length
  let local_DG := buildEdges num_loc_cells cell_successors
  let r :=
    if allow_cycles then
      let edges_to_remove := RemoveCyclicDependencies num_loc_cells local_DG
      (edges_to_remove.1, fas0 ++ edges_to_remove.2.map (fun e => (e.src, e.dst)))
    else (local_DG, fas0)
  match topological_sort num_loc_cells r.1 with
  | Except.error err => Except.error err
  | Except.ok order =>
    let item_id := order.reverse
    if item_id.isEmpty then Except.error CtorError.cyclic_dependencies
    else
      Except.ok
        { local_sweep_fas_ := r.2
          spls_item_id := item_id
          task_list_ := CBC_SPDS_TaskList grid cell_face_orientations_ }

/-- Modelled from the spec: the classification of a face, done by
`PopulateCellRelationships` outside the sources, by the sign of the dot product
of the outward normal and the direction, a tie counting as OUTGOING. Vectors
have integer components here. -/
def faceOrientation (omega normal : Int × Int × Int) : FaceOrientation :=
  if omega.1 * normal.1 + omega.2.1 * normal.2.1 + omega.2.2 * normal.2.2 < 0 then
    FaceOrientation.INCOMING
  else FaceOrientation.OUTGOING

/-- Position of `a` before position of `b` in a list. -/
def comesBefore (l : List Nat) (a b : Nat) : Prop := l.indexOf a < l.indexOf b

/-- The local cell graph has an edge from `a` to `b`. -/
def edgeRel (E : List GraphEdge) (a b : Nat) : Prop :=
  ∃ e ∈ E, e.src = a ∧ e.dst = b

/-- The local cell graph has no directed cycle. -/
def GraphAcyclic (E : List GraphEdge) : Prop :=
  ∀ v, ¬ Relation.TransGen (edgeRel E) v v

/-- Every vertex of `out` is below `N`, occurs once, and comes after all its
successors. -/
def SinkOrder (N : Nat) (E : List GraphEdge) (out : List Nat) : Prop :=
  out.Nodup ∧ (∀ v ∈ out, v < N) ∧
  ∀ (pre post : List Nat) (v : Nat), out = pre ++ v :: post →
    ∀ e ∈ E, e.src = v → e.dst ∈ pre

/-- Number of INCOMING faces of a cell that the claim on the counters counts:
those with a remote neighbour, and those with a local neighbour whose edge into
the cell is not in the feedback arc set `fas`. -/
def remainingIncoming (grid : MeshContinuum) (orient : Nat → FaceOrientation)
    (fas : List (Nat × Nat)) (cell : Cell) : Nat :=
  incomingFaces (fun face => face.has_neighbor &&
    (!grid.IsCellLocal face.neighbor_id ||
      decide ((grid.cell_local_id face.neighbor_id, cell.local_id) ∉ fas)))
    orient cell.faces 0

/-- A single-partition 2x2 grid: cell `i` has local and global id `i`, cells 0
and 1 in the lower row, 2 and 3 in the upper row; the faces of a cell are
listed west, east, south, north. -/
def diagGrid : MeshContinuum :=
  { local_cells :=
      [ { local_id := 0, faces := [⟨false, 0⟩, ⟨true, 1⟩, ⟨false, 0⟩, ⟨true, 2⟩] },
        { local_id := 1, faces := [⟨true, 0⟩, ⟨false, 0⟩, ⟨false, 0⟩, ⟨true, 3⟩] },
        { local_id := 2, faces := [⟨false, 0⟩, ⟨true, 3⟩, ⟨true, 0⟩, ⟨false, 0⟩] },
        { local_id := 3, faces := [⟨true, 2⟩, ⟨false, 0⟩, ⟨true, 1⟩, ⟨false, 0⟩] } ]
    IsCellLocal := fun _ => true
    cell_local_id := fun g => g }

/-- Outward normals of the faces west, east, south, north. -/
def diagNormal (f : Nat) : Int × Int × Int :=
  match f with
  | 0 => (-1, 0, 0)
  | 1 => (1, 0, 0)
  | 2 => (0, -1, 0)
  | _ => (0, 1, 0)

/-- Face orientations of the 2x2 grid for the direction (1, 1, 0), along the
diagonal from cell 0 to cell 3. -/
def diagOrient : Nat → Nat → FaceOrientation :=
  fun _ f => faceOrientation (1, 1, 0) (diagNormal f)

/-- The successors of the cells of the 2x2 grid for the diagonal direction,
each with weight 1. -/
def diagSuccessors : List (List (Nat × Nat)) :=
  [[(1, 1), (2, 1)], [(3, 1)], [(3, 1)], []]

/-- Two local cells that depend on each other: for each, face 0 is OUTGOING
towards the other cell and face 1 INCOMING from it. -/
def cyclicGrid : MeshContinuum :=
  { local_cells :=
      [ { local_id := 0, faces := [⟨true, 1⟩, ⟨true, 1⟩] },
        { local_id := 1, faces := [⟨true, 0⟩, ⟨true, 0⟩] } ]
    IsCellLocal := fun _ => true
    cell_local_id := fun g => g }

/-- Face orientations of the two cyclic cells. -/
def cyclicOrient : Nat → Nat → FaceOrientation :=
  fun _ f => if f = 0 then FaceOrientation.OUTGOING else FaceOrientation.INCOMING

/-- Successors of the two cyclic cells; the edge from cell 1 to cell 0 is the
lighter one. -/
def cyclicSuccessors : List (List (Nat × Nat)) :=
  [[(1, 2)], [(0, 1)]]

/-! ## `LineQuadrature::SetRange` -/

/-- Modelled from the spec: a `Vector3`, declared outside the sources, with its
three coordinates; `v(0)` and `v[0]` are the first one. A `double` is a rational
number here: the arithmetic is exact, without rounding, infinities or NaN. -/
structure Vector3 where
  x : ℚ
  y : ℚ
  z : ℚ
deriving DecidableEq

/-- The members of a `LineQuadrature` that `SetRange` reads and writes
(spatial_quadrature.h): the abscissae, the weights and the range. -/
structure LineQuadrature where
  qpoints : List Vector3
  weights : List ℚ
  range_ : ℚ × ℚ
deriving DecidableEq

/-- The two `std::invalid_argument` that `SetRange` throws through
`OpenSnInvalidArgumentIf`: "Called with negative or zero ranges." and "Called
with no abscissae initialized." -/
inductive SetRangeError where
  | negative_or_zero_ranges
  | no_abscissae
deriving DecidableEq, Repr

/-- How a call of `SetRange` ends: it returns, it throws, or it leaves defined
behaviour (an access outside `weights`, or more points than the 32-bit loop
counter can pass). -/
inductive SetRangeOutcome where
  | returned
  | invalid_argument (e : SetRangeError)
  | undefined_behaviour
deriving DecidableEq, Repr

/-- The loop of line_quadrature.cc:30-34 from index `i` on, with `n` points
left:
`qpoints[i](0) = new_range.first + (qpoints[i][0] - old_range.first) * scale_factor;
weights[i] *= scale_factor;`. An index outside a vector gives `none`. -/
def scaleLoop (new_first old_first scale_factor : ℚ) :
    Nat → Nat → LineQuadrature → Option LineQuadrature
  | 0, _, q => some q
  | n + 1, i, q =>
    match q.qpoints[i]?, q.weights[i]? with
    | some p, some w =>
      scaleLoop new_first old_first scale_factor n (i + 1)
        { q with
          qpoints := q.qpoints.set i { p with x := new_first + (p.x - old_first) * scale_factor }
          weights := q.weights.set i (w * scale_factor) }
    | _, _ => none

/-- The method `LineQuadrature::SetRange` (line_quadrature.cc:19-37): the outcome
and the object after the call. `OpenSnInvalidArgumentIf`, a macro outside the
sources, throws `std::invalid_argument` when its condition holds. -/
def LineQuadrature.SetRange (q : LineQuadrature) (range : ℚ × ℚ) :
    SetRangeOutcome × LineQuadrature :=
  let old_range := q.range_
  let new_range := range
  let h_new := new_range.2 - new_range.1
  let h_old := old_range.2 - old_range.1
  if h_new ≤ 0 ∨ h_old ≤ 0 then
    (SetRangeOutcome.invalid_argument SetRangeError.negative_or_zero_ranges, q)
  else if q.qpoints.isEmpty then
    (SetRangeOutcome.invalid_argument SetRangeError.no_abscissae, q)
  else
    let scale_factor := h_new / h_old
    if 2 ^ 32 ≤ q.qpoints.length then (SetRangeOutcome.undefined_behaviour, q)
    else
      match scaleLoop new_range.1 old_range.1 scale_factor q.qpoints.length 0 q with
      | none => (SetRangeOutcome.undefined_behaviour, q)
      | some q1 => (SetRangeOutcome.returned, { q1 with range_ := range })

/-- A two-point quadrature on [0, 1] with a second coordinate set. -/
def unitQuadrature : LineQuadrature :=
  { qpoints := [⟨1 / 4, 5, 0⟩, ⟨3 / 4, 0, 7⟩], weights := [1 / 2, 1 / 2], range_ := (0, 1) }

/-- A quadrature whose range has length zero, as the base class constructor
leaves it. -/
def pointQuadrature : LineQuadrature :=
  { qpoints := [⟨0, 0, 0⟩], weights := [1], range_ := (0, 0) }

/-! ## The ready-task loop, counted -/

/-- Number of full scans of the task list (turns of `while (a_task_executed)`,
lines 63-85) that the loop makes from `st`, counted up to `fuel` turns. -/
def loopScans : Nat → LoopState → Nat
  | 0, _ => 0
  | fuel + 1, st => if st.a_task_executed then 1 + loopScans fuel (forPass st) else 0

/-! ## `Unknown::GetMap` -/

/-- The enumeration `UnknownType` (unknown_manager.h:14-21). -/
inductive UnknownType where
  | SCALAR
  | VECTOR_2
  | VECTOR_3
  | VECTOR_N
  | TENSOR
deriving DecidableEq, Repr

/-- The three numeric members of the class `Unknown` (unknown_manager.h:34-36);
the two `unsigned int` are natural numbers below `2 ^ 32`. -/
structure Unknown where
  type_ : UnknownType
  num_components_ : Nat
  map_begin_ : Nat
deriving DecidableEq, Repr

/-- The constructor `Unknown(type, num_components, map_begin)`
(unknown_manager.h:42-59), as far as the numeric members go. -/
def Unknown.construct (type : UnknownType) (num_components map_begin : Nat) : Unknown :=
  { type_ := type
    num_components_ :=
      if type = UnknownType.SCALAR then 1
      else if type = UnknownType.VECTOR_2 then 2
      else if type = UnknownType.VECTOR_3 then 3
      else num_components % 2 ^ 32
    map_begin_ := map_begin % 2 ^ 32 }

/-- The exception `std::out_of_range` thrown by `GetMap`. -/
inductive UnknownError where
  | out_of_range
deriving DecidableEq, Repr

/-- The method `Unknown::GetMap` (unknown_manager.h:61-109); the sums are
`unsigned int`. -/
def Unknown.GetMap (u : Unknown) (component_number : Nat) : Except UnknownError Nat :=
  match u.type_ with
  | UnknownType.SCALAR =>
    if component_number ≥ u.num_components_ then Except.error UnknownError.out_of_range
    else Except.ok 0
  | UnknownType.VECTOR_2 =>
    if component_number ≥ u.num_components_ then Except.error UnknownError.out_of_range
    else Except.ok ((u.map_begin_ + component_number) % 2 ^ 32)
  | UnknownType.VECTOR_3 =>
    if component_number ≥ u.num_components_ then Except.error UnknownError.out_of_range
    else Except.ok ((u.map_begin_ + component_number) % 2 ^ 32)
  | UnknownType.VECTOR_N =>
    if component_number ≥ u.num_components_ then Except.error UnknownError.out_of_range
    else Except.ok ((u.map_begin_ + component_number) % 2 ^ 32)
  | UnknownType.TENSOR =>
    if component_number ≥ u.num_components_ then Except.error UnknownError.out_of_range
    else Except.ok ((u.map_begin_ + component_number) % 2 ^ 32)

/-- The method `Unknown::GetMapEnd` (unknown_manager.h:110):
`map_begin_ + num_components_ - 1` in `unsigned int`. -/
def Unknown.GetMapEnd (u : Unknown) : Nat :=
  (u.map_begin_ + u.num_components_ + (2 ^ 32 - 1)) % 2 ^ 32

/-! ## The sources of the `ResponseEvaluator` -/

/-- Modelled from the spec: the enumeration `BoundaryType`, declared outside the
sources. response_evaluator.cc names ISOTROPIC only; `OTHER` stands for the
remaining values. -/
inductive BoundaryType where
  | ISOTROPIC
  | OTHER
deriving DecidableEq, Repr

/-- Modelled from the spec: the value type of `boundary_sources_`, declared
outside the sources, as the aggregate `{type, group_strength}` of
response_evaluator.cc:283 fills it and `EvaluateBoundaryCondition` reads it. -/
structure BoundarySource where
  type : BoundaryType
  isotropic_mg_source : List ℚ

/-- The members of the `ResponseEvaluator` used by the source options: the
number of groups of the solver (`lbs_solver_.NumGroups()`), its map
`supported_boundary_names`, and the maps `material_sources_` and
`boundary_sources_`. A map is a partial function on its keys. -/
structure ResponseEvaluator where
  NumGroups : Nat
  supported_boundary_names : String → Option Nat
  material_sources_ : Int → Option (List ℚ)
  boundary_sources_ : Nat → Option BoundarySource

/-- What ends a call on the `ResponseEvaluator` other than a return: the two
`std::invalid_argument` of `SetMaterialSourceOptions`, the one of
`SetBoundarySourceOptions`, the `std::out_of_range` of a map's `at`, the throw
of `RequireParameterBlockTypeIs`, the logical error of
`EvaluateBoundaryCondition`, and an access outside a vector (undefined
behaviour). -/
inductive ResponseError where
  | material_source_exists
  | strength_size_mismatch
  | group_strength_required
  | out_of_range
  | block_type_mismatch
  | unsupported_boundary_condition
  | undefined_behaviour
deriving DecidableEq, Repr

/-- How a call that returns nothing ends. -/
inductive CallOutcome where
  | returned
  | thrown (e : ResponseError)
deriving DecidableEq, Repr

/-- The method `ResponseEvaluator::SetMaterialSourceOptions`
(response_evaluator.cc:251-268) for the parameters `material_id` and `strength`,
both required by `MaterialSourceOptionsBlock`: the outcome and the object after
the call. -/
def ResponseEvaluator.SetMaterialSourceOptions (ev : ResponseEvaluator) (matid : Int)
    (values : List ℚ) : CallOutcome × ResponseEvaluator :=
  if (ev.material_sources_ matid).isSome then
    (CallOutcome.thrown ResponseError.material_source_exists, ev)
  else if values.length ≠ ev.NumGroups then
    (CallOutcome.thrown ResponseError.strength_size_mismatch, ev)
  else
    (CallOutcome.returned,
      { ev with material_sources_ := fun k => if k = matid then some values
                                             else ev.material_sources_ k })

/-- The enumeration `ParameterBlockType`, declared outside the sources;
response_evaluator.cc names ARRAY and BLOCK, `OTHER` stands for the remaining
values. -/
inductive ParameterBlockType where
  | ARRAY
  | BLOCK
  | OTHER
deriving DecidableEq, Repr

/-- The parameters of a boundary source as `SetBoundarySourceOptions` reads
them: "name", "type", the array "group_strength" when `params.Has` it, and the
block type of the parameter "values" when the parameters hold one. -/
structure BoundarySourceParams where
  name : String
  type : String
  group_strength : Option (List ℚ)
  values : Option ParameterBlockType

/-- Modelled from the spec: `InputParameters::RequireParameterBlockTypeIs`,
outside the sources. It returns when the parameters hold the named parameter
and its block type is the required one, and throws otherwise; `held` is the
block type of the named parameter when the parameters hold it. -/
def RequireParameterBlockTypeIs (held : Option ParameterBlockType)
    (type : ParameterBlockType) : Bool :=
  decide (held = some type)

/-- The method `ResponseEvaluator::SetBoundarySourceOptions`
(response_evaluator.cc:270-289): the outcome and the object after the call.
Line 282 requires the parameter "values", not "group_strength", to be an
array. -/
def ResponseEvaluator.SetBoundarySourceOptions (ev : ResponseEvaluator)
    (params : BoundarySourceParams) : CallOutcome × ResponseEvaluator :=
  let bndry_name := params.name
  let bndry_type := params.type
  match ev.supported_boundary_names bndry_name with
  | none => (CallOutcome.thrown ResponseError.out_of_range, ev)
  | some bid =>
    if bndry_type = "isotropic" then
      match params.group_strength with
      | none => (CallOutcome.thrown ResponseError.group_strength_required, ev)
      | some strength =>
        if RequireParameterBlockTypeIs params.values ParameterBlockType.ARRAY then
          (CallOutcome.returned,
            { ev with boundary_sources_ := fun k =>
                if k = bid then some { type := BoundaryType.ISOTROPIC,
                                       isotropic_mg_source := strength }
                else ev.boundary_sources_ k })
        else (CallOutcome.thrown ResponseError.block_type_mismatch, ev)
    else (CallOutcome.returned, ev)

/-- The members of an `LBSGroupset` read by `EvaluateBoundaryCondition`: the
number of directions `quadrature->omegas.size()` and the ids of its groups. -/
structure LBSGroupset where
  num_gs_angles : Nat
  groups : List Nat

/-- The inner loop of response_evaluator.cc:466-467 from `gsg` on, with `k` groups
left: `psi.emplace_back(bc.isotropic_mg_source[first_group + gsg])`. An index
outside the vector gives `none`. -/
def groupLoop (source : List ℚ) (first_group : Nat) : Nat → Nat → List ℚ → Option (List ℚ)
  | 0, _, psi => some psi
  | k + 1, gsg, psi =>
    match source[first_group + gsg]? with
    | some v => groupLoop source first_group k (gsg + 1) (psi ++ [v])
    | none => none

/-- The outer loop of response_evaluator.cc:465-467 with `k` directions left. -/
def angleLoop (source : List ℚ) (first_group num_gs_groups : Nat) :
    Nat → List ℚ → Option (List ℚ)
  | 0, psi => some psi
  | k + 1, psi =>
    match groupLoop source first_group num_gs_groups 0 psi with
    | some psi1 => angleLoop source first_group num_gs_groups k psi1
    | none => none

/-- The method `ResponseEvaluator::EvaluateBoundaryCondition`
(response_evaluator.cc:452-472). `front()` of an empty vector of groups and an
index outside the stored vector are undefined behaviour in the source. -/
def ResponseEvaluator.EvaluateBoundaryCondition (ev : ResponseEvaluator) (boundary_id : Nat)
    (groupset : LBSGroupset) : Except ResponseError (List ℚ) :=
  let num_gs_angles := groupset.num_gs_angles
  let num_gs_groups := groupset.groups.length
  match groupset.groups.head? with
  | none => Except.error ResponseError.undefined_behaviour
  | some first_group =>
    match ev.boundary_sources_ boundary_id with
    | none => Except.error ResponseError.out_of_range
    | some bc =>
      if bc.type = BoundaryType.ISOTROPIC then
        match angleLoop bc.isotropic_mg_source first_group num_gs_groups num_gs_angles [] with
        | some psi => Except.ok psi
        | none => Except.error ResponseError.undefined_behaviour
      else Except.error ResponseError.unsupported_boundary_condition

/-- A solver with two groups and one boundary, named "xmin", of id 0; no source
is set. -/
def twoGroupEvaluator : ResponseEvaluator :=
  { NumGroups := 2
    supported_boundary_names := fun name => if name = "xmin" then some 0 else none
    material_sources_ := fun _ => none
    boundary_sources_ := fun _ => none }

/-- The groupset of the two groups 0 and 1 with one direction. -/
def twoGroupGroupset : LBSGroupset := { num_gs_angles := 1, groups := [0, 1] }

/-- The parameters of an isotropic source on the boundary "xmin" with the
one-entry `group_strength` {1.0} and an array parameter "values". -/
def shortSourceParams : BoundarySourceParams :=
  { name := "xmin", type := "isotropic", group_strength := some [1],
    values := some ParameterBlockType.ARRAY }

/-- The same parameters without a parameter "values". -/
def noValuesParams : BoundarySourceParams :=
  { name := "xmin", type := "isotropic", group_strength := some [1], values := none }

/-! ## The function registry of the console -/

/-- Modelled from the spec: `LuaFunctionRegistryEntry`, declared outside the
sources, as the aggregate `{function_ptr, name_in_lua}` of chi_console.cc:385
fills it; the function pointer is a number. -/
structure LuaFunctionRegistryEntry where
  function_ptr : Nat
  function_raw_name : String
deriving DecidableEq, Repr

/-- The singleton `Console` as far as `AddFunctionToRegistry` goes: the map
`lua_function_registry_`, a partial function on its keys. -/
structure Console where
  lua_function_registry_ : String → Option LuaFunctionRegistryEntry

/-- How a call of `AddFunctionToRegistry` ends: it returns or throws
`std::logic_error`. -/
inductive RegistryOutcome where
  | returned
  | logic_error
deriving DecidableEq, Repr

/-- The method `Console::AddFunctionToRegistry` (chi_console.cc:365-386): the
outcome and the console after the call. -/
def Console.AddFunctionToRegistry (console : Console) (name_in_lua : String)
    (function_ptr : Nat) : RegistryOutcome × Console :=
  if (console.lua_function_registry_ name_in_lua).isSome then
    (RegistryOutcome.logic_error, console)
  else
    (RegistryOutcome.returned,
      { lua_function_registry_ := fun k =>
          if k = name_in_lua then
            some { function_ptr := function_ptr, function_raw_name := name_in_lua }
          else console.lua_function_registry_ k })

/-- The method `Console::AddFunctionToRegistryInNamespaceWithName`
(chi_console.cc:411-421). -/
def Console.AddFunctionToRegistryInNamespaceWithName (console : Console) (function_ptr : Nat)
    (namespace_name function_name : String) : RegistryOutcome × Console :=
  let name_in_lua := namespace_name ++ "::" ++ function_name
  console.AddFunctionToRegistry name_in_lua function_ptr

/-- A console with the one function "chi::Exit" registered. -/
def oneFunctionConsole : Console :=
  { lua_function_registry_ := fun k =>
      if k = "chi::Exit" then some { function_ptr := 1, function_raw_name := "chi::Exit" }
      else none }

/-- The 2x2 grid as a partition of its own: the cells with global id 0 to 3 are
the local ones. -/
def ownGrid : MeshContinuum :=
  { diagGrid with IsCellLocal := fun g => decide (g < 4) }

/-! ## The groupset angular-flux file -/

/-- Modelled from the spec: an HDF5 file as the helpers of hdf_utils.h, outside
the sources, see it: the groups created, the named attributes and the named
one-dimensional datasets of integers and of reals, in the order written. -/
structure H5File where
  groups : List String
  attributes : List (String × Nat)
  datasets_uint64 : List (String × List Nat)
  datasets_double : List (String × List ℚ)

/-- Modelled from the spec: `H5ReadAttribute` of hdf_utils.h, outside the
sources: the value stored under the name, if the file has the attribute. -/
def H5ReadAttribute (file : H5File) (name : String) : Option Nat :=
  file.attributes.lookup name

/-- A local cell as the two routines read it: `cell.global_id`,
`discretization.GetCellNumNodes(cell)` and
`discretization.GetCellNodeLocations(cell)`. -/
structure IOCell where
  global_id : Nat
  num_nodes : Nat
  nodes : List Vector3

/-- What the two routines read from the solver for one groupset:
`grid.local_cells`, `GetNumLocalNodes()`, the sizes
`groupset.quadrature->abscissae.size()` and `groupset.quadrature->omegas.size()`,
`groupset.groups.size()`, `GetNumLocalDOFs(uk_man)` and
`MapDOFLocal(cell, i, uk_man, n, g)` with the cell given by its global id. -/
structure GroupsetView where
  local_cells : List IOCell
  num_local_nodes : Nat
  abscissae_size : Nat
  omegas_size : Nat
  num_gs_groups : Nat
  num_local_gs_dofs : Nat
  MapDOFLocal : Nat → Nat → Nat → Nat → Nat

/-- What ends one of the two routines other than a return: the logical errors
of lines 24, 107, 138, 140 and 143, an attribute that the file does not hold,
and an access outside a vector. -/
inductive FluxIOError where
  | open_failed
  | attribute_not_found (name : String)
  | incompatible_local_nodes
  | incompatible_angles
  | incompatible_groups
  | undefined_behaviour
deriving DecidableEq, Repr

/-- The indices `dof_map` of the loop nest of groupset_angular_flux_io.cc:82-89,
in the order of the pushes. -/
def writeDofs (solver : GroupsetView) (num_gs_dirs : Nat) : List Nat :=
  solver.local_cells.flatMap (fun cell =>
    (List.range cell.num_nodes).flatMap (fun i =>
      (List.range num_gs_dirs).flatMap (fun n =>
        (List.range solver.num_gs_groups).map (fun g =>
          solver.MapDOFLocal cell.global_id i n g))))

/-- The routine `LBSSolverIO::WriteGroupsetAngularFluxes`
(groupset_angular_flux_io.cc:12-92) for the source vector `src`: the file
written. `created` is whether `H5Fcreate` succeeds. -/
def WriteGroupsetAngularFluxes (solver : GroupsetView) (src : List ℚ) (created : Bool) :
    Except FluxIOError H5File :=
  if !created then Except.error FluxIOError.open_failed
  else
    let num_local_nodes := solver.num_local_nodes
    let num_local_cells := solver.local_cells.length
    let num_gs_dirs := solver.abscissae_size
    let num_gs_groups := solver.num_gs_groups
    let cell_ids := solver.local_cells.map (fun cell => cell.global_id)
    let num_cell_nodes := solver.local_cells.map (fun cell => cell.num_nodes)
    let nodes_x := solver.local_cells.flatMap (fun cell => cell.nodes.map (fun node => node.x))
    let nodes_y := solver.local_cells.flatMap (fun cell => cell.nodes.map (fun node => node.y))
    let nodes_z := solver.local_cells.flatMap (fun cell => cell.nodes.map (fun node => node.z))
    match (writeDofs solver num_gs_dirs).mapM (fun dof_map => src[dof_map]?) with
    | none => Except.error FluxIOError.undefined_behaviour
    | some values =>
      Except.ok
        { groups := ["mesh"]
          attributes :=
            [ ("mesh/num_local_cells", num_local_cells),
              ("mesh/num_local_nodes", num_local_nodes),
              ("num_directions", num_gs_dirs),
              ("num_groups", num_gs_groups) ]
          datasets_uint64 :=
            [("mesh/cell_ids", cell_ids), ("mesh/num_cell_nodes", num_cell_nodes)]
          datasets_double :=
            [ ("mesh/nodes_x", nodes_x), ("mesh/nodes_y", nodes_y), ("mesh/nodes_z", nodes_z),
              ("values", values) ] }

/-- The names of the attributes that `ReadGroupsetAngularFluxes` reads
(groupset_angular_flux_io.cc:119, 120, 135, 136). -/
def attributesRead : List String :=
  ["mesh/num_local_cells", "mesh/num_local_nodes", "num_gs_dirs", "num_gs_groups"]

/-- The numbers `ReadGroupsetAngularFluxes` has read from the file when its
compatibility checks are passed. -/
structure MacroData where
  file_num_local_cells : Nat
  file_num_local_nodes : Nat
  file_num_gs_angles : Nat
  file_num_gs_groups : Nat
deriving DecidableEq, Repr

/-- One `H5ReadAttribute(file_id, name, variable)` of the reader. The variables
are declared without initialiser; for an attribute that the file does not hold
nothing defined can follow, and the model ends with `attribute_not_found`. -/
def readAttribute (file : H5File) (name : String) : Except FluxIOError Nat :=
  match H5ReadAttribute file name with
  | some value => Except.ok value
  | none => Except.error (FluxIOError.attribute_not_found name)

/-- The routine `LBSSolverIO::ReadGroupsetAngularFluxes` up to its compatibility
checks (groupset_angular_flux_io.cc:104-145); `file` is `none` when `H5Fopen`
fails. -/
def readMacroData (solver : GroupsetView) (file : Option H5File) :
    Except FluxIOError MacroData :=
  match file with
  | none => Except.error FluxIOError.open_failed
  | some file =>
    match readAttribute file "mesh/num_local_cells" with
    | Except.error e => Except.error e
    | Except.ok file_num_local_cells =>
    match readAttribute file "mesh/num_local_nodes" with
    | Except.error e => Except.error e
    | Except.ok file_num_local_nodes =>
    let num_local_nodes := solver.num_local_nodes
    let num_gs_dirs := solver.omegas_size
    let num_gs_groups := solver.num_gs_groups
    match readAttribute file "num_gs_dirs" with
    | Except.error e => Except.error e
    | Except.ok file_num_gs_angles =>
    match readAttribute file "num_gs_groups" with
    | Except.error e => Except.error e
    | Except.ok file_num_gs_groups =>
    if file_num_local_nodes ≠ num_local_nodes then
      Except.error FluxIOError.incompatible_local_nodes
    else if file_num_gs_angles ≠ num_gs_dirs then Except.error FluxIOError.incompatible_angles
    else if file_num_gs_groups ≠ num_gs_groups then Except.error FluxIOError.incompatible_groups
    else
      Except.ok
        { file_num_local_cells := file_num_local_cells
          file_num_local_nodes := file_num_local_nodes
          file_num_gs_angles := file_num_gs_angles
          file_num_gs_groups := file_num_gs_groups }

/-- A solver state with one cell of one node, one direction and one group. -/
def oneDofView : GroupsetView :=
  { local_cells := [{ global_id := 0, num_nodes := 1, nodes := [⟨0, 0, 0⟩] }]
    num_local_nodes := 1
    abscissae_size := 1
    omegas_size := 1
    num_gs_groups := 1
    num_local_gs_dofs := 1
    MapDOFLocal := fun _ _ _ _ => 0 }

/-! ## The face counters of `AAH_SweepChunk::Sweep` -/

/-- Answers of a call in which `ReceiveData` reports task 0 twice, every
boundary is ready and all messages are sent. -/
def reportsTask0Twice : AdvanceInput :=
  { tasks_who_received_data := [0, 0], bndry_ready := fun _ => true,
    all_messages_sent := true }

/-- A chain of two tasks: task 0 has one remote incoming face and the local
successor 1, task 1 has task 0 as its one local predecessor. -/
def chainSet : CBC_AngleSet :=
  { cbc_spds_ :=
      [ { num_dependencies_ := 1, successors_ := [1], reference_id_ := 0, completed_ := false },
        { num_dependencies_ := 1, successors_ := [], reference_id_ := 1, completed_ := false } ]
    ref_boundaries_ := [0]
    current_task_list_ := []
    executed_ := false
    trace := [] }

/-! ## Elementary facts about the list updates -/

theorem decrement_lt (n : Nat) : decrement n < 2 ^ 32 := by
  unfold decrement
  exact Nat.mod_lt _ (by norm_num)

theorem decrement_pos {n : Nat} (h0 : 0 < n) (hn : n < 2 ^ 32) : decrement n = n - 1 := by
  unfold decrement
  omega

theorem decrement_iterate {k n : Nat} (hk : k ≤ n) (hn : n < 2 ^ 32) :
    decrement^[k] n = n - k := by
  induction k with
  | zero => simp
  | succ k ih =>
    rw [Function.iterate_succ_apply', ih (by omega), decrement_pos (by omega) (by omega)]
    omega

theorem decAt_getElem? (tl : List Task) (i j : Nat) :
    (decAt tl i)[j]? = (tl[j]?).map (fun t =>
      if j = i then { t with num_dependencies_ := decrement t.num_dependencies_ } else t) := by
  unfold decAt
  cases h : tl[i]? with
  | none =>
    by_cases hji : j = i
    · subst hji; simp [h]
    · cases tl[j]? <;> simp [hji]
  | some t =>
    have hlt : i < tl.length := (List.getElem?_eq_some.mp h).1
    by_cases hji : j = i
    · subst hji; simp [List.getElem?_set, h, hlt]
    · have hij : i ≠ j := fun e => hji e.symm
      cases h2 : tl[j]? <;> simp [List.getElem?_set, hij, hji, h2]

theorem setCompleted_getElem? (tl : List Task) (i j : Nat) :
    (setCompleted tl i)[j]? = (tl[j]?).map (fun t =>
      if j = i then { t with completed_ := true } else t) := by
  unfold setCompleted
  cases h : tl[i]? with
  | none =>
    by_cases hji : j = i
    · subst hji; simp [h]
    · cases tl[j]? <;> simp [hji]
  | some t =>
    have hlt : i < tl.length := (List.getElem?_eq_some.mp h).1
    by_cases hji : j = i
    · subst hji; simp [List.getElem?_set, h, hlt]
    · have hij : i ≠ j := fun e => hji e.symm
      cases h2 : tl[j]? <;> simp [List.getElem?_set, hij, hji, h2]

theorem foldl_decAt_getElem? (L : List Nat) (tl : List Task) (j : Nat) :
    (L.foldl decAt tl)[j]? = (tl[j]?).map (fun t =>
      { t with num_dependencies_ := decrement^[L.count j] t.num_dependencies_ }) := by
  induction L generalizing tl with
  | nil =>
    rw [List.foldl_nil]
    cases tl[j]? with
    | none => rfl
    | some t => rfl
  | cons a L ih =>
    rw [List.foldl_cons, ih, decAt_getElem?]
    cases tl[j]? with
    | none => rfl
    | some t =>
      by_cases hja : j = a
      · subst hja
        have hc : List.count j (j :: L) = List.count j L + 1 := by
          rw [List.count_cons]; simp only [beq_self_eq_true, if_true]
        rw [hc, Option.map_some', Option.map_some', Option.map_some', if_pos rfl,
          Function.iterate_succ_apply]
      · have hc : List.count j (a :: L) = List.count j L := by
          rw [List.count_cons]
          have : (a == j) = false := by simpa using fun e : a = j => hja e.symm
          simp only [this, Bool.false_eq_true, if_false, Nat.add_zero]
        rw [hc, Option.map_some', Option.map_some', Option.map_some', if_neg hja]

/-- The task list after the body of the `if` of lines 69-82 for a ready task
`c` at position `i`, entry by entry. -/
theorem exec_getElem? (tl : List Task) (c : Task) (i j : Nat) :
    (setCompleted (c.successors_.foldl decAt tl) i)[j]? = (tl[j]?).map (fun t =>
      { t with
        num_dependencies_ := decrement^[c.successors_.count j] t.num_dependencies_
        completed_ := if j = i then true else t.completed_ }) := by
  rw [setCompleted_getElem?, foldl_decAt_getElem?]
  cases tl[j]? with
  | none => simp
  | some t => by_cases hji : j = i <;> simp [hji]

theorem length_eq_of_getElem?_map {tl tl2 : List Task} {f : Nat → Task → Task}
    (h : ∀ j, tl2[j]? = (tl[j]?).map (f j)) : tl2.length = tl.length := by
  by_contra hne
  rcases Nat.lt_or_gt_of_ne hne with hlt | hgt
  · have := h tl2.length
    rw [List.getElem?_eq_none (le_refl _), List.getElem?_eq_getElem hlt] at this
    simp at this
  · have := h tl.length
    rw [List.getElem?_eq_none (le_refl _), List.getElem?_eq_getElem hgt] at this
    simp at this

theorem foldl_decAt_length (L : List Nat) (tl : List Task) :
    (L.foldl decAt tl).length = tl.length :=
  length_eq_of_getElem?_map (foldl_decAt_getElem? L tl)

theorem exec_length (tl : List Task) (c : Task) (i : Nat) :
    (setCompleted (c.successors_.foldl decAt tl) i).length = tl.length :=
  length_eq_of_getElem?_map (exec_getElem? tl c i)

/-! ## The scan, one task at a time -/

theorem visit_none {st : LoopState} {i : Nat} (h : st.tasks[i]? = none) : visit st i = st := by
  unfold visit; rw [h]

theorem visit_ready {st : LoopState} {i : Nat} {c : Task} (h : st.tasks[i]? = some c)
    (hr : c.ready) :
    visit st i =
      { tasks := setCompleted (c.successors_.foldl decAt st.tasks) i
        all_tasks_completed := false
        a_task_executed := true
        trace := st.trace ++ [Event.SweepCell i, Event.SendData] } := by
  unfold visit; rw [h]
  have h1 : c.num_dependencies_ = 0 := hr.1
  have h2 : c.completed_ = false := hr.2
  simp only [h1, h2, Bool.not_false, if_true, and_self]

theorem visit_not_ready {st : LoopState} {i : Nat} {c : Task} (h : st.tasks[i]? = some c)
    (hr : ¬ c.ready) :
    visit st i =
      { st with all_tasks_completed := if !c.completed_ then false else st.all_tasks_completed } := by
  unfold visit; rw [h]
  simp only [if_neg (show ¬ (c.num_dependencies_ = 0 ∧ c.completed_ = false) from hr)]

/-- An invariant of the task list and the log that survives the sweep of a ready
task survives the visit of any position. -/
theorem visit_inv (P : List Task → List Event → Prop)
    (hexec : ∀ tl tr i c, P tl tr → tl[i]? = some c → c.ready →
      P (setCompleted (c.successors_.foldl decAt tl) i)
        (tr ++ [Event.SweepCell i, Event.SendData]))
    (st : LoopState) (i : Nat) (h : P st.tasks st.trace) :
    P (visit st i).tasks (visit st i).trace := by
  cases hi : st.tasks[i]? with
  | none => rw [visit_none hi]; exact h
  | some c =>
    by_cases hr : c.ready
    · rw [visit_ready hi hr]; exact hexec _ _ _ _ h hi hr
    · rw [visit_not_ready hi hr]; exact h

theorem foldl_visit_inv (P : List Task → List Event → Prop)
    (hexec : ∀ tl tr i c, P tl tr → tl[i]? = some c → c.ready →
      P (setCompleted (c.successors_.foldl decAt tl) i)
        (tr ++ [Event.SweepCell i, Event.SendData]))
    (idx : List Nat) (st : LoopState) (h : P st.tasks st.trace) :
    P (idx.foldl visit st).tasks (idx.foldl visit st).trace := by
  induction idx generalizing st with
  | nil => exact h
  | cons i idx ih => rw [List.foldl_cons]; exact ih _ (visit_inv P hexec st i h)

theorem forPass_inv (P : List Task → List Event → Prop)
    (hexec : ∀ tl tr i c, P tl tr → tl[i]? = some c → c.ready →
      P (setCompleted (c.successors_.foldl decAt tl) i)
        (tr ++ [Event.SweepCell i, Event.SendData]))
    (hsend : ∀ tl tr, P tl tr → P tl (tr ++ [Event.SendData]))
    (st : LoopState) (h : P st.tasks st.trace) :
    P (forPass st).tasks (forPass st).trace := by
  unfold forPass
  exact hsend _ _ (foldl_visit_inv P hexec _ _ h)

theorem whileLoop_inv (P : List Task → List Event → Prop)
    (hexec : ∀ tl tr i c, P tl tr → tl[i]? = some c → c.ready →
      P (setCompleted (c.successors_.foldl decAt tl) i)
        (tr ++ [Event.SweepCell i, Event.SendData]))
    (hsend : ∀ tl tr, P tl tr → P tl (tr ++ [Event.SendData]))
    (fuel : Nat) (st st' : LoopState) (hw : whileLoop fuel st = some st')
    (h : P st.tasks st.trace) : P st'.tasks st'.trace := by
  induction fuel generalizing st with
  | zero =>
    rw [whileLoop] at hw
    split at hw
    · cases hw
    · cases hw; exact h
  | succ fuel ih =>
    rw [whileLoop] at hw
    split at hw
    · exact ih _ hw (forPass_inv P hexec hsend st h)
    · cases hw; exact h

/-! ## Weights of the open tasks -/

theorem openWeight_cons (w : List Nat → Nat) (s : Task) (tl : List Task) :
    openWeight w (s :: tl) = (if s.completed_ then 0 else w s.successors_) + openWeight w tl := by
  unfold openWeight
  rw [List.map_cons, List.sum_cons]

theorem openWeight_set (w : List Nat → Nat) (tl : List Task) (i : Nat) (c c' : Task)
    (hi : tl[i]? = some c) (hc : c.completed_ = false) (hc' : c'.completed_ = true) :
    openWeight w (tl.set i c') + w c.successors_ = openWeight w tl := by
  induction tl generalizing i with
  | nil => simp at hi
  | cons s tl ih =>
    cases i with
    | zero =>
      simp only [List.getElem?_cons_zero, Option.some.injEq] at hi
      subst hi
      rw [List.set_cons_zero, openWeight_cons, openWeight_cons, hc, hc']
      simp only [if_true, Bool.false_eq_true, if_false]
      omega
    | succ i =>
      simp only [List.getElem?_cons_succ] at hi
      rw [List.set_cons_succ, openWeight_cons, openWeight_cons]
      have := ih i hi
      omega

theorem openWeight_congr (w : List Nat → Nat) (tl tl2 : List Task)
    (h : tl2.map (fun s => (s.completed_, s.successors_)) =
      tl.map (fun s => (s.completed_, s.successors_))) :
    openWeight w tl2 = openWeight w tl := by
  unfold openWeight
  have e : ∀ l : List Task, l.map (fun s => if s.completed_ then 0 else w s.successors_) =
      (l.map (fun s => (s.completed_, s.successors_))).map
        (fun k => if k.1 then 0 else w k.2) := by
    intro l; rw [List.map_map]; rfl
  rw [e tl2, e tl, h]

theorem foldl_decAt_keys (L : List Nat) (tl : List Task) :
    (L.foldl decAt tl).map (fun s => (s.completed_, s.successors_)) =
      tl.map (fun s => (s.completed_, s.successors_)) := by
  apply List.ext_getElem?
  intro j
  rw [List.getElem?_map, List.getElem?_map, foldl_decAt_getElem?]
  cases tl[j]? <;> rfl

theorem foldl_decAt_getElem?_same (L : List Nat) (tl : List Task) (i : Nat) (c : Task)
    (hi : tl[i]? = some c) :
    ∃ c1, (L.foldl decAt tl)[i]? = some c1 ∧ c1.completed_ = c.completed_ ∧
      c1.successors_ = c.successors_ := by
  rw [foldl_decAt_getElem?, hi]
  exact ⟨_, rfl, rfl, rfl⟩

/-- Sweeping an open task `c` at position `i` takes its weight off the total. -/
theorem openWeight_exec (w : List Nat → Nat) (tl : List Task) (i : Nat) (c : Task)
    (hi : tl[i]? = some c) (hc : c.completed_ = false) :
    openWeight w (setCompleted (c.successors_.foldl decAt tl) i) + w c.successors_ =
      openWeight w tl := by
  obtain ⟨c1, h1, hcomp, hsucc⟩ := foldl_decAt_getElem?_same c.successors_ tl i c hi
  unfold setCompleted
  rw [h1]
  simp only
  have := openWeight_set w (c.successors_.foldl decAt tl) i c1 { c1 with completed_ := true } h1
    (by rw [hcomp, hc]) rfl
  rw [hsucc] at this
  rw [← openWeight_congr w _ _ (foldl_decAt_keys c.successors_ tl), ← this, hsucc]

theorem uncompleted_le_length (tl : List Task) : uncompleted tl ≤ tl.length := by
  unfold uncompleted
  induction tl with
  | nil => simp [openWeight]
  | cons s tl ih =>
    rw [openWeight_cons, List.length_cons]
    split <;> omega

/-! ## The flags of the loop -/

/-- A visit that leaves `a_task_executed` false swept nothing. -/
theorem visit_quiet {st : LoopState} {i : Nat} (h : (visit st i).a_task_executed = false) :
    st.a_task_executed = false ∧ (visit st i).tasks = st.tasks ∧
      (visit st i).trace = st.trace ∧ ∀ c, st.tasks[i]? = some c → ¬ c.ready := by
  cases hi : st.tasks[i]? with
  | none => rw [visit_none hi] at h ⊢; exact ⟨h, rfl, rfl, fun c hc => by cases hc⟩
  | some c =>
    by_cases hr : c.ready
    · rw [visit_ready hi hr] at h; cases h
    · rw [visit_not_ready hi hr] at h ⊢
      exact ⟨h, rfl, rfl, fun c' hc' => by cases hc'; exact hr⟩

/-- A visit that leaves `all_tasks_completed` true found its task completed and
changed nothing. -/
theorem visit_all {st : LoopState} {i : Nat} (h : (visit st i).all_tasks_completed = true) :
    visit st i = st ∧ ∀ c, st.tasks[i]? = some c → c.completed_ = true := by
  cases hi : st.tasks[i]? with
  | none => rw [visit_none hi]; exact ⟨rfl, fun c hc => by cases hc⟩
  | some c =>
    by_cases hr : c.ready
    · rw [visit_ready hi hr] at h; cases h
    · rw [visit_not_ready hi hr] at h ⊢
      cases hcc : c.completed_ with
      | false => rw [hcc] at h; simp at h
      | true =>
        exact ⟨rfl, fun c' hc' => by cases hc'; exact hcc⟩

theorem visit_of_completed {st : LoopState} {i : Nat}
    (h : ∀ c, st.tasks[i]? = some c → c.completed_ = true) : visit st i = st := by
  cases hi : st.tasks[i]? with
  | none => exact visit_none hi
  | some c =>
    have hcc := h c hi
    have hr : ¬ c.ready := fun hr => by rw [hr.2] at hcc; cases hcc
    rw [visit_not_ready hi hr, hcc]
    rfl

theorem foldl_visit_quiet (idx : List Nat) (st : LoopState)
    (h : (idx.foldl visit st).a_task_executed = false) :
    st.a_task_executed = false ∧ (idx.foldl visit st).tasks = st.tasks ∧
      (idx.foldl visit st).trace = st.trace ∧
      ∀ i ∈ idx, ∀ c, st.tasks[i]? = some c → ¬ c.ready := by
  induction idx generalizing st with
  | nil => exact ⟨h, rfl, rfl, fun i hi => by cases hi⟩
  | cons i idx ih =>
    rw [List.foldl_cons] at h ⊢
    obtain ⟨h1, h2, h3, h4⟩ := ih _ h
    obtain ⟨g1, g2, g3, g4⟩ := visit_quiet h1
    refine ⟨g1, h2.trans g2, h3.trans g3, ?_⟩
    intro j hj c hc
    rcases List.mem_cons.mp hj with rfl | hj
    · exact g4 c hc
    · exact h4 j hj c (by rw [g2]; exact hc)

theorem foldl_visit_all (idx : List Nat) (st : LoopState)
    (h : (idx.foldl visit st).all_tasks_completed = true) :
    idx.foldl visit st = st ∧ ∀ i ∈ idx, ∀ c, st.tasks[i]? = some c → c.completed_ = true := by
  induction idx generalizing st with
  | nil => exact ⟨rfl, fun i hi => by cases hi⟩
  | cons i idx ih =>
    rw [List.foldl_cons] at h ⊢
    obtain ⟨h1, h2⟩ := ih _ h
    rw [h1] at h
    obtain ⟨g1, g2⟩ := visit_all h
    rw [h1, g1]
    refine ⟨rfl, ?_⟩
    intro j hj c hc
    rcases List.mem_cons.mp hj with rfl | hj
    · exact g2 c hc
    · exact h2 j hj c (by rw [g1]; exact hc)

theorem foldl_visit_of_completed (idx : List Nat) (st : LoopState)
    (h : ∀ c ∈ st.tasks, c.completed_ = true) : idx.foldl visit st = st := by
  induction idx with
  | nil => rfl
  | cons i idx ih =>
    rw [List.foldl_cons, visit_of_completed]
    · exact ih
    · intro c hc
      exact h c (List.mem_iff_getElem?.mpr ⟨i, hc⟩)

theorem mem_range_of_getElem? {tl : List Task} {i : Nat} {c : Task} (h : tl[i]? = some c) :
    i ∈ List.range tl.length :=
  List.mem_range.mpr (List.getElem?_eq_some.mp h).1

/-- A turn of the loop that leaves `a_task_executed` false met no ready task
and left the list as it was. -/
theorem forPass_quiet {st : LoopState} (h : (forPass st).a_task_executed = false) :
    (forPass st).tasks = st.tasks ∧ (forPass st).trace = st.trace ++ [Event.SendData] ∧
      ∀ c ∈ st.tasks, ¬ c.ready := by
  unfold forPass at h ⊢
  obtain ⟨_, h2, h3, h4⟩ := foldl_visit_quiet _ _ h
  refine ⟨h2, by simp only [h3], ?_⟩
  intro c hc
  obtain ⟨i, hi⟩ := List.mem_iff_getElem?.mp hc
  exact h4 i (mem_range_of_getElem? hi) c hi

/-- A turn of the loop that leaves `all_tasks_completed` true found every task
completed, swept nothing and is the last one. -/
theorem forPass_all {st : LoopState} (h : (forPass st).all_tasks_completed = true) :
    forPass st = { st with a_task_executed := false, trace := st.trace ++ [Event.SendData] } ∧
      st.all_tasks_completed = true ∧ ∀ c ∈ st.tasks, c.completed_ = true := by
  unfold forPass at h ⊢
  obtain ⟨h1, h2⟩ := foldl_visit_all _ _ h
  simp only [h1] at h ⊢
  refine ⟨trivial, h, ?_⟩
  intro c hc
  obtain ⟨i, hi⟩ := List.mem_iff_getElem?.mp hc
  exact h2 i (mem_range_of_getElem? hi) c hi

theorem forPass_of_completed {st : LoopState} (h : ∀ c ∈ st.tasks, c.completed_ = true) :
    forPass st = { st with a_task_executed := false, trace := st.trace ++ [Event.SendData] } := by
  unfold forPass
  have := foldl_visit_of_completed (List.range st.tasks.length)
    { st with a_task_executed := false } h
  simp only [this]

theorem whileLoop_of_not_executed (fuel : Nat) (st : LoopState)
    (h : st.a_task_executed = false) : whileLoop fuel st = some st := by
  cases fuel <;> rw [whileLoop, h] <;> rfl

/-- The loop, entered with `a_task_executed` true, ends with it false and with
no ready task in the list. -/
theorem whileLoop_exit (fuel : Nat) (st st' : LoopState) (hw : whileLoop fuel st = some st')
    (hx : st.a_task_executed = true) :
    st'.a_task_executed = false ∧ ∀ c ∈ st'.tasks, ¬ c.ready := by
  induction fuel generalizing st with
  | zero => rw [whileLoop, hx] at hw; cases hw
  | succ fuel ih =>
    rw [whileLoop, hx] at hw
    simp only [if_true] at hw
    cases hp : (forPass st).a_task_executed with
    | true => exact ih _ hw hp
    | false =>
      rw [whileLoop_of_not_executed fuel _ hp] at hw
      cases hw
      obtain ⟨h1, _, h3⟩ := forPass_quiet hp
      exact ⟨hp, by rw [h1]; exact h3⟩

/-- The loop, entered with `a_task_executed` true, ends with
`all_tasks_completed` true only if every task was completed before its first
turn; it then made one turn and swept nothing. -/
theorem whileLoop_all (fuel : Nat) (st st' : LoopState) (hw : whileLoop fuel st = some st')
    (hx : st.a_task_executed = true) (h : st'.all_tasks_completed = true) :
    st' = { st with a_task_executed := false, trace := st.trace ++ [Event.SendData] } ∧
      st.all_tasks_completed = true ∧ ∀ c ∈ st.tasks, c.completed_ = true := by
  induction fuel generalizing st with
  | zero => rw [whileLoop, hx] at hw; cases hw
  | succ fuel ih =>
    rw [whileLoop, hx] at hw
    simp only [if_true] at hw
    cases hp : (forPass st).a_task_executed with
    | true =>
      obtain ⟨_, g2, _⟩ := ih _ hw hp
      obtain ⟨k1, _, _⟩ := forPass_all g2
      rw [k1] at hp
      cases hp
    | false =>
      rw [whileLoop_of_not_executed fuel _ hp] at hw
      cases hw
      exact forPass_all h

theorem whileLoop_of_completed (fuel : Nat) (st : LoopState)
    (hx : st.a_task_executed = true) (h : ∀ c ∈ st.tasks, c.completed_ = true) :
    whileLoop (fuel + 1) st =
      some { st with a_task_executed := false, trace := st.trace ++ [Event.SendData] } := by
  rw [whileLoop, hx]
  simp only [if_true]
  rw [forPass_of_completed h]
  exact whileLoop_of_not_executed fuel _ rfl

/-! ## The loop ends -/

theorem visit_uncompleted (U : Nat) (st : LoopState) (i : Nat)
    (h : uncompleted st.tasks ≤ U ∧ (st.a_task_executed = true → uncompleted st.tasks < U)) :
    uncompleted (visit st i).tasks ≤ U ∧
      ((visit st i).a_task_executed = true → uncompleted (visit st i).tasks < U) := by
  cases hi : st.tasks[i]? with
  | none => rw [visit_none hi]; exact h
  | some c =>
    by_cases hr : c.ready
    · rw [visit_ready hi hr]
      have := openWeight_exec (fun _ => 1) st.tasks i c hi hr.2
      simp only [uncompleted] at h this ⊢
      constructor
      · omega
      · intro _; omega
    · rw [visit_not_ready hi hr]; exact h

theorem foldl_visit_uncompleted (U : Nat) (idx : List Nat) (st : LoopState)
    (h : uncompleted st.tasks ≤ U ∧ (st.a_task_executed = true → uncompleted st.tasks < U)) :
    uncompleted (idx.foldl visit st).tasks ≤ U ∧
      ((idx.foldl visit st).a_task_executed = true →
        uncompleted (idx.foldl visit st).tasks < U) := by
  induction idx generalizing st with
  | nil => exact h
  | cons i idx ih => rw [List.foldl_cons]; exact ih _ (visit_uncompleted U st i h)

/-- A turn after which the loop goes on has completed a task that was open. -/
theorem forPass_uncompleted (st : LoopState) (h : (forPass st).a_task_executed = true) :
    uncompleted (forPass st).tasks < uncompleted st.tasks := by
  unfold forPass at h ⊢
  exact (foldl_visit_uncompleted (uncompleted st.tasks) _
    { st with a_task_executed := false } ⟨le_refl _, fun hx => by cases hx⟩).2 h

/-- Fuel for more turns than there are open tasks is enough for the loop to
end. -/
theorem whileLoop_total (fuel : Nat) (st : LoopState)
    (h : st.a_task_executed = true → uncompleted st.tasks < fuel) :
    ∃ st', whileLoop fuel st = some st' := by
  induction fuel generalizing st with
  | zero =>
    cases hx : st.a_task_executed with
    | true => have := h hx; omega
    | false => exact ⟨st, whileLoop_of_not_executed 0 st hx⟩
  | succ fuel ih =>
    cases hx : st.a_task_executed with
    | false => exact ⟨st, whileLoop_of_not_executed _ st hx⟩
    | true =>
      rw [whileLoop, hx]
      simp only [if_true]
      apply ih
      intro hp
      have h1 := forPass_uncompleted st hp
      have h2 := h hx
      omega

/-! ## One call of `AngleSetAdvance` -/

theorem checkBoundaries_all (ready : Nat → Bool) (bs : List Nat) (tr : List Event)
    (h : ∀ b ∈ bs, ready b = true) :
    checkBoundaries ready bs tr = (true, tr ++ bs.map Event.CheckAnglesReadyStatus) := by
  induction bs generalizing tr with
  | nil => simp [checkBoundaries]
  | cons b bs ih =>
    rw [checkBoundaries, if_pos (h b (List.mem_cons_self _ _)),
      ih _ (fun b' hb' => h b' (List.mem_cons_of_mem _ hb'))]
    simp

theorem checkBoundaries_some (ready : Nat → Bool) (bs : List Nat) (tr : List Event)
    (h : ∃ b ∈ bs, ready b = false) : (checkBoundaries ready bs tr).1 = false := by
  induction bs generalizing tr with
  | nil => obtain ⟨b, hb, _⟩ := h; cases hb
  | cons b bs ih =>
    rw [checkBoundaries]
    by_cases hb : ready b = true
    · rw [if_pos hb]
      apply ih
      obtain ⟨b', hb', hr⟩ := h
      rcases List.mem_cons.mp hb' with rfl | hb'
      · rw [hb] at hr; cases hr
      · exact ⟨b', hb', hr⟩
    · rw [if_neg hb]

/-- The boundary loop only adds `CheckAnglesReadyStatus` calls to the log. -/
theorem checkBoundaries_trace (ready : Nat → Bool) (bs : List Nat) (tr : List Event) :
    ∃ ev, (checkBoundaries ready bs tr).2 = tr ++ ev ∧
      ∀ e ∈ ev, ∃ b, e = Event.CheckAnglesReadyStatus b := by
  induction bs generalizing tr with
  | nil => exact ⟨[], by simp [checkBoundaries], fun e he => by cases he⟩
  | cons b bs ih =>
    rw [checkBoundaries]
    by_cases hb : ready b = true
    · rw [if_pos hb]
      obtain ⟨ev, h1, h2⟩ := ih (tr ++ [Event.CheckAnglesReadyStatus b])
      refine ⟨Event.CheckAnglesReadyStatus b :: ev, by rw [h1]; simp, ?_⟩
      intro e he
      rcases List.mem_cons.mp he with rfl | he
      · exact ⟨b, rfl⟩
      · exact h2 e he
    · rw [if_neg hb]
      refine ⟨[Event.CheckAnglesReadyStatus b], rfl, ?_⟩
      intro e he
      rcases List.mem_cons.mp he with rfl | he
      · exact ⟨b, rfl⟩
      · cases he

theorem AngleSetAdvance_executed (s : CBC_AngleSet) (inp : AdvanceInput)
    (hex : s.executed_ = true) : AngleSetAdvance s inp = some (AngleSetStatus.FINISHED, s) := by
  unfold AngleSetAdvance
  rw [if_pos hex]

/-- The call when a boundary is not ready (lines 44-59). -/
theorem AngleSetAdvance_blocked (s : CBC_AngleSet) (inp : AdvanceInput)
    (hex : s.executed_ = false)
    (hb : (checkBoundaries inp.bndry_ready s.ref_boundaries_
      (s.trace ++ [Event.SetAngleSet, Event.ReceiveData] ++ [Event.SendData])).1 = false) :
    AngleSetAdvance s inp = some (AngleSetStatus.NOT_FINISHED,
      { s with
        current_task_list_ := inp.tasks_who_received_data.foldl decAt (materialize s)
        trace := (checkBoundaries inp.bndry_ready s.ref_boundaries_
          (s.trace ++ [Event.SetAngleSet, Event.ReceiveData] ++ [Event.SendData])).2 }) := by
  unfold AngleSetAdvance
  rw [if_neg (by rw [hex]; simp)]
  simp only
  generalize checkBoundaries inp.bndry_ready s.ref_boundaries_
    (s.trace ++ [Event.SetAngleSet, Event.ReceiveData] ++ [Event.SendData]) = cb at hb ⊢
  obtain ⟨b, tr3⟩ := cb
  simp only at hb
  subst hb
  rfl

/-- The call when every boundary is ready (lines 44-116): the loop ends, and
what is returned is decided by its `all_tasks_completed` and the last
`SendData`. -/
theorem AngleSetAdvance_ready (s : CBC_AngleSet) (inp : AdvanceInput)
    (hex : s.executed_ = false) (hb : ∀ b ∈ s.ref_boundaries_, inp.bndry_ready b = true) :
    ∃ st, whileLoop ((inp.tasks_who_received_data.foldl decAt (materialize s)).length + 1)
        { tasks := inp.tasks_who_received_data.foldl decAt (materialize s)
          all_tasks_completed := true
          a_task_executed := true
          trace := s.trace ++ [Event.SetAngleSet, Event.ReceiveData] ++ [Event.SendData] ++
            s.ref_boundaries_.map Event.CheckAnglesReadyStatus } = some st ∧
      AngleSetAdvance s inp =
        if st.all_tasks_completed = true ∧ inp.all_messages_sent = true then
          some (AngleSetStatus.FINISHED,
            { s with
              current_task_list_ := st.tasks
              trace := st.trace ++ [Event.SendData] ++
                s.ref_boundaries_.map Event.UpdateAnglesReadyStatus
              executed_ := true })
        else
          some (AngleSetStatus.NOT_FINISHED,
            { s with current_task_list_ := st.tasks, trace := st.trace ++ [Event.SendData] }) := by
  obtain ⟨st, hst⟩ := whileLoop_total
    ((inp.tasks_who_received_data.foldl decAt (materialize s)).length + 1)
    { tasks := inp.tasks_who_received_data.foldl decAt (materialize s)
      all_tasks_completed := true
      a_task_executed := true
      trace := s.trace ++ [Event.SetAngleSet, Event.ReceiveData] ++ [Event.SendData] ++
        s.ref_boundaries_.map Event.CheckAnglesReadyStatus }
    (fun _ => Nat.lt_succ_of_le (uncompleted_le_length _))
  refine ⟨st, hst, ?_⟩
  unfold AngleSetAdvance
  rw [if_neg (by rw [hex]; simp)]
  simp only
  rw [checkBoundaries_all _ _ _ hb]
  simp only
  rw [hst]

/-- Every call returns. -/
theorem AngleSetAdvance_total (s : CBC_AngleSet) (inp : AdvanceInput) :
    ∃ r s', AngleSetAdvance s inp = some (r, s') := by
  cases hex : s.executed_ with
  | true => exact ⟨_, _, AngleSetAdvance_executed s inp hex⟩
  | false =>
    by_cases hb : ∀ b ∈ s.ref_boundaries_, inp.bndry_ready b = true
    · obtain ⟨st, _, h⟩ := AngleSetAdvance_ready s inp hex hb
      rw [h]
      split
      · exact ⟨_, _, rfl⟩
      · exact ⟨_, _, rfl⟩
    · refine ⟨_, _, AngleSetAdvance_blocked s inp hex (checkBoundaries_some _ _ _ ?_)⟩
      push_neg at hb
      obtain ⟨b, hb1, hb2⟩ := hb
      exact ⟨b, hb1, by simpa using hb2⟩

theorem runAdvances_total (s : CBC_AngleSet) (inps : List AdvanceInput) :
    ∃ rs s', runAdvances s inps = some (rs, s') := by
  induction inps generalizing s with
  | nil => exact ⟨_, _, rfl⟩
  | cons inp rest ih =>
    obtain ⟨r, s1, h1⟩ := AngleSetAdvance_total s inp
    obtain ⟨rs, s2, h2⟩ := ih s1
    exact ⟨r :: rs, s2, by rw [runAdvances, h1]; simp only; rw [h2]⟩

theorem runAdvances_cons {s : CBC_AngleSet} {inp : AdvanceInput} {rest : List AdvanceInput}
    {rs : List AngleSetStatus} {s' : CBC_AngleSet}
    (h : runAdvances s (inp :: rest) = some (rs, s')) :
    ∃ r s1 rs1, AngleSetAdvance s inp = some (r, s1) ∧ runAdvances s1 rest = some (rs1, s') ∧
      rs = r :: rs1 := by
  obtain ⟨r, s1, h1⟩ := AngleSetAdvance_total s inp
  obtain ⟨rs1, s2, h2⟩ := runAdvances_total s1 rest
  rw [runAdvances, h1] at h
  simp only at h
  rw [h2] at h
  simp only [Option.some.injEq, Prod.mk.injEq] at h
  obtain ⟨e1, e2⟩ := h
  subst e2
  exact ⟨r, s1, rs1, h1, h2, e1.symm⟩

/-! ## Invariants of a call -/

theorem append_events_inv (Q : List Task → List Event → Prop)
    (hev : ∀ tl tr e, (∀ i, e ≠ Event.SweepCell i) → Q tl tr → Q tl (tr ++ [e]))
    (tl : List Task) (tr evs : List Event) (hns : ∀ e ∈ evs, ∀ i, e ≠ Event.SweepCell i)
    (h : Q tl tr) : Q tl (tr ++ evs) := by
  induction evs generalizing tr with
  | nil => rw [List.append_nil]; exact h
  | cons e evs ih =>
    have : tr ++ e :: evs = (tr ++ [e]) ++ evs := by simp
    rw [this]
    exact ih _ (fun e' he' => hns e' (List.mem_cons_of_mem _ he'))
      (hev _ _ _ (hns e (List.mem_cons_self _ _)) h)

/-- A property of the task list and of the calls logged since `base` that
survives the sweep of a ready task and any other logged call, and holds after
the decrements for the received data, holds when the call returns. -/
theorem AngleSetAdvance_inv (Q : List Task → List Event → Prop)
    (hexec : ∀ tl tr i c, Q tl tr → tl[i]? = some c → c.ready →
      Q (setCompleted (c.successors_.foldl decAt tl) i) (tr ++ [Event.SweepCell i]))
    (hev : ∀ tl tr e, (∀ i, e ≠ Event.SweepCell i) → Q tl tr → Q tl (tr ++ [e]))
    (base : List Event) (s : CBC_AngleSet) (inp : AdvanceInput) (r : AngleSetStatus)
    (s' : CBC_AngleSet) (hex : s.executed_ = false)
    (h : AngleSetAdvance s inp = some (r, s')) (new : List Event)
    (htr : s.trace = base ++ new)
    (h0 : Q (inp.tasks_who_received_data.foldl decAt (materialize s)) new) :
    ∃ new', s'.trace = base ++ new' ∧ Q s'.current_task_list_ new' := by
  have hP : ∀ evs : List Event, (∀ e ∈ evs, ∀ i, e ≠ Event.SweepCell i) →
      ∀ tl tr, (∃ n, tr = base ++ n ∧ Q tl n) → ∃ n, tr ++ evs = base ++ n ∧ Q tl n := by
    intro evs hns tl tr hq
    obtain ⟨n, e1, q⟩ := hq
    exact ⟨n ++ evs, by rw [e1, List.append_assoc], append_events_inv Q hev tl n evs hns q⟩
  by_cases hb : ∀ b ∈ s.ref_boundaries_, inp.bndry_ready b = true
  · obtain ⟨st, hst, hres⟩ := AngleSetAdvance_ready s inp hex hb
    have hloop : ∃ n, st.trace = base ++ n ∧ Q st.tasks n := by
      refine whileLoop_inv (fun tl tr => ∃ n, tr = base ++ n ∧ Q tl n) ?_ ?_ _ _ st hst ?_
      · intro tl tr i c hq hi hr
        obtain ⟨n, e1, q⟩ := hq
        refine ⟨n ++ [Event.SweepCell i] ++ [Event.SendData], by rw [e1]; simp, ?_⟩
        exact hev _ _ _ (fun i hi => by cases hi) (hexec _ _ _ _ q hi hr)
      · intro tl tr hq
        exact hP [Event.SendData] (fun e he i => by
          rcases List.mem_singleton.mp he with rfl; intro hh; cases hh) tl tr hq
      · have := hP ([Event.SetAngleSet, Event.ReceiveData] ++ [Event.SendData] ++
          s.ref_boundaries_.map Event.CheckAnglesReadyStatus) (by
            intro e he i hh
            subst hh
            simp at he) _ s.trace ⟨new, htr, h0⟩
        simpa [List.append_assoc] using this
    rw [hres] at h
    split at h
    · cases h
      exact hP ([Event.SendData] ++ s.ref_boundaries_.map Event.UpdateAnglesReadyStatus) (by
        intro e he i hh
        subst hh
        simp at he) _ _ hloop |> (by simpa [List.append_assoc] using ·)
    · cases h
      exact hP [Event.SendData] (fun e he i => by
        rcases List.mem_singleton.mp he with rfl; intro hh; cases hh) _ _ hloop
  · have hb' : ∃ b ∈ s.ref_boundaries_, inp.bndry_ready b = false := by
      push_neg at hb
      obtain ⟨b, hb1, hb2⟩ := hb
      exact ⟨b, hb1, by simpa using hb2⟩
    rw [AngleSetAdvance_blocked s inp hex (checkBoundaries_some _ _ _ hb')] at h
    cases h
    obtain ⟨ev, e1, e2⟩ := checkBoundaries_trace inp.bndry_ready s.ref_boundaries_
      (s.trace ++ [Event.SetAngleSet, Event.ReceiveData] ++ [Event.SendData])
    simp only
    rw [e1]
    have := hP ([Event.SetAngleSet, Event.ReceiveData] ++ [Event.SendData] ++ ev) (by
      intro e he i hh
      subst hh
      simp at he
      obtain ⟨b, hb⟩ := e2 _ he
      cases hb) _ s.trace ⟨new, htr, h0⟩
    simpa [List.append_assoc] using this

/-! ## Sequences of calls -/

theorem materialize_of_length (s : CBC_AngleSet)
    (h : s.current_task_list_.length = s.cbc_spds_.length) :
    materialize s = s.current_task_list_ := by
  unfold materialize
  cases hc : s.current_task_list_ with
  | nil =>
    rw [hc] at h
    simp only [List.isEmpty_nil, if_true]
    exact List.length_eq_zero.mp h.symm
  | cons a l => simp

/-- What a call entered with `executed_ = false` keeps and reports. -/
theorem AngleSetAdvance_step (s : CBC_AngleSet) (inp : AdvanceInput) (r : AngleSetStatus)
    (s' : CBC_AngleSet) (hex : s.executed_ = false) (h : AngleSetAdvance s inp = some (r, s')) :
    s'.cbc_spds_ = s.cbc_spds_ ∧ s'.ref_boundaries_ = s.ref_boundaries_ ∧
      s'.current_task_list_.length = (materialize s).length ∧
      (s'.executed_ = true ↔ r = AngleSetStatus.FINISHED) ∧
      (r = AngleSetStatus.FINISHED → ∀ c ∈ s'.current_task_list_, c.completed_ = true) := by
  by_cases hb : ∀ b ∈ s.ref_boundaries_, inp.bndry_ready b = true
  · obtain ⟨st, hst, hres⟩ := AngleSetAdvance_ready s inp hex hb
    have hlen : st.tasks.length = (materialize s).length := by
      have := whileLoop_inv (fun tl _ => tl.length = (materialize s).length)
        (fun tl tr i c h _ _ => (exec_length tl c i).trans h) (fun tl tr h => h) _ _ st hst
        (foldl_decAt_length _ _)
      exact this
    rw [hres] at h
    by_cases hfin : st.all_tasks_completed = true ∧ inp.all_messages_sent = true
    · rw [if_pos hfin] at h
      cases h
      obtain ⟨e1, _, h3⟩ := whileLoop_all _ _ _ hst rfl hfin.1
      refine ⟨rfl, rfl, hlen, ⟨fun _ => rfl, fun _ => rfl⟩, fun _ c hc => ?_⟩
      simp only at hc
      rw [e1] at hc
      exact h3 c hc
    · rw [if_neg hfin] at h
      cases h
      refine ⟨rfl, rfl, hlen, ⟨fun h => ?_, fun h => by cases h⟩, fun h => by cases h⟩
      simp only at h
      rw [hex] at h
      cases h
  · have hb' : ∃ b ∈ s.ref_boundaries_, inp.bndry_ready b = false := by
      push_neg at hb
      obtain ⟨b, hb1, hb2⟩ := hb
      exact ⟨b, hb1, by simpa using hb2⟩
    rw [AngleSetAdvance_blocked s inp hex (checkBoundaries_some _ _ _ hb')] at h
    cases h
    refine ⟨rfl, rfl, foldl_decAt_length _ _, ⟨fun h => ?_, fun h => by cases h⟩,
      fun h => by cases h⟩
    simp only at h
    rw [hex] at h
    cases h

/-- A property of the task list in use and of the calls logged since `base`
that survives the sweep of a ready task, any other logged call and the
decrements for the received data of every call, holds after the sequence. -/
theorem runAdvances_inv (Q : List Task → List Event → Prop)
    (hexec : ∀ tl tr i c, Q tl tr → tl[i]? = some c → c.ready →
      Q (setCompleted (c.successors_.foldl decAt tl) i) (tr ++ [Event.SweepCell i]))
    (hev : ∀ tl tr e, (∀ i, e ≠ Event.SweepCell i) → Q tl tr → Q tl (tr ++ [e]))
    (base : List Event) (inps : List AdvanceInput)
    (hrecv : ∀ inp ∈ inps, ∀ tl tr, Q tl tr →
      Q (inp.tasks_who_received_data.foldl decAt tl) tr)
    (s : CBC_AngleSet) (rs : List AngleSetStatus) (s' : CBC_AngleSet)
    (hrun : runAdvances s inps = some (rs, s'))
    (hlen : (materialize s).length = s.cbc_spds_.length)
    (new : List Event) (htr : s.trace = base ++ new) (h0 : Q (materialize s) new) :
    ∃ new', s'.trace = base ++ new' ∧ Q (materialize s') new' ∧
      (materialize s').length = s'.cbc_spds_.length ∧ s'.cbc_spds_ = s.cbc_spds_ := by
  induction inps generalizing s rs new with
  | nil =>
    rw [runAdvances] at hrun
    cases hrun
    exact ⟨new, htr, h0, hlen, rfl⟩
  | cons inp rest ih =>
    obtain ⟨r, s1, rs1, h1, h2, _⟩ := runAdvances_cons hrun
    have hrest : ∀ inp' ∈ rest, ∀ tl tr, Q tl tr →
        Q (inp'.tasks_who_received_data.foldl decAt tl) tr :=
      fun inp' hm => hrecv inp' (List.mem_cons_of_mem _ hm)
    cases hex : s.executed_ with
    | true =>
      rw [AngleSetAdvance_executed s inp hex] at h1
      cases h1
      exact ih hrest s rs1 h2 hlen new htr h0
    | false =>
      obtain ⟨f1, _, f3, _, _⟩ := AngleSetAdvance_step s inp r s1 hex h1
      obtain ⟨new1, g1, g2⟩ := AngleSetAdvance_inv Q hexec hev base s inp r s1 hex h1 new htr
        (hrecv inp (List.mem_cons_self _ _) _ _ h0)
      have hlen1 : s1.current_task_list_.length = s1.cbc_spds_.length := by
        rw [f3, f1, hlen]
      have hm1 := materialize_of_length s1 hlen1
      obtain ⟨new', k1, k2, k3, k4⟩ := ih hrest s1 rs1 h2 (by rw [hm1]; exact hlen1) new1 g1
        (by rw [hm1]; exact g2)
      exact ⟨new', k1, k2, k3, k4.trans f1⟩

/-- Once a call has returned FINISHED the angle set is executed, and an
executed angle set reached from a fresh one has every task completed. -/
theorem runAdvances_executed (inps : List AdvanceInput) (s : CBC_AngleSet)
    (rs : List AngleSetStatus) (s' : CBC_AngleSet) (hrun : runAdvances s inps = some (rs, s'))
    (hlen : (materialize s).length = s.cbc_spds_.length)
    (h0 : s.executed_ = true → ∀ c ∈ materialize s, c.completed_ = true) :
    (AngleSetStatus.FINISHED ∈ rs ∨ s.executed_ = true → s'.executed_ = true) ∧
      (s'.executed_ = true → ∀ c ∈ materialize s', c.completed_ = true) := by
  induction inps generalizing s rs with
  | nil =>
    rw [runAdvances] at hrun
    cases hrun
    refine ⟨fun h => ?_, h0⟩
    rcases h with h | h
    · cases h
    · exact h
  | cons inp rest ih =>
    obtain ⟨r, s1, rs1, h1, h2, e⟩ := runAdvances_cons hrun
    subst e
    cases hex : s.executed_ with
    | true =>
      rw [AngleSetAdvance_executed s inp hex] at h1
      cases h1
      obtain ⟨k1, k2⟩ := ih s rs1 h2 hlen h0
      exact ⟨fun _ => k1 (Or.inr hex), k2⟩
    | false =>
      obtain ⟨f1, _, f3, f4, f5⟩ := AngleSetAdvance_step s inp r s1 hex h1
      have hlen1 : s1.current_task_list_.length = s1.cbc_spds_.length := by
        rw [f3, f1, hlen]
      have hm1 := materialize_of_length s1 hlen1
      obtain ⟨k1, k2⟩ := ih s1 rs1 h2 (by rw [hm1]; exact hlen1)
        (fun h => by rw [hm1]; exact f5 (f4.mp h))
      refine ⟨fun h => ?_, k2⟩
      rcases h with h | h
      · rcases List.mem_cons.mp h with h | h
        · exact k1 (Or.inr (f4.mpr h.symm))
        · exact k1 (Or.inl h)
      · cases h

theorem runAdvances_append (a b : List AdvanceInput) (s : CBC_AngleSet)
    (rs1 : List AngleSetStatus) (s1 : CBC_AngleSet) (rs2 : List AngleSetStatus)
    (s2 : CBC_AngleSet) (h1 : runAdvances s a = some (rs1, s1))
    (h2 : runAdvances s1 b = some (rs2, s2)) :
    runAdvances s (a ++ b) = some (rs1 ++ rs2, s2) := by
  induction a generalizing s rs1 with
  | nil =>
    rw [runAdvances] at h1
    cases h1
    exact h2
  | cons inp rest ih =>
    obtain ⟨r, s', rs', g1, g2, e⟩ := runAdvances_cons h1
    subst e
    rw [List.cons_append, runAdvances, g1]
    simp only
    rw [ih s' rs' g2]
    rfl

/-! ## Reading the log -/

theorem updatesOf_append (a b : List Event) : updatesOf (a ++ b) = updatesOf a ++ updatesOf b := by
  unfold updatesOf; rw [List.filterMap_append]

theorem updatesOf_map_update (bs : List Nat) :
    updatesOf (bs.map Event.UpdateAnglesReadyStatus) = bs := by
  induction bs with
  | nil => rfl
  | cons b bs ih =>
    unfold updatesOf at ih ⊢
    rw [List.map_cons, List.filterMap_cons]
    simp only [ih]

theorem updatesOf_of_no_update (ev : List Event)
    (h : ∀ e ∈ ev, ∀ b, e ≠ Event.UpdateAnglesReadyStatus b) : updatesOf ev = [] := by
  induction ev with
  | nil => rfl
  | cons e ev ih =>
    have h1 := h e (List.mem_cons_self _ _)
    have h2 := ih (fun e' he' => h e' (List.mem_cons_of_mem _ he'))
    unfold updatesOf at h2 ⊢
    rw [List.filterMap_cons]
    cases e with
    | UpdateAnglesReadyStatus b => exact absurd rfl (h1 b)
    | _ => simpa using h2

theorem sweptCells_append (a b : List Event) :
    sweptCells (a ++ b) = sweptCells a ++ sweptCells b := by
  unfold sweptCells; rw [List.filterMap_append]

theorem sweptCells_of_no_sweep (ev : List Event)
    (h : ∀ e ∈ ev, ∀ i, e ≠ Event.SweepCell i) : sweptCells ev = [] := by
  induction ev with
  | nil => rfl
  | cons e ev ih =>
    have h1 := h e (List.mem_cons_self _ _)
    have h2 := ih (fun e' he' => h e' (List.mem_cons_of_mem _ he'))
    unfold sweptCells at h2 ⊢
    rw [List.filterMap_cons]
    cases e with
    | SweepCell i => exact absurd rfl (h1 i)
    | _ => simpa using h2

/-- The loop makes no `UpdateAnglesReadyStatus` call. -/
theorem whileLoop_updates (fuel : Nat) (st st' : LoopState) (hw : whileLoop fuel st = some st') :
    updatesOf st'.trace = updatesOf st.trace := by
  refine whileLoop_inv (fun _ tr => updatesOf tr = updatesOf st.trace) ?_ ?_ fuel st st' hw rfl
  · intro tl tr i c h _ _
    rw [updatesOf_append, h, updatesOf_of_no_update [Event.SweepCell i, Event.SendData] (by
      intro e he b hh; subst hh; simp at he), List.append_nil]
  · intro tl tr h
    rw [updatesOf_append, h, updatesOf_of_no_update [Event.SendData] (by
      intro e he b hh; subst hh; simp at he), List.append_nil]

theorem updatesOf_prologue (tr : List Event) (bs : List Nat) :
    updatesOf (tr ++ [Event.SetAngleSet, Event.ReceiveData] ++ [Event.SendData] ++
      bs.map Event.CheckAnglesReadyStatus) = updatesOf tr := by
  rw [List.append_assoc, List.append_assoc, updatesOf_append,
    updatesOf_of_no_update ([Event.SetAngleSet, Event.ReceiveData] ++ ([Event.SendData] ++
      bs.map Event.CheckAnglesReadyStatus)) (by
    intro e he b hh; subst hh; simp at he), List.append_nil]

/-! ## Completed flags -/

theorem isCompleted_exec (tl : List Task) (c : Task) (i0 i : Nat) (h : tl[i0]? = some c) :
    isCompleted (setCompleted (c.successors_.foldl decAt tl) i0) i =
      if i = i0 then true else isCompleted tl i := by
  unfold isCompleted
  rw [exec_getElem?]
  by_cases hi : i = i0
  · subst hi; rw [h]; simp
  · rw [if_neg hi]
    cases tl[i]? with
    | none => rfl
    | some t => simp [hi]

theorem isCompleted_foldl_decAt (L : List Nat) (tl : List Task) (i : Nat) :
    isCompleted (L.foldl decAt tl) i = isCompleted tl i := by
  unfold isCompleted
  rw [foldl_decAt_getElem?]
  cases tl[i]? <;> rfl

theorem isCompleted_of_getElem? {tl : List Task} {i : Nat} {c : Task} (h : tl[i]? = some c) :
    isCompleted tl i = c.completed_ := by
  unfold isCompleted; rw [h]

theorem sweptCells_sweep (tr : List Event) (i : Nat) :
    sweptCells (tr ++ [Event.SweepCell i]) = sweptCells tr ++ [i] := by
  rw [sweptCells_append]; rfl

theorem sweptCells_other (tr : List Event) (e : Event) (h : ∀ i, e ≠ Event.SweepCell i) :
    sweptCells (tr ++ [e]) = sweptCells tr := by
  rw [sweptCells_append, sweptCells_of_no_sweep [e] (by
    intro e' he'; rw [List.mem_singleton.mp he']; exact h), List.append_nil]

theorem isCompleted_false_of_all (tl : List Task) (h : ∀ c ∈ tl, c.completed_ = false) (i : Nat) :
    isCompleted tl i = false := by
  unfold isCompleted
  cases hi : tl[i]? with
  | none => rfl
  | some c => exact h c (List.mem_iff_getElem?.mpr ⟨i, hi⟩)

theorem isCompleted_true_of_all (tl : List Task) (h : ∀ c ∈ tl, c.completed_ = true) (i : Nat)
    (hi : i < tl.length) : isCompleted tl i = true := by
  unfold isCompleted
  rw [List.getElem?_eq_getElem hi]
  exact h _ (List.getElem_mem _)

/-! ## Dependency counters during a sweep -/

theorem openWeight_ge (w : List Nat → Nat) (tl : List Task) (p : Nat) (c : Task)
    (hp : tl[p]? = some c) (hc : c.completed_ = false) : w c.successors_ ≤ openWeight w tl := by
  induction tl generalizing p with
  | nil => simp at hp
  | cons s tl ih =>
    rw [openWeight_cons]
    cases p with
    | zero =>
      simp only [List.getElem?_cons_zero, Option.some.injEq] at hp
      subst hp
      rw [hc]
      simp
    | succ p =>
      simp only [List.getElem?_cons_succ] at hp
      have := ih p hp
      omega

theorem pendingEdges_of_open (tl : List Task) (h : ∀ c ∈ tl, c.completed_ = false) (t : Nat) :
    pendingEdges tl t = localEdgesInto tl t := by
  unfold pendingEdges openWeight localEdgesInto
  congr 1
  apply List.map_congr_left
  intro s hs
  rw [h s hs]
  simp

/-- A task whose counter is 0 in a state of the sweep has all the tasks that
list it completed. -/
theorem SweepInv.preds_completed {rem ub : Nat → Nat} {tl : List Task} {new : List Event}
    (h : SweepInv rem ub tl new) {t : Nat} {c : Task} (ht : tl[t]? = some c)
    (h0 : c.num_dependencies_ = 0) {p : Nat} {cp : Task} (hp : tl[p]? = some cp)
    (hmem : t ∈ cp.successors_) : cp.completed_ = true := by
  by_contra hcp
  have hcp' : cp.completed_ = false := by simpa using hcp
  have h1 := (h.1 t c ht).1
  have h2 := openWeight_ge (fun S => S.count t) tl p cp hp hcp'
  have h3 : 0 < cp.successors_.count t := List.count_pos_iff.mpr hmem
  unfold pendingEdges at h1
  simp only at h2
  omega

theorem exec_getElem?_some {tl : List Task} {c0 : Task} {i0 t : Nat} {c' : Task}
    (h : (setCompleted (c0.successors_.foldl decAt tl) i0)[t]? = some c') :
    ∃ c, tl[t]? = some c ∧ c'.successors_ = c.successors_ ∧
      c'.num_dependencies_ = decrement^[c0.successors_.count t] c.num_dependencies_ ∧
      c'.completed_ = (if t = i0 then true else c.completed_) := by
  rw [exec_getElem?] at h
  cases ht : tl[t]? with
  | none => rw [ht] at h; cases h
  | some c =>
    rw [ht] at h
    simp only [Option.map_some', Option.some.injEq] at h
    subst h
    exact ⟨c, rfl, rfl, rfl, rfl⟩

theorem foldl_decAt_getElem?_some {L : List Nat} {tl : List Task} {t : Nat} {c' : Task}
    (h : (L.foldl decAt tl)[t]? = some c') :
    ∃ c, tl[t]? = some c ∧ c'.successors_ = c.successors_ ∧
      c'.num_dependencies_ = decrement^[L.count t] c.num_dependencies_ ∧
      c'.completed_ = c.completed_ := by
  rw [foldl_decAt_getElem?] at h
  cases ht : tl[t]? with
  | none => rw [ht] at h; cases h
  | some c =>
    rw [ht] at h
    simp only [Option.map_some', Option.some.injEq] at h
    subst h
    exact ⟨c, rfl, rfl, rfl, rfl⟩

theorem pendingEdges_foldl_decAt (L : List Nat) (tl : List Task) (t : Nat) :
    pendingEdges (L.foldl decAt tl) t = pendingEdges tl t :=
  openWeight_congr _ _ _ (foldl_decAt_keys L tl)

theorem sweepOrder_snoc (tl : List Task) (sw : List Nat) (i0 : Nat) (h : SweepOrder tl sw)
    (hi : ∀ (p : Nat) (c : Task), tl[p]? = some c → i0 ∈ c.successors_ → p ∈ sw) :
    SweepOrder tl (sw ++ [i0]) := by
  intro pre post t e p c hp hm
  rcases List.eq_nil_or_concat post with rfl | ⟨post', x, rfl⟩
  · have e' : sw ++ [i0] = pre ++ [t] := e
    obtain ⟨e1, e2⟩ := List.append_inj' e' rfl
    simp only [List.cons.injEq, and_true] at e2
    subst e1 e2
    exact hi p c hp hm
  · have e' : sw ++ [i0] = (pre ++ t :: post') ++ [x] := by
      rw [e, List.concat_eq_append, List.append_assoc]; rfl
    obtain ⟨e1, _⟩ := List.append_inj' e' rfl
    exact h pre post' t e1 p c hp hm

theorem sweepOrder_congr (tl tl2 : List Task) (sw : List Nat)
    (hk : ∀ (p : Nat) (c2 : Task), tl2[p]? = some c2 →
      ∃ c : Task, tl[p]? = some c ∧ c2.successors_ = c.successors_)
    (h : SweepOrder tl sw) : SweepOrder tl2 sw := by
  intro pre post t e p c2 hp hm
  obtain ⟨c, hc, hs⟩ := hk p c2 hp
  exact h pre post t e p c hc (hs ▸ hm)

/-- The sweep of a ready task keeps the state of the sweep. -/
theorem SweepInv.exec {rem ub : Nat → Nat} {tl : List Task} {new : List Event}
    (h : SweepInv rem ub tl new) {i0 : Nat} {c0 : Task} (hi : tl[i0]? = some c0)
    (hr : c0.ready) :
    SweepInv rem ub (setCompleted (c0.successors_.foldl decAt tl) i0)
      (new ++ [Event.SweepCell i0]) := by
  obtain ⟨ha, hb, hc⟩ := h
  refine ⟨?_, ?_, ?_⟩
  · intro t c' ht
    obtain ⟨c, hct, _, hdep, hcomp⟩ := exec_getElem?_some ht
    obtain ⟨a1, a2, a3, a4⟩ := ha t c hct
    have hw := openWeight_exec (fun S => S.count t) tl i0 c0 hi hr.2
    simp only at hw
    have hk : c0.successors_.count t ≤ c.num_dependencies_ := by
      unfold pendingEdges at a1; omega
    rw [hdep, decrement_iterate hk a3]
    unfold pendingEdges at a1 ⊢
    refine ⟨by omega, by omega, by omega, ?_⟩
    intro hc'
    rw [hcomp] at hc'
    by_cases hti : t = i0
    · subst hti
      rw [hi] at hct
      cases hct
      have := hr.1
      omega
    · rw [if_neg hti] at hc'
      have := a4 hc'
      omega
  · intro i
    rw [sweptCells_sweep, List.mem_append, hb i, isCompleted_exec tl c0 i0 i hi]
    by_cases hii : i = i0
    · simp [hii]
    · simp [hii]
  · rw [sweptCells_sweep]
    apply sweepOrder_snoc
    · exact sweepOrder_congr tl _ _ (fun p c2 hp => by
        obtain ⟨c, h1, h2, _, _⟩ := exec_getElem?_some hp
        exact ⟨c, h1, h2⟩) hc
    · intro p c' hp hm
      obtain ⟨c, h1, h2, _, _⟩ := exec_getElem?_some hp
      rw [h2] at hm
      have hcp := SweepInv.preds_completed ⟨ha, hb, hc⟩ hi hr.1 h1 hm
      rw [hb p, isCompleted_of_getElem? h1]
      exact hcp

/-- A logged call that is not a kernel call keeps the state of the sweep. -/
theorem SweepInv.event {rem ub : Nat → Nat} {tl : List Task} {new : List Event}
    (h : SweepInv rem ub tl new) (e : Event) (hns : ∀ i, e ≠ Event.SweepCell i) :
    SweepInv rem ub tl (new ++ [e]) := by
  unfold SweepInv
  rw [sweptCells_other new e hns]
  exact h

/-- The decrements for received data keep the state of the sweep when no task
is reported more often than it has data to receive. -/
theorem SweepInv.receive {rem ub : Nat → Nat} {tl : List Task} {new : List Event}
    (h : SweepInv rem ub tl new) (L : List Nat) (hL : ∀ t, L.count t ≤ rem t) :
    SweepInv (fun t => rem t - L.count t) ub (L.foldl decAt tl) new := by
  obtain ⟨ha, hb, hc⟩ := h
  refine ⟨?_, ?_, ?_⟩
  · intro t c' ht
    obtain ⟨c, hct, _, hdep, hcomp⟩ := foldl_decAt_getElem?_some ht
    obtain ⟨a1, a2, a3, a4⟩ := ha t c hct
    have hk : L.count t ≤ c.num_dependencies_ := by have := hL t; omega
    rw [hdep, decrement_iterate hk a3, pendingEdges_foldl_decAt]
    have := hL t
    refine ⟨by simp only; omega, by omega, by omega, ?_⟩
    intro hc'
    rw [hcomp] at hc'
    have := a4 hc'
    omega
  · intro i
    rw [hb i, isCompleted_foldl_decAt]
  · exact sweepOrder_congr tl _ _ (fun p c2 hp => by
      obtain ⟨c, h1, h2, _, _⟩ := foldl_decAt_getElem?_some hp
      exact ⟨c, h1, h2⟩) hc

theorem SweepInv.weaken {rem ub ub' : Nat → Nat} {tl : List Task} {new : List Event}
    (h : SweepInv rem ub tl new)
    (hub : ∀ (t : Nat) (c : Task), tl[t]? = some c → c.num_dependencies_ ≤ ub' t) :
    SweepInv rem ub' tl new := by
  obtain ⟨ha, hb, hc⟩ := h
  refine ⟨fun t c ht => ?_, hb, hc⟩
  obtain ⟨a1, _, a3, a4⟩ := ha t c ht
  exact ⟨a1, hub t c ht, a3, a4⟩

/-- The state right after `ResetSweepBuffers`, for a task list whose counters
are the local edges into each task plus `remote`. -/
theorem SweepInv.init (tl : List Task) (remote : Nat → Nat)
    (hinit : ∀ (t : Nat) (c : Task), tl[t]? = some c →
      c.num_dependencies_ = localEdgesInto tl t + remote t ∧ c.num_dependencies_ < 2 ^ 32 ∧
      c.completed_ = false) :
    SweepInv remote (fun _ => 2 ^ 32) tl [] := by
  have hopen : ∀ c ∈ tl, c.completed_ = false := by
    intro c hc
    obtain ⟨t, ht⟩ := List.mem_iff_getElem?.mp hc
    exact (hinit t c ht).2.2
  refine ⟨?_, ?_, ?_⟩
  · intro t c ht
    obtain ⟨h1, h2, h3⟩ := hinit t c ht
    rw [pendingEdges_of_open tl hopen]
    exact ⟨h1, Nat.le_of_lt h2, h2, fun h => by rw [h3] at h; cases h⟩
  · intro i
    rw [isCompleted_false_of_all tl hopen]
    simp [sweptCells]
  · intro pre post t e
    simp [sweptCells] at e

theorem count_allReceived_cons (inp : AdvanceInput) (rest : List AdvanceInput) (t : Nat) :
    (allReceived (inp :: rest)).count t =
      inp.tasks_who_received_data.count t + (allReceived rest).count t := by
  rw [allReceived, List.count_append]

theorem allReceived_append (a b : List AdvanceInput) :
    allReceived (a ++ b) = allReceived a ++ allReceived b := by
  induction a with
  | nil => rfl
  | cons inp rest ih => rw [List.cons_append, allReceived, allReceived, ih, List.append_assoc]

theorem mem_allReceived {inps : List AdvanceInput} {inp : AdvanceInput} (h : inp ∈ inps)
    {t : Nat} (ht : t ∈ inp.tasks_who_received_data) : t ∈ allReceived inps := by
  induction inps with
  | nil => cases h
  | cons a rest ih =>
    rw [allReceived, List.mem_append]
    rcases List.mem_cons.mp h with rfl | h
    · exact Or.inl ht
    · exact Or.inr (ih h)

/-- The state of the sweep is kept by a sequence of calls in which no task is
reported by `ReceiveData` more often than it has data to receive; `extra` is
the part of that allowance the sequence leaves unused. -/
theorem runAdvances_sweepInv (base : List Event) (ub extra : Nat → Nat)
    (inps : List AdvanceInput) (s : CBC_AngleSet) (rs : List AngleSetStatus)
    (s' : CBC_AngleSet) (hrun : runAdvances s inps = some (rs, s'))
    (hlen : (materialize s).length = s.cbc_spds_.length)
    (rem : Nat → Nat) (new : List Event) (htr : s.trace = base ++ new)
    (h0 : SweepInv rem ub (materialize s) new)
    (hbud : ∀ t, (allReceived inps).count t + extra t ≤ rem t) :
    ∃ new' rem', s'.trace = base ++ new' ∧ SweepInv rem' ub (materialize s') new' ∧
      (materialize s').length = s'.cbc_spds_.length ∧ s'.cbc_spds_ = s.cbc_spds_ ∧
      ∀ t, extra t ≤ rem' t := by
  induction inps generalizing s rs rem new with
  | nil =>
    rw [runAdvances] at hrun
    cases hrun
    exact ⟨new, rem, htr, h0, hlen, rfl, fun t => by have := hbud t; omega⟩
  | cons inp rest ih =>
    obtain ⟨r, s1, rs1, h1, h2, _⟩ := runAdvances_cons hrun
    have hb1 : ∀ t, inp.tasks_who_received_data.count t + (allReceived rest).count t +
        extra t ≤ rem t := by
      intro t
      have := hbud t
      rw [count_allReceived_cons] at this
      exact this
    cases hex : s.executed_ with
    | true =>
      rw [AngleSetAdvance_executed s inp hex] at h1
      cases h1
      exact ih s rs1 h2 hlen rem new htr h0 (fun t => by have := hb1 t; omega)
    | false =>
      obtain ⟨f1, _, f3, _, _⟩ := AngleSetAdvance_step s inp r s1 hex h1
      obtain ⟨new1, g1, g2⟩ := AngleSetAdvance_inv
        (SweepInv (fun t => rem t - inp.tasks_who_received_data.count t) ub)
        (fun tl tr i c hq hi hr => SweepInv.exec hq hi hr)
        (fun tl tr e hns hq => SweepInv.event hq e hns)
        base s inp r s1 hex h1 new htr
        (SweepInv.receive h0 _ (fun t => by have := hb1 t; omega))
      have hlen1 : s1.current_task_list_.length = s1.cbc_spds_.length := by
        rw [f3, f1, hlen]
      have hm1 := materialize_of_length s1 hlen1
      obtain ⟨new', rem', k1, k2, k3, k4, k5⟩ := ih s1 rs1 h2 (by rw [hm1]; exact hlen1)
        (fun t => rem t - inp.tasks_who_received_data.count t) new1 g1 (by rw [hm1]; exact g2)
        (fun t => by have := hb1 t; show _ ≤ rem t - inp.tasks_who_received_data.count t; omega)
      exact ⟨new', rem', k1, k2, k3, k4.trans f1, k5⟩

theorem exec_successors (tl : List Task) (c : Task) (i : Nat) :
    (setCompleted (c.successors_.foldl decAt tl) i).map Task.successors_ =
      tl.map Task.successors_ := by
  apply List.ext_getElem?
  intro j
  rw [List.getElem?_map, List.getElem?_map, exec_getElem?]
  cases tl[j]? <;> rfl

theorem foldl_decAt_successors (L : List Nat) (tl : List Task) :
    (L.foldl decAt tl).map Task.successors_ = tl.map Task.successors_ := by
  apply List.ext_getElem?
  intro j
  rw [List.getElem?_map, List.getElem?_map, foldl_decAt_getElem?]
  cases tl[j]? <;> rfl

/-- The successors lists in use during a sweep are those of the SPDS list. -/
theorem runAdvances_successors (inps : List AdvanceInput) (s : CBC_AngleSet)
    (rs : List AngleSetStatus) (s' : CBC_AngleSet)
    (hrun : runAdvances (ResetSweepBuffers s) inps = some (rs, s')) :
    (materialize s').map Task.successors_ = s.cbc_spds_.map Task.successors_ := by
  obtain ⟨_, _, h, _, _⟩ := runAdvances_inv
    (fun tl _ => tl.map Task.successors_ = s.cbc_spds_.map Task.successors_)
    (fun tl tr i c hq _ _ => (exec_successors tl c i).trans hq)
    (fun tl tr e _ hq => hq)
    (ResetSweepBuffers s).trace inps
    (fun inp _ tl tr hq => (foldl_decAt_successors _ tl).trans hq)
    (ResetSweepBuffers s) rs s' hrun rfl [] (by rw [List.append_nil]) rfl
  exact h

theorem getElem?_of_map_successors {tl tl2 : List Task}
    (h : tl2.map Task.successors_ = tl.map Task.successors_) {p : Nat} {c : Task}
    (hp : tl[p]? = some c) : ∃ c2, tl2[p]? = some c2 ∧ c.successors_ = c2.successors_ := by
  have := congrArg (fun l => l[p]?) h
  simp only [List.getElem?_map, hp, Option.map_some'] at this
  cases h2 : tl2[p]? with
  | none => rw [h2] at this; cases this
  | some c2 =>
    rw [h2] at this
    simp only [Option.map_some', Option.some.injEq] at this
    exact ⟨c2, rfl, this.symm⟩

/-- A call entered with `executed_ = false` and all boundaries ready returns and
leaves no ready task in the list. -/
theorem scan_reaches_fixpoint (s : CBC_AngleSet) (inp : AdvanceInput)
    (hex : s.executed_ = false) (hb : ∀ b ∈ s.ref_boundaries_, inp.bndry_ready b = true) :
    ∃ r s', AngleSetAdvance s inp = some (r, s') ∧ ∀ c ∈ s'.current_task_list_, ¬ c.ready := by
  obtain ⟨st, hst, hres⟩ := AngleSetAdvance_ready s inp hex hb
  obtain ⟨_, hfix⟩ := whileLoop_exit _ _ _ hst rfl
  rw [hres]
  split
  · exact ⟨_, _, rfl, hfix⟩
  · exact ⟨_, _, rfl, hfix⟩

/-! ## The topological sort -/

theorem sinkReady_iff (E : List GraphEdge) (out : List Nat) (v : Nat) :
    sinkReady E out v = true ↔ v ∉ out ∧ ∀ e ∈ E, e.src = v → e.dst ∈ out := by
  unfold sinkReady
  exact decide_eq_true_iff

theorem sinkOrder_nil (N : Nat) (E : List GraphEdge) : SinkOrder N E [] := by
  refine ⟨List.nodup_nil, ?_, ?_⟩
  · intro v hv
    cases hv
  · intro pre post v e
    simp at e

theorem sinkOrder_snoc (N : Nat) (E : List GraphEdge) (out : List Nat) (v : Nat)
    (h : SinkOrder N E out) (hv : v < N) (hn : v ∉ out)
    (hs : ∀ e ∈ E, e.src = v → e.dst ∈ out) : SinkOrder N E (out ++ [v]) := by
  obtain ⟨h1, h2, h3⟩ := h
  refine ⟨?_, ?_, ?_⟩
  · rw [List.nodup_append]
    refine ⟨h1, List.nodup_singleton v, ?_⟩
    intro a ha hb
    rw [List.mem_singleton] at hb
    subst hb
    exact hn ha
  · intro a ha
    rcases List.mem_append.mp ha with ha | ha
    · exact h2 a ha
    · rw [List.mem_singleton] at ha
      subst ha
      exact hv
  · intro pre post w e x hx hsrc
    rcases List.eq_nil_or_concat post with rfl | ⟨post', y, rfl⟩
    · have e' : out ++ [v] = pre ++ [w] := e
      obtain ⟨e1, e2⟩ := List.append_inj' e' rfl
      simp only [List.cons.injEq, and_true] at e2
      subst e1 e2
      exact hs x hx hsrc
    · have e' : out ++ [v] = (pre ++ w :: post') ++ [y] := by
        rw [e, List.concat_eq_append, List.append_assoc]; rfl
      obtain ⟨e1, _⟩ := List.append_inj' e' rfl
      exact h3 pre post' w e1 x hx hsrc

/-- What the turns of the sort leave: the vertices ordered so far are in sink
order; either all turns were made, or no vertex below `N` can be appended. -/
theorem sortLoop_spec (N : Nat) (E : List GraphEdge) (k : Nat) (out : List Nat)
    (h : SinkOrder N E out) :
    SinkOrder N E (sortLoop N E k out).1 ∧
      ((sortLoop N E k out).2 = true → (sortLoop N E k out).1.length = out.length + k) ∧
      ((sortLoop N E k out).2 = false →
        (sortLoop N E k out).1.length < out.length + k ∧
        ∀ v, v < N → sinkReady E (sortLoop N E k out).1 v = false) := by
  induction k generalizing out with
  | zero =>
    rw [sortLoop]
    exact ⟨h, fun _ => rfl, fun hf => by cases hf⟩
  | succ k ih =>
    rw [sortLoop]
    cases hf : (List.range N).find? (sinkReady E out) with
    | some v =>
      simp only
      have hv := List.mem_range.mp (List.mem_of_find?_eq_some hf)
      have hr := (sinkReady_iff E out v).mp (List.find?_some hf)
      obtain ⟨i1, i2, i3⟩ := ih (out ++ [v]) (sinkOrder_snoc N E out v h hv hr.1 hr.2)
      refine ⟨i1, fun ht => ?_, fun hff => ?_⟩
      · rw [i2 ht, List.length_append, List.length_singleton]; omega
      · obtain ⟨j1, j2⟩ := i3 hff
        rw [List.length_append, List.length_singleton] at j1
        exact ⟨by omega, j2⟩
    | none =>
      show SinkOrder N E out ∧ (false = true → out.length = out.length + (k + 1)) ∧
        (false = false → out.length < out.length + (k + 1) ∧
          ∀ v, v < N → sinkReady E out v = false)
      refine ⟨h, ?_, ?_⟩
      · intro ht
        cases ht
      · intro _
        refine ⟨by omega, ?_⟩
        intro v hv
        have := List.find?_eq_none.mp hf v (List.mem_range.mpr hv)
        simpa using this

theorem perm_range_of_nodup (N : Nat) (l : List Nat) (hn : l.Nodup) (hlt : ∀ v ∈ l, v < N)
    (hlen : l.length = N) : l.Perm (List.range N) := by
  have hsub : l ⊆ List.range N := fun v hv => List.mem_range.mpr (hlt v hv)
  exact (hn.subperm hsub).perm_of_length_le (by rw [List.length_range, hlen])

theorem exists_not_mem_of_length_lt (N : Nat) (l : List Nat) (h : l.length < N) :
    ∃ v, v < N ∧ v ∉ l := by
  by_contra hne
  push_neg at hne
  have hsub : List.range N ⊆ l := fun v hv => hne v (List.mem_range.mp hv)
  have := ((List.nodup_range N).subperm hsub).length_le
  rw [List.length_range] at this
  omega

theorem indexOf_lt_of_split (out pre post : List Nat) (v w : Nat) (e : out = pre ++ v :: post)
    (hn : out.Nodup) (hw : w ∈ pre) : out.indexOf w < out.indexOf v := by
  subst e
  have hv : v ∉ pre := by
    intro hv
    have := (List.nodup_append.mp hn).2.2
    exact this hv (List.mem_cons_self _ _)
  rw [List.indexOf_append_of_mem hw, List.indexOf_append_of_not_mem hv, List.indexOf_cons_self]
  have := List.indexOf_lt_length.mpr hw
  omega

/-- A complete sink order shows that the graph has no cycle. -/
theorem graphAcyclic_of_sinkOrder (N : Nat) (E : List GraphEdge) (out : List Nat)
    (h : SinkOrder N E out) (hall : ∀ v, v < N → v ∈ out) (hsrc : ∀ e ∈ E, e.src < N) :
    GraphAcyclic E := by
  have hedge : ∀ a b, edgeRel E a b → out.indexOf b < out.indexOf a := by
    intro a b ⟨e, he, h1, h2⟩
    subst h1 h2
    obtain ⟨pre, post, hsplit⟩ := List.append_of_mem (hall e.src (hsrc e he))
    exact indexOf_lt_of_split out pre post e.src e.dst hsplit h.1
      (h.2.2 pre post e.src hsplit e he rfl)
  have hpath : ∀ a b, Relation.TransGen (edgeRel E) a b → out.indexOf b < out.indexOf a := by
    intro a b hab
    induction hab with
    | single e => exact hedge _ _ e
    | tail _ e ih => exact lt_trans (hedge _ _ e) ih
  intro v hv
  exact lt_irrefl _ (hpath v v hv)

/-- In a graph without cycle whose edges end below `N`, while a vertex below
`N` is left, one of those left has all its successors ordered. -/
theorem exists_sinkReady (N : Nat) (E : List GraphEdge) (out : List Nat)
    (hac : GraphAcyclic E) (hdst : ∀ e ∈ E, e.dst < N) (hlen : out.length < N) :
    ∃ v, v < N ∧ sinkReady E out v = true := by
  obtain ⟨v0, hv0, hv0n⟩ := exists_not_mem_of_length_lt N out hlen
  let r : Fin N → Fin N → Prop := fun a b => edgeRel E b.val a.val
  have hlift : ∀ a b, Relation.TransGen r a b → Relation.TransGen (edgeRel E) b.val a.val := by
    intro a b hab
    induction hab with
    | single e => exact Relation.TransGen.single e
    | tail _ e ih => exact Relation.TransGen.head e ih
  haveI : IsIrrefl (Fin N) (Relation.TransGen r) := ⟨fun a ha => hac a.val (hlift a a ha)⟩
  have hwf : WellFounded (Relation.TransGen r) :=
    Finite.wellFounded_of_trans_of_irrefl (Relation.TransGen r)
  obtain ⟨m, hm, hmin⟩ := hwf.has_min { a : Fin N | a.val ∉ out } ⟨⟨v0, hv0⟩, hv0n⟩
  refine ⟨m.val, m.isLt, (sinkReady_iff E out m.val).mpr ⟨hm, ?_⟩⟩
  intro e he hsrc
  by_contra hd
  exact hmin ⟨e.dst, hdst e he⟩ hd (Relation.TransGen.single ⟨e, he, hsrc, rfl⟩)

/-- On a graph without cycle whose edges end below `N` the sort orders all `N`
vertices. -/
theorem sortLoop_complete (N : Nat) (E : List GraphEdge) (hac : GraphAcyclic E)
    (hdst : ∀ e ∈ E, e.dst < N) : (sortLoop N E N []).2 = true := by
  obtain ⟨_, _, h3⟩ := sortLoop_spec N E N [] (sinkOrder_nil N E)
  by_contra hf
  have hf' : (sortLoop N E N []).2 = false := by simpa using hf
  obtain ⟨j1, j2⟩ := h3 hf'
  obtain ⟨v, hv, hr⟩ := exists_sinkReady N E _ hac hdst (by simpa using j1)
  rw [j2 v hv] at hr
  cases hr

/-- A sort that made all its turns has written a permutation of the vertices
in sink order. -/
theorem sortLoop_perm (N : Nat) (E : List GraphEdge) (h : (sortLoop N E N []).2 = true) :
    SinkOrder N E (sortLoop N E N []).1 ∧ (sortLoop N E N []).1.Perm (List.range N) := by
  obtain ⟨h1, h2, _⟩ := sortLoop_spec N E N [] (sinkOrder_nil N E)
  exact ⟨h1, perm_range_of_nodup N _ h1.1 h1.2.1 (by rw [h2 h]; simp)⟩

theorem sortLoop_acyclic (N : Nat) (E : List GraphEdge) (h : (sortLoop N E N []).2 = true)
    (hsrc : ∀ e ∈ E, e.src < N) : GraphAcyclic E := by
  obtain ⟨h1, h2⟩ := sortLoop_perm N E h
  exact graphAcyclic_of_sinkOrder N E _ h1
    (fun v hv => h2.symm.subset (List.mem_range.mpr hv)) hsrc

/-! ## The cycle removal -/

theorem lightest_spec (l : List GraphEdge) :
    (l = [] → lightest l = none) ∧
      (l ≠ [] → ∃ e, lightest l = some e ∧ e ∈ l ∧ ∀ x ∈ l, e.weight ≤ x.weight) := by
  induction l with
  | nil => exact ⟨fun _ => rfl, fun h => absurd rfl h⟩
  | cons a rest ih =>
    refine ⟨?_, fun _ => ?_⟩
    · intro h
      cases h
    rw [lightest]
    rcases rest with _ | ⟨b, rest'⟩
    · refine ⟨a, rfl, List.mem_cons_self _ _, ?_⟩
      intro x hx
      rw [List.mem_singleton] at hx
      subst hx
      exact le_refl _
    · obtain ⟨m, hm, hmem, hmin⟩ := ih.2 (List.cons_ne_nil b rest')
      rw [hm]
      by_cases hw : a.weight ≤ m.weight
      · refine ⟨a, by simp only [hw, if_true], List.mem_cons_self _ _, ?_⟩
        intro x hx
        rcases List.mem_cons.mp hx with rfl | hx
        · exact le_refl _
        · exact le_trans hw (hmin x hx)
      · refine ⟨m, by simp only [hw, if_false], List.mem_cons_of_mem _ hmem, ?_⟩
        intro x hx
        rcases List.mem_cons.mp hx with rfl | hx
        · omega
        · exact hmin x hx

theorem mem_stuckEdges (E : List GraphEdge) (out : List Nat) (e : GraphEdge) :
    e ∈ stuckEdges E out ↔ e ∈ E ∧ e.src ∉ out ∧ e.dst ∉ out := by
  unfold stuckEdges
  rw [List.mem_filter, decide_eq_true_iff]

/-- A sort that stops early leaves an edge between two unordered vertices. -/
theorem stuckEdges_ne_nil (N : Nat) (E : List GraphEdge)
    (h : (sortLoop N E N []).2 = false) : stuckEdges E (sortLoop N E N []).1 ≠ [] := by
  obtain ⟨_, _, h3⟩ := sortLoop_spec N E N [] (sinkOrder_nil N E)
  obtain ⟨j1, j2⟩ := h3 h
  obtain ⟨v, hv, hvn⟩ := exists_not_mem_of_length_lt N _ (by simpa using j1)
  have hr := j2 v hv
  have hnot : ¬ (v ∉ (sortLoop N E N []).1 ∧
      ∀ e ∈ E, e.src = v → e.dst ∈ (sortLoop N E N []).1) := by
    intro hc
    rw [(sinkReady_iff E _ v).mpr hc] at hr
    cases hr
  have hex : ∃ e ∈ E, e.src = v ∧ e.dst ∉ (sortLoop N E N []).1 := by
    by_contra hne
    push_neg at hne
    exact hnot ⟨hvn, hne⟩
  obtain ⟨e, he, hs, hd⟩ := hex
  have hmem : e ∈ stuckEdges E (sortLoop N E N []).1 :=
    (mem_stuckEdges E _ e).mpr ⟨he, by rw [hs]; exact hvn, hd⟩
  exact List.ne_nil_of_mem hmem

/-- A graph that the sort orders completely is left as it is. -/
theorem breakLoop_of_sorted (N k : Nat) (E removed : List GraphEdge)
    (h : (sortLoop N E N []).2 = true) : breakLoop N k E removed = (E, removed) := by
  cases k with
  | zero => rw [breakLoop]
  | succ k => rw [breakLoop, if_pos h]

/-- With more turns than edges, the cycle removal ends on a graph that the sort
orders completely; the edges removed are appended, in the order of removal, to
those removed before, and graph and removed edges together are the edges it
started with. -/
theorem breakLoop_spec (N : Nat) (k : Nat) (E removed : List GraphEdge) (hk : E.length < k) :
    (sortLoop N (breakLoop N k E removed).1 N []).2 = true ∧
      (E ++ removed).Perm ((breakLoop N k E removed).1 ++ (breakLoop N k E removed).2) ∧
      (∃ ext, (breakLoop N k E removed).2 = removed ++ ext) ∧
      (breakLoop N k E removed).1.Sublist E := by
  induction k generalizing E removed with
  | zero => omega
  | succ k ih =>
    by_cases hs : (sortLoop N E N []).2 = true
    · rw [breakLoop_of_sorted N (k + 1) E removed hs]
      exact ⟨hs, List.Perm.refl _, ⟨[], (List.append_nil _).symm⟩, List.Sublist.refl _⟩
    · have hf : (sortLoop N E N []).2 = false := by simpa using hs
      obtain ⟨e, he, hmem, _⟩ := (lightest_spec _).2 (stuckEdges_ne_nil N E hf)
      have heE : e ∈ E := ((mem_stuckEdges E _ e).mp hmem).1
      have hlen : (E.erase e).length < k := by
        rw [List.length_erase_of_mem heE]
        have := List.length_pos_of_mem heE
        omega
      have hstep : breakLoop N (k + 1) E removed = breakLoop N k (E.erase e) (removed ++ [e]) := by
        rw [breakLoop, if_neg hs, he]
      rw [hstep]
      obtain ⟨i1, i2, ⟨ext, i3⟩, i4⟩ := ih (E.erase e) (removed ++ [e]) hlen
      refine ⟨i1, ?_, ⟨e :: ext, ?_⟩, i4.trans (List.erase_sublist e E)⟩
      · refine List.Perm.trans ?_ i2
        have p1 : (E ++ removed).Perm ((e :: E.erase e) ++ removed) :=
          (List.perm_cons_erase heE).append_right removed
        refine p1.trans ?_
        have p2 : ((e :: E.erase e) ++ removed).Perm (E.erase e ++ (removed ++ [e])) := by
          rw [List.cons_append, ← List.append_assoc]
          exact (List.perm_append_singleton e (E.erase e ++ removed)).symm
        exact p2
      · rw [i3, List.append_assoc]
        rfl

theorem removeCyclicDependencies_spec (N : Nat) (E : List GraphEdge) :
    (sortLoop N (RemoveCyclicDependencies N E).1 N []).2 = true ∧
      E.Perm ((RemoveCyclicDependencies N E).1 ++ (RemoveCyclicDependencies N E).2) ∧
      (RemoveCyclicDependencies N E).1.Sublist E := by
  obtain ⟨h1, h2, _, h4⟩ := breakLoop_spec N (E.length + 1) E [] (Nat.lt_succ_self _)
  rw [List.append_nil] at h2
  exact ⟨h1, h2, h4⟩

theorem removeCyclicDependencies_of_sorted (N : Nat) (E : List GraphEdge)
    (h : (sortLoop N E N []).2 = true) : RemoveCyclicDependencies N E = (E, []) :=
  breakLoop_of_sorted N (E.length + 1) E [] h

/-! ## The edges of the local cell graph -/

theorem mem_buildEdges (N : Nat) (cs : List (List (Nat × Nat))) (e : GraphEdge) :
    e ∈ buildEdges N cs ↔ e.src < N ∧ (e.dst, e.weight) ∈ cs.getD e.src [] := by
  unfold buildEdges
  rw [List.mem_flatMap]
  constructor
  · rintro ⟨c, hc, he⟩
    rw [List.mem_map] at he
    obtain ⟨p, hp, rfl⟩ := he
    exact ⟨List.mem_range.mp hc, hp⟩
  · rintro ⟨h1, h2⟩
    refine ⟨e.src, List.mem_range.mpr h1, ?_⟩
    rw [List.mem_map]
    exact ⟨(e.dst, e.weight), h2, rfl⟩

theorem buildEdges_src_lt (N : Nat) (cs : List (List (Nat × Nat))) :
    ∀ e ∈ buildEdges N cs, e.src < N :=
  fun e he => ((mem_buildEdges N cs e).mp he).1

/-! ## The constructor -/

theorem topological_sort_ok (N : Nat) (E : List GraphEdge) (h : (sortLoop N E N []).2 = true) :
    topological_sort N E = Except.ok (sortLoop N E N []).1 := by
  unfold topological_sort
  simp only [h, if_true]

theorem topological_sort_error (N : Nat) (E : List GraphEdge)
    (h : (sortLoop N E N []).2 = false) :
    topological_sort N E = Except.error CtorError.not_a_dag := by
  unfold topological_sort
  simp only [h, Bool.false_eq_true, if_false]

theorem topological_sort_inv (N : Nat) (E : List GraphEdge) (order : List Nat)
    (h : topological_sort N E = Except.ok order) :
    (sortLoop N E N []).2 = true ∧ order = (sortLoop N E N []).1 := by
  cases hs : (sortLoop N E N []).2 with
  | true =>
    rw [topological_sort_ok N E hs] at h
    cases h
    exact ⟨rfl, rfl⟩
  | false =>
    rw [topological_sort_error N E hs] at h
    cases h

/-- The graph that is sorted and the feedback arc set, after cbc.cc:46-51. -/
theorem construct_eq (grid : MeshContinuum) (orient : Nat → Nat → FaceOrientation)
    (cs : List (List (Nat × Nat))) (fas0 : List (Nat × Nat)) (b : Bool)
    (G : List GraphEdge) (F : List (Nat × Nat))
    (hG : G = if b then
        (RemoveCyclicDependencies grid.local_cells.length
          (buildEdges grid.local_cells.length cs)).1
      else buildEdges grid.local_cells.length cs)
    (hF : F = if b then
        fas0 ++ (RemoveCyclicDependencies grid.local_cells.length
          (buildEdges grid.local_cells.length cs)).2.map (fun e => (e.src, e.dst))
      else fas0) :
    CBC_SPDS.construct grid orient cs fas0 b =
      match topological_sort grid.local_cells.length G with
      | Except.error err => Except.error err
      | Except.ok order =>
        if order.reverse.isEmpty then Except.error CtorError.cyclic_dependencies
        else Except.ok { local_sweep_fas_ := F, spls_item_id := order.reverse,
                         task_list_ := CBC_SPDS_TaskList grid orient } := by
  subst hG hF
  cases b <;> rfl

theorem construct_of_sorted (grid : MeshContinuum) (orient : Nat → Nat → FaceOrientation)
    (cs : List (List (Nat × Nat))) (fas0 : List (Nat × Nat)) (b : Bool)
    (G : List GraphEdge) (F : List (Nat × Nat))
    (hG : G = if b then
        (RemoveCyclicDependencies grid.local_cells.length
          (buildEdges grid.local_cells.length cs)).1
      else buildEdges grid.local_cells.length cs)
    (hF : F = if b then
        fas0 ++ (RemoveCyclicDependencies grid.local_cells.length
          (buildEdges grid.local_cells.length cs)).2.map (fun e => (e.src, e.dst))
      else fas0)
    (hN : 1 ≤ grid.local_cells.length)
    (hs : (sortLoop grid.local_cells.length G grid.local_cells.length []).2 = true) :
    CBC_SPDS.construct grid orient cs fas0 b =
      Except.ok { local_sweep_fas_ := F,
                  spls_item_id :=
                    (sortLoop grid.local_cells.length G grid.local_cells.length []).1.reverse,
                  task_list_ := CBC_SPDS_TaskList grid orient } := by
  rw [construct_eq grid orient cs fas0 b G F hG hF, topological_sort_ok _ G hs]
  have hlen := (sortLoop_perm _ G hs).2.length_eq
  rw [List.length_range] at hlen
  have hne : (sortLoop grid.local_cells.length G grid.local_cells.length []).1.reverse.isEmpty
      = false := by
    rw [List.isEmpty_eq_false]
    intro h0
    rw [List.reverse_eq_nil_iff] at h0
    rw [h0] at hlen
    simp at hlen
    omega
  simp only [hne, Bool.false_eq_true, if_false]

theorem construct_inv (grid : MeshContinuum) (orient : Nat → Nat → FaceOrientation)
    (cs : List (List (Nat × Nat))) (fas0 : List (Nat × Nat)) (b : Bool) (s : CBC_SPDS)
    (h : CBC_SPDS.construct grid orient cs fas0 b = Except.ok s) :
    s.task_list_ = CBC_SPDS_TaskList grid orient ∧
      s.local_sweep_fas_ = (if b then
          fas0 ++ (RemoveCyclicDependencies grid.local_cells.length
            (buildEdges grid.local_cells.length cs)).2.map (fun e => (e.src, e.dst))
        else fas0) ∧
      ∃ order, topological_sort grid.local_cells.length (if b then
          (RemoveCyclicDependencies grid.local_cells.length
            (buildEdges grid.local_cells.length cs)).1
        else buildEdges grid.local_cells.length cs) = Except.ok order ∧
        s.spls_item_id = order.reverse ∧ order ≠ [] := by
  rw [construct_eq grid orient cs fas0 b _ _ rfl rfl] at h
  split at h
  · cases h
  · rename_i order ho
    split at h
    · cases h
    · rename_i hne
      cases h
      refine ⟨rfl, rfl, order, ho, rfl, ?_⟩
      intro h0
      apply hne
      rw [h0]
      rfl

theorem indexOf_lt_of_split_right (l pre post : List Nat) (v w : Nat)
    (e : l = pre ++ v :: post) (hn : l.Nodup) (hw : w ∈ post) : l.indexOf v < l.indexOf w := by
  subst e
  have hd := List.nodup_append.mp hn
  have hv : v ∉ pre := fun hv => hd.2.2 hv (List.mem_cons_self _ _)
  have hwp : w ∉ pre := fun hp => hd.2.2 hp (List.mem_cons_of_mem _ hw)
  have hne : v ≠ w := by
    intro hvw
    subst hvw
    exact (List.nodup_cons.mp hd.2.1).1 hw
  rw [List.indexOf_append_of_not_mem hv, List.indexOf_append_of_not_mem hwp,
    List.indexOf_cons_self, List.indexOf_cons_ne _ hne]
  omega

/-- In the reversal of a complete sink order every edge leads forward. -/
theorem comesBefore_reverse (N : Nat) (E : List GraphEdge) (out : List Nat)
    (h : SinkOrder N E out) (hall : ∀ v, v < N → v ∈ out) (hsrc : ∀ e ∈ E, e.src < N)
    (a b : Nat) (hab : edgeRel E a b) : comesBefore out.reverse a b := by
  obtain ⟨e, he, rfl, rfl⟩ := hab
  obtain ⟨pre, post, hsplit⟩ := List.append_of_mem (hall e.src (hsrc e he))
  have hd := h.2.2 pre post e.src hsplit e he rfl
  have hrev : out.reverse = post.reverse ++ e.src :: pre.reverse := by
    rw [hsplit, List.reverse_append, List.reverse_cons, List.append_assoc]
    rfl
  exact indexOf_lt_of_split_right out.reverse post.reverse pre.reverse e.src e.dst hrev
    (List.nodup_reverse.mpr h.1) (List.mem_reverse.mpr hd)

/-! ## The loop of `SetRange` -/

/-- With `n` points left from index `i` on, all inside both vectors, the loop
ends; it has rewritten the entries `i` to `i + n - 1` of both vectors and
nothing else. -/
theorem scaleLoop_spec (a c s : ℚ) (n i : Nat) (q : LineQuadrature)
    (h1 : i + n ≤ q.qpoints.length) (h2 : i + n ≤ q.weights.length) :
    ∃ q1, scaleLoop a c s n i q = some q1 ∧ q1.range_ = q.range_ ∧
      (∀ j, q1.qpoints[j]? = if i ≤ j ∧ j < i + n then
          (q.qpoints[j]?).map (fun p : Vector3 => { p with x := a + (p.x - c) * s })
        else q.qpoints[j]?) ∧
      (∀ j, q1.weights[j]? = if i ≤ j ∧ j < i + n then
          (q.weights[j]?).map (fun w => w * s)
        else q.weights[j]?) := by
  induction n generalizing i q with
  | zero =>
    refine ⟨q, rfl, rfl, ?_, ?_⟩
    · intro j
      rw [if_neg (by omega)]
    · intro j
      rw [if_neg (by omega)]
  | succ n ih =>
    have hp : i < q.qpoints.length := by omega
    have hw : i < q.weights.length := by omega
    rw [scaleLoop, List.getElem?_eq_getElem hp, List.getElem?_eq_getElem hw]
    obtain ⟨q1, e1, e2, e3, e4⟩ := ih (i + 1)
      { q with
        qpoints := q.qpoints.set i { q.qpoints[i] with x := a + (q.qpoints[i].x - c) * s }
        weights := q.weights.set i (q.weights[i] * s) }
      (by rw [List.length_set]; omega) (by rw [List.length_set]; omega)
    dsimp only at e1 e2 e3 e4
    refine ⟨q1, e1, e2, ?_, ?_⟩
    · intro j
      rw [e3 j, List.getElem?_set]
      by_cases hij : i = j
      · subst hij
        rw [if_neg (by omega), if_pos rfl, if_pos hp, if_pos (by omega),
          List.getElem?_eq_getElem hp]
        rfl
      · rw [if_neg hij]
        by_cases hj : i + 1 ≤ j ∧ j < i + 1 + n
        · rw [if_pos hj, if_pos (by omega)]
        · rw [if_neg hj, if_neg (by omega)]
    · intro j
      rw [e4 j, List.getElem?_set]
      by_cases hij : i = j
      · subst hij
        rw [if_neg (by omega), if_pos rfl, if_pos hw, if_pos (by omega),
          List.getElem?_eq_getElem hw]
        rfl
      · rw [if_neg hij]
        by_cases hj : i + 1 ≤ j ∧ j < i + 1 + n
        · rw [if_pos hj, if_pos (by omega)]
        · rw [if_neg hj, if_neg (by omega)]

/-- The whole loop maps every abscissa and every weight. -/
theorem scaleLoop_map (a c s : ℚ) (q : LineQuadrature)
    (hlen : q.weights.length = q.qpoints.length) :
    scaleLoop a c s q.qpoints.length 0 q =
      some { qpoints := q.qpoints.map (fun p : Vector3 => { p with x := a + (p.x - c) * s })
             weights := q.weights.map (fun w => w * s)
             range_ := q.range_ } := by
  obtain ⟨q1, e1, e2, e3, e4⟩ := scaleLoop_spec a c s q.qpoints.length 0 q
    (by omega) (by omega)
  rw [e1]
  have hq : q1.qpoints = q.qpoints.map (fun p : Vector3 => { p with x := a + (p.x - c) * s }) := by
    apply List.ext_getElem?
    intro j
    rw [e3 j, List.getElem?_map]
    by_cases hj : j < q.qpoints.length
    · rw [if_pos ⟨Nat.zero_le _, by omega⟩]
    · rw [if_neg (by omega), List.getElem?_eq_none (by omega)]
      rfl
  have hw : q1.weights = q.weights.map (fun w => w * s) := by
    apply List.ext_getElem?
    intro j
    rw [e4 j, List.getElem?_map]
    by_cases hj : j < q.qpoints.length
    · rw [if_pos ⟨Nat.zero_le _, by omega⟩]
    · rw [if_neg (by omega), List.getElem?_eq_none (by omega)]
      rfl
  cases q1
  simp only at hq hw e2
  rw [hq, hw, e2]

theorem sum_map_mul_right (l : List ℚ) (s : ℚ) : (l.map (fun w => w * s)).sum = l.sum * s := by
  induction l with
  | nil => simp
  | cons w rest ih => rw [List.map_cons, List.sum_cons, List.sum_cons, ih, add_mul]

/-- Before any write, `SetRange` throws when one of the two ranges has no
positive length, and next when there are no abscissae. -/
theorem setRange_cases (q : LineQuadrature) (range : ℚ × ℚ) :
    (range.2 ≤ range.1 ∨ q.range_.2 ≤ q.range_.1 →
        q.SetRange range =
          (SetRangeOutcome.invalid_argument SetRangeError.negative_or_zero_ranges, q)) ∧
      (range.1 < range.2 → q.range_.1 < q.range_.2 → q.qpoints = [] →
        q.SetRange range = (SetRangeOutcome.invalid_argument SetRangeError.no_abscissae, q)) ∧
      (range.1 < range.2 → q.range_.1 < q.range_.2 → q.qpoints ≠ [] →
        ∀ e, (q.SetRange range).1 ≠ SetRangeOutcome.invalid_argument e) := by
  refine ⟨?_, ?_, ?_⟩
  · intro h
    have hc : range.2 - range.1 ≤ 0 ∨ q.range_.2 - q.range_.1 ≤ 0 := by
      rcases h with h | h
      · exact Or.inl (sub_nonpos.mpr h)
      · exact Or.inr (sub_nonpos.mpr h)
    unfold LineQuadrature.SetRange
    simp only [hc, if_true]
  · intro h1 h2 h3
    have hc : ¬ (range.2 - range.1 ≤ 0 ∨ q.range_.2 - q.range_.1 ≤ 0) := by
      rw [sub_nonpos, sub_nonpos]
      push_neg
      exact ⟨h1, h2⟩
    unfold LineQuadrature.SetRange
    simp only [hc, if_false, h3, List.isEmpty_nil, if_true]
  · intro h1 h2 h3 e
    have hc : ¬ (range.2 - range.1 ≤ 0 ∨ q.range_.2 - q.range_.1 ≤ 0) := by
      rw [sub_nonpos, sub_nonpos]
      push_neg
      exact ⟨h1, h2⟩
    have hne : q.qpoints.isEmpty = false := by
      rw [List.isEmpty_eq_false]
      exact h3
    unfold LineQuadrature.SetRange
    simp only [hc, if_false, hne, Bool.false_eq_true]
    split
    · intro h
      cases h
    · split
      · intro h
        cases h
      · intro h
        cases h

/-! ## The face counters of the sweep chunk -/

/-- C1, counterexample: on the 2x2 grid listed with the sink at position 0, every
counter is the number of listings of its task in the successors lists and no
task has a remote incoming face; `ReceiveData` reports task 0 twice in the
first call, and the sink is swept first, before the tasks 1 and 2 that list it
in their successors. -/
theorem sink_swept_before_predecessors :
    sinkFirstSet.cbc_spds_.map Task.num_dependencies_ =
        (List.range 4).map (localEdgesInto sinkFirstSet.cbc_spds_) ∧
      (runAdvances (ResetSweepBuffers sinkFirstSet) [reportsTask0Twice]).map
          (fun r => sweptCells r.2.trace) = some [0, 3, 1, 2] ∧
      (sinkFirstSet.cbc_spds_[1]?).map Task.successors_ = some [0] ∧
      ¬ SweepOrder sinkFirstSet.cbc_spds_ [0, 3, 1, 2] := by
  refine ⟨by decide, by decide, by decide, ?_⟩
  intro h
  have h1 := h [] [3, 1, 2] 0 rfl 1
    { num_dependencies_ := 1, successors_ := [0], reference_id_ := 1, completed_ := false }
    rfl (by decide)
  cases h1

/-- C1, amended: on a task list, built with every `completed_` false, in which every
counter (an `unsigned int`) is the number of listings of the task in the
successors lists (its local edges) plus its number of remote incoming faces
`remote t`, and for calls in which `ReceiveData` reports a task at most once
per remote incoming face: in the sequence of kernel calls made since
`ResetSweepBuffers`, every task that lists `t` in its successors is swept
before `t`, and every swept task is marked completed. -/
theorem sweep_after_predecessors (s : CBC_AngleSet) (inps : List AdvanceInput)
    (remote : Nat → Nat)
    (hinit : ∀ (t : Nat) (c : Task), s.cbc_spds_[t]? = some c →
      c.num_dependencies_ = localEdgesInto s.cbc_spds_ t + remote t ∧
      c.num_dependencies_ < 2 ^ 32 ∧ c.completed_ = false)
    (hrecv : ∀ t, (allReceived inps).count t ≤ remote t) :
    ∃ rs s1 new, runAdvances (ResetSweepBuffers s) inps = some (rs, s1) ∧
      s1.trace = (ResetSweepBuffers s).trace ++ new ∧
      (∀ (pre post : List Nat) (t : Nat), sweptCells new = pre ++ t :: post →
        ∀ (p : Nat) (c : Task), s.cbc_spds_[p]? = some c → t ∈ c.successors_ → p ∈ pre) ∧
      (∀ i, i ∈ sweptCells new → isCompleted (materialize s1) i = true) := by
  obtain ⟨rs, s1, hrun⟩ := runAdvances_total (ResetSweepBuffers s) inps
  obtain ⟨new, rem, e1, hinv, _, _, _⟩ := runAdvances_sweepInv (ResetSweepBuffers s).trace
    (fun _ => 2 ^ 32) (fun _ => 0) inps (ResetSweepBuffers s) rs s1 hrun rfl remote []
    (by rw [List.append_nil]) (SweepInv.init s.cbc_spds_ remote hinit)
    (fun t => by have := hrecv t; show _ + 0 ≤ _; omega)
  have hsucc := runAdvances_successors inps s rs s1 hrun
  refine ⟨rs, s1, new, hrun, e1, ?_, fun i hi => (hinv.2.1 i).mp hi⟩
  intro pre post t e p c hp hm
  obtain ⟨c2, h2, hs⟩ := getElem?_of_map_successors hsucc hp
  exact hinv.2.2 pre post t e p c2 h2 (hs ▸ hm)

/-- Witness of C1: the 2x2 grid swept along a diagonal; the sink (position 3)
comes after both intermediate cells. -/
theorem sweep_after_predecessors_witness :
    ∃ rs s1 new, runAdvances (ResetSweepBuffers grid2x2Set) [quietInput, quietInput] =
        some (rs, s1) ∧
      s1.trace = (ResetSweepBuffers grid2x2Set).trace ++ new ∧
      (∀ (pre post : List Nat) (t : Nat), sweptCells new = pre ++ t :: post →
        ∀ (p : Nat) (c : Task), grid2x2Set.cbc_spds_[p]? = some c → t ∈ c.successors_ →
          p ∈ pre) ∧
      (∀ i, i ∈ sweptCells new → isCompleted (materialize s1) i = true) :=
  sweep_after_predecessors grid2x2Set [quietInput, quietInput] (fun _ => 0)
    (by
      intro t c ht
      have hlt : t < 4 := (List.getElem?_eq_some.mp ht).1
      interval_cases t <;> simp [grid2x2Set, grid2x2] at ht <;> subst ht <;> decide)
    (by intro t; simp [allReceived, quietInput])

/-! ## Kernel calls and completed flags (C2) -/

/-- C2: in the calls that follow `ResetSweepBuffers`, on a task list built with
every `completed_` false, the kernel is called at most once for each task; if
one of the calls returned FINISHED it has been called exactly once for every
task of the list; and a `completed_` flag that is set stays set through any
further calls. -/
theorem kernel_once_per_task (s : CBC_AngleSet) (inps more : List AdvanceInput)
    (hspds : ∀ c ∈ s.cbc_spds_, c.completed_ = false) :
    ∃ rs s1 new, runAdvances (ResetSweepBuffers s) inps = some (rs, s1) ∧
      s1.trace = (ResetSweepBuffers s).trace ++ new ∧
      (∀ i, (sweptCells new).count i ≤ 1) ∧
      (AngleSetStatus.FINISHED ∈ rs →
        ∀ i, i < s.cbc_spds_.length → (sweptCells new).count i = 1) ∧
      ∃ rs2 s2, runAdvances s1 more = some (rs2, s2) ∧
        ∀ i, isCompleted s1.current_task_list_ i = true →
          isCompleted s2.current_task_list_ i = true := by
  obtain ⟨rs, s1, hrun⟩ := runAdvances_total (ResetSweepBuffers s) inps
  obtain ⟨rs2, s2, hrun2⟩ := runAdvances_total s1 more
  have hm0 : materialize (ResetSweepBuffers s) = s.cbc_spds_ := rfl
  have hlen0 : (materialize (ResetSweepBuffers s)).length = (ResetSweepBuffers s).cbc_spds_.length :=
    rfl
  -- the kernel calls logged are those of the completed tasks
  obtain ⟨new, e1, q1, l1, sp1⟩ := runAdvances_inv
    (fun tl n => ∀ i, (sweptCells n).count i = if isCompleted tl i then 1 else 0)
    (by
      intro tl tr i0 c hq hi hr i
      rw [sweptCells_sweep, List.count_append, hq i, isCompleted_exec tl c i0 i hi,
        List.count_singleton]
      by_cases hii : i = i0
      · subst hii
        have : isCompleted tl i = false := by rw [isCompleted_of_getElem? hi]; exact hr.2
        simp [this]
      · have : ¬ i0 = i := fun e => hii e.symm
        simp [hii, this])
    (by
      intro tl tr e hns hq i
      rw [sweptCells_other tr e hns]; exact hq i)
    (ResetSweepBuffers s).trace inps
    (by
      intro inp _ tl tr hq i
      rw [isCompleted_foldl_decAt]; exact hq i)
    (ResetSweepBuffers s) rs s1 hrun hlen0 [] (by rw [List.append_nil])
    (by
      intro i
      rw [hm0, isCompleted_false_of_all _ hspds i]
      rfl)
  obtain ⟨x1, x2⟩ := runAdvances_executed inps (ResetSweepBuffers s) rs s1 hrun hlen0
    (fun h => by cases h)
  refine ⟨rs, s1, new, hrun, e1, ?_, ?_, rs2, s2, hrun2, ?_⟩
  · intro i
    rw [q1 i]
    split <;> omega
  · intro hfin i hi
    rw [q1 i, isCompleted_true_of_all _ (x2 (x1 (Or.inl hfin))) i (by rw [l1, sp1]; exact hi)]
    rfl
  · -- flags only go from false to true
    intro i hi
    have hne : s1.current_task_list_ ≠ [] := by
      intro h
      rw [h] at hi
      cases hi
    have hm1 : materialize s1 = s1.current_task_list_ := by
      unfold materialize
      cases hc : s1.current_task_list_ with
      | nil => exact absurd hc hne
      | cons a l => simp
    obtain ⟨new2, _, q2, l2, sp2⟩ := runAdvances_inv
      (fun tl _ => isCompleted tl i = true)
      (by
        intro tl tr i0 c hq hi0 _
        show isCompleted _ i = true
        rw [isCompleted_exec tl c i0 i hi0, show isCompleted tl i = true from hq]
        simp)
      (fun tl tr e _ hq => hq)
      s1.trace more
      (by
        intro inp _ tl tr hq
        show isCompleted _ i = true
        rw [isCompleted_foldl_decAt]; exact hq)
      s1 rs2 s2 hrun2 (by rw [l1]) [] (by rw [List.append_nil])
      (by rw [hm1]; exact hi)
    have hm2 : materialize s2 = s2.current_task_list_ := by
      unfold materialize
      cases hc : s2.current_task_list_ with
      | nil =>
        exfalso
        have hq : isCompleted (materialize s2) i = true := q2
        have hms : materialize s2 = s.cbc_spds_ := by
          unfold materialize
          rw [hc]
          simp only [List.isEmpty_nil, if_true]
          rw [sp2, sp1]
          rfl
        rw [hms, isCompleted_false_of_all _ hspds i] at hq
        cases hq
      | cons a l => simp
    rw [← hm2]
    exact q2

/-- Witness of C2: two calls on the 2x2 grid, then one more. -/
theorem kernel_once_per_task_witness :
    ∃ rs s1 new, runAdvances (ResetSweepBuffers grid2x2Set) [quietInput, quietInput] =
        some (rs, s1) ∧
      s1.trace = (ResetSweepBuffers grid2x2Set).trace ++ new ∧
      (∀ i, (sweptCells new).count i ≤ 1) ∧
      (AngleSetStatus.FINISHED ∈ rs →
        ∀ i, i < grid2x2Set.cbc_spds_.length → (sweptCells new).count i = 1) ∧
      ∃ rs2 s2, runAdvances s1 [quietInput] = some (rs2, s2) ∧
        ∀ i, isCompleted s1.current_task_list_ i = true →
          isCompleted s2.current_task_list_ i = true :=
  kernel_once_per_task grid2x2Set [quietInput, quietInput] [quietInput] (by decide)

/-! ## Tasks that wait for remote data (C3) -/

/-- A task with more dependencies than open local edges is neither swept nor
completed by calls in which `ReceiveData` does not report it. -/
theorem never_swept_without_receive (s : CBC_AngleSet) (inps : List AdvanceInput) (t : Nat)
    (c : Task) (ht : s.cbc_spds_[t]? = some c)
    (hdeps : pendingEdges s.cbc_spds_ t < c.num_dependencies_)
    (hlt : c.num_dependencies_ < 2 ^ 32) (hcf : c.completed_ = false)
    (hno : t ∉ allReceived inps) (rs : List AngleSetStatus) (s1 : CBC_AngleSet)
    (hrun : runAdvances (ResetSweepBuffers s) inps = some (rs, s1)) :
    ∃ new, s1.trace = (ResetSweepBuffers s).trace ++ new ∧ t ∉ sweptCells new ∧
      isCompleted (materialize s1) t = false := by
  obtain ⟨new, e1, ⟨⟨c1, h1, _, _, h4⟩, hsw⟩, _, _⟩ := runAdvances_inv
    (fun tl n => (∃ c1, tl[t]? = some c1 ∧ pendingEdges tl t < c1.num_dependencies_ ∧
      c1.num_dependencies_ < 2 ^ 32 ∧ c1.completed_ = false) ∧ t ∉ sweptCells n)
    (by
      intro tl tr i0 c0 hq hi hr
      obtain ⟨⟨c1, h1, h2, h3, h4⟩, hsw⟩ := hq
      have hne : t ≠ i0 := by
        intro e
        subst e
        rw [hi] at h1
        cases h1
        have := hr.1
        omega
      have hw := openWeight_exec (fun S => S.count t) tl i0 c0 hi hr.2
      simp only at hw
      refine ⟨⟨{ c1 with num_dependencies_ :=
          decrement^[c0.successors_.count t] c1.num_dependencies_ }, ?_, ?_, ?_, h4⟩, ?_⟩
      · rw [exec_getElem?, h1]
        simp [hne]
      · unfold pendingEdges at h2 ⊢
        simp only
        rw [decrement_iterate (by omega) h3]
        omega
      · simp only
        rw [decrement_iterate (by unfold pendingEdges at h2; omega) h3]
        omega
      · rw [sweptCells_sweep, List.mem_append]
        intro h
        rcases h with h | h
        · exact hsw h
        · exact hne (List.mem_singleton.mp h))
    (by
      intro tl tr e hns hq
      rw [sweptCells_other tr e hns]
      exact hq)
    (ResetSweepBuffers s).trace inps
    (by
      intro inp hinp tl tr hq
      obtain ⟨⟨c1, h1, h2, h3, h4⟩, hsw⟩ := hq
      have hcount : inp.tasks_who_received_data.count t = 0 :=
        List.count_eq_zero.mpr (fun hm => hno (mem_allReceived hinp hm))
      refine ⟨⟨c1, ?_, ?_, h3, h4⟩, hsw⟩
      · rw [foldl_decAt_getElem?, h1, hcount]
        rfl
      · rw [pendingEdges_foldl_decAt]; exact h2)
    (ResetSweepBuffers s) rs s1 hrun rfl [] (by rw [List.append_nil])
    ⟨⟨c, ht, hdeps, hlt, hcf⟩, by simp [sweptCells]⟩
  exact ⟨new, e1, hsw, by rw [isCompleted_of_getElem? h1]; exact h4⟩

theorem faceStep_fst (grid : MeshContinuum) (o : FaceOrientation) (face : CellFace)
    (acc : Nat × List Nat) :
    (faceStep grid o face acc).1 % 2 ^ 32 =
      (acc.1 + (if o = FaceOrientation.INCOMING ∧ face.has_neighbor = true then 1 else 0)) %
        2 ^ 32 := by
  unfold faceStep
  cases o with
  | PARALLEL => simp
  | INCOMING =>
    cases hn : face.has_neighbor with
    | true => simp
    | false => simp
  | OUTGOING =>
    simp only [reduceCtorEq, false_and, if_false, Nat.add_zero]
    split <;> rfl

theorem faceStep_lt (grid : MeshContinuum) (o : FaceOrientation) (face : CellFace)
    (acc : Nat × List Nat) (h : acc.1 < 2 ^ 32) : (faceStep grid o face acc).1 < 2 ^ 32 := by
  unfold faceStep
  cases o with
  | PARALLEL => exact h
  | INCOMING =>
    simp only
    split
    · exact Nat.mod_lt _ (by norm_num)
    · exact h
  | OUTGOING =>
    simp only
    split
    · exact h
    · exact h

/-- The counter computed for a cell is the number of its INCOMING faces that
have a neighbour, modulo `2 ^ 32`. -/
theorem faceLoop_fst (grid : MeshContinuum) (orient : Nat → FaceOrientation)
    (faces : List CellFace) (f : Nat) (acc : Nat × List Nat) (h : acc.1 < 2 ^ 32) :
    (faceLoop grid orient faces f acc).1 =
      (acc.1 + incomingFaces (fun face => face.has_neighbor) orient faces f) % 2 ^ 32 := by
  induction faces generalizing f acc with
  | nil =>
    rw [faceLoop, incomingFaces, Nat.add_zero, Nat.mod_eq_of_lt h]
  | cons face rest ih =>
    rw [faceLoop, ih (f + 1) _ (faceStep_lt grid (orient f) face acc h), incomingFaces]
    have := faceStep_fst grid (orient f) face acc
    omega

theorem incomingFaces_le (p : CellFace → Bool) (orient : Nat → FaceOrientation)
    (faces : List CellFace) (f : Nat) : incomingFaces p orient faces f ≤ faces.length := by
  induction faces generalizing f with
  | nil => exact le_refl _
  | cons face rest ih =>
    rw [incomingFaces, List.length_cons]
    have := ih (f + 1)
    split <;> omega

theorem incomingFaces_split (q : CellFace → Bool) (orient : Nat → FaceOrientation)
    (faces : List CellFace) (f : Nat) :
    incomingFaces (fun face => face.has_neighbor) orient faces f =
      incomingFaces (fun face => face.has_neighbor && q face) orient faces f +
        incomingFaces (fun face => face.has_neighbor && !q face) orient faces f := by
  induction faces generalizing f with
  | nil => rfl
  | cons face rest ih =>
    rw [incomingFaces, incomingFaces, incomingFaces, ih (f + 1)]
    cases face.has_neighbor <;> cases q face <;> by_cases ho : orient f = FaceOrientation.INCOMING <;>
      simp [ho] <;> omega

theorem incomingFaces_pos (p : CellFace → Bool) (orient : Nat → FaceOrientation)
    (faces : List CellFace) (f k : Nat) (face : CellFace) (hk : faces[k]? = some face)
    (ho : orient (f + k) = FaceOrientation.INCOMING) (hp : p face = true) :
    0 < incomingFaces p orient faces f := by
  induction faces generalizing f k with
  | nil => simp at hk
  | cons face0 rest ih =>
    rw [incomingFaces]
    cases k with
    | zero =>
      simp only [List.getElem?_cons_zero, Option.some.injEq] at hk
      subst hk
      rw [Nat.add_zero] at ho
      rw [if_pos ⟨ho, hp⟩]
      omega
    | succ k =>
      simp only [List.getElem?_cons_succ] at hk
      have := ih (f + 1) k hk (by rw [← ho]; congr 1; omega)
      omega

/-- C3: in the task list built by `CBC_SPDS`, take the task of a cell that has
an INCOMING face whose neighbour is on another partition, the local tasks
listing it at most once per INCOMING face with a local neighbour. Through any
calls after `ResetSweepBuffers` in which `ReceiveData` does not return the
position of that task, the kernel is not called for it and its `completed_`
stays false. -/
theorem remote_task_waits (grid : MeshContinuum) (orient : Nat → Nat → FaceOrientation)
    (s : CBC_AngleSet) (hs : s.cbc_spds_ = CBC_SPDS_TaskList grid orient)
    (t : Nat) (cell : Cell) (hcell : grid.local_cells[t]? = some cell)
    (hfaces : cell.faces.length < 2 ^ 32)
    (f : Nat) (face : CellFace) (hface : cell.faces[f]? = some face)
    (hin : orient cell.local_id f = FaceOrientation.INCOMING)
    (hnb : face.has_neighbor = true) (hrem : grid.IsCellLocal face.neighbor_id = false)
    (hlocal : localEdgesInto s.cbc_spds_ t ≤
      incomingFaces (fun fc => fc.has_neighbor && grid.IsCellLocal fc.neighbor_id)
        (orient cell.local_id) cell.faces 0)
    (inps : List AdvanceInput) (hno : t ∉ allReceived inps) :
    ∃ rs s1 new, runAdvances (ResetSweepBuffers s) inps = some (rs, s1) ∧
      s1.trace = (ResetSweepBuffers s).trace ++ new ∧ t ∉ sweptCells new ∧
      isCompleted (materialize s1) t = false := by
  obtain ⟨rs, s1, hrun⟩ := runAdvances_total (ResetSweepBuffers s) inps
  have hopen : ∀ c ∈ s.cbc_spds_, c.completed_ = false := by
    intro c hc
    rw [hs] at hc
    obtain ⟨cl, _, rfl⟩ := List.mem_map.mp hc
    rfl
  have ht : s.cbc_spds_[t]? = some (cellTask grid orient cell) := by
    rw [hs, CBC_SPDS_TaskList, List.getElem?_map, hcell]
    rfl
  have hnum : (cellTask grid orient cell).num_dependencies_ =
      incomingFaces (fun face => face.has_neighbor) (orient cell.local_id) cell.faces 0 := by
    show (faceLoop grid (orient cell.local_id) cell.faces 0 (0, [])).1 = _
    rw [faceLoop_fst _ _ _ _ _ (by norm_num)]
    have := incomingFaces_le (fun face => face.has_neighbor) (orient cell.local_id) cell.faces 0
    simp only [Nat.zero_add]
    exact Nat.mod_eq_of_lt (by omega)
  have hsplit := incomingFaces_split (fun fc => grid.IsCellLocal fc.neighbor_id)
    (orient cell.local_id) cell.faces 0
  have hpos := incomingFaces_pos
    (fun fc => fc.has_neighbor && !grid.IsCellLocal fc.neighbor_id) (orient cell.local_id)
    cell.faces 0 f face hface (by rw [Nat.zero_add]; exact hin) (by simp [hnb, hrem])
  have hle := incomingFaces_le (fun face => face.has_neighbor) (orient cell.local_id)
    cell.faces 0
  obtain ⟨new, e1, h1, h2⟩ := never_swept_without_receive s inps t _ ht
    (by rw [pendingEdges_of_open _ hopen, hnum]; omega) (by rw [hnum]; omega) rfl hno rs s1 hrun
  exact ⟨rs, s1, new, hrun, e1, h1, h2⟩

/-- Witness of C3: two partitions with one cell each; on the downstream one,
two calls in which nothing is received. -/
theorem remote_task_waits_witness :
    ∃ rs s1 new, runAdvances (ResetSweepBuffers downstreamSet) [quietInput, quietInput] =
        some (rs, s1) ∧
      s1.trace = (ResetSweepBuffers downstreamSet).trace ++ new ∧ 0 ∉ sweptCells new ∧
      isCompleted (materialize s1) 0 = false :=
  remote_task_waits downstreamGrid downstreamOrient downstreamSet rfl 0
    { local_id := 0, faces := [{ has_neighbor := true, neighbor_id := 0 },
                                { has_neighbor := false, neighbor_id := 0 }] }
    rfl (by decide) 0 { has_neighbor := true, neighbor_id := 0 } rfl rfl rfl rfl (by decide)
    [quietInput, quietInput] (by decide)

/-! ## What a call reports (C4 - C8) -/

/-- C4: a call entered with `executed_ = false` returns; it returns FINISHED
only if every task of the list is completed and the last `SendData` returned
true, and then it has set `executed_` and called `UpdateAnglesReadyStatus` once
on every reference boundary, in map order; otherwise it returns NOT_FINISHED,
leaves `executed_` false and calls `UpdateAnglesReadyStatus` on no boundary. -/
theorem advance_finished_report (s : CBC_AngleSet) (inp : AdvanceInput)
    (hex : s.executed_ = false) :
    ∃ r s', AngleSetAdvance s inp = some (r, s') ∧
      (r = AngleSetStatus.FINISHED →
        (∀ c ∈ s'.current_task_list_, c.completed_ = true) ∧
        inp.all_messages_sent = true ∧ s'.executed_ = true ∧
        updatesOf s'.trace = updatesOf s.trace ++ s.ref_boundaries_) ∧
      (r ≠ AngleSetStatus.FINISHED →
        r = AngleSetStatus.NOT_FINISHED ∧ s'.executed_ = false ∧
        updatesOf s'.trace = updatesOf s.trace) := by
  by_cases hb : ∀ b ∈ s.ref_boundaries_, inp.bndry_ready b = true
  · obtain ⟨st, hst, hres⟩ := AngleSetAdvance_ready s inp hex hb
    have hup := whileLoop_updates _ _ _ hst
    simp only at hup
    rw [updatesOf_prologue] at hup
    by_cases hfin : st.all_tasks_completed = true ∧ inp.all_messages_sent = true
    · rw [if_pos hfin] at hres
      obtain ⟨e1, _, h3⟩ := whileLoop_all _ _ _ hst rfl hfin.1
      refine ⟨_, _, hres, fun _ => ⟨?_, hfin.2, rfl, ?_⟩, fun h => absurd rfl h⟩
      · intro c hc
        simp only at hc
        rw [e1] at hc
        exact h3 c hc
      · simp only
        rw [updatesOf_append, updatesOf_append, hup, updatesOf_map_update,
          updatesOf_of_no_update [Event.SendData] (by
            intro e he b hh; subst hh; simp at he), List.append_nil]
    · rw [if_neg hfin] at hres
      refine ⟨_, _, hres, ?_, fun _ => ⟨rfl, hex, ?_⟩⟩
      · intro h; cases h
      simp only
      rw [updatesOf_append, hup, updatesOf_of_no_update [Event.SendData] (by
        intro e he b hh; subst hh; simp at he), List.append_nil]
  · have hb' : ∃ b ∈ s.ref_boundaries_, inp.bndry_ready b = false := by
      push_neg at hb
      obtain ⟨b, hb1, hb2⟩ := hb
      exact ⟨b, hb1, by simpa using hb2⟩
    refine ⟨_, _, AngleSetAdvance_blocked s inp hex (checkBoundaries_some _ _ _ hb'),
      ?_, fun _ => ⟨rfl, hex, ?_⟩⟩
    · intro h; cases h
    obtain ⟨ev, e1, e2⟩ := checkBoundaries_trace inp.bndry_ready s.ref_boundaries_
      (s.trace ++ [Event.SetAngleSet, Event.ReceiveData] ++ [Event.SendData])
    simp only
    rw [e1, List.append_assoc, List.append_assoc, updatesOf_append,
      updatesOf_of_no_update ([Event.SetAngleSet, Event.ReceiveData] ++ ([Event.SendData] ++ ev)) (by
        intro e he b hh
        subst hh
        simp at he
        obtain ⟨b', hb'⟩ := e2 _ he
        cases hb'), List.append_nil]

/-- Witness of C4: the first call on a one-task angle set. -/
theorem advance_finished_report_witness :
    ∃ r s', AngleSetAdvance oneTaskSet quietInput = some (r, s') ∧
      (r = AngleSetStatus.FINISHED →
        (∀ c ∈ s'.current_task_list_, c.completed_ = true) ∧
        quietInput.all_messages_sent = true ∧ s'.executed_ = true ∧
        updatesOf s'.trace = updatesOf oneTaskSet.trace ++ oneTaskSet.ref_boundaries_) ∧
      (r ≠ AngleSetStatus.FINISHED →
        r = AngleSetStatus.NOT_FINISHED ∧ s'.executed_ = false ∧
        updatesOf s'.trace = updatesOf oneTaskSet.trace) :=
  advance_finished_report oneTaskSet quietInput rfl

/-- C5, counterexample: the call that sweeps the only task ends its scan with
every task completed and all messages sent, yet returns NOT_FINISHED and leaves
`executed_` false. -/
theorem advance_last_sweep_not_finished :
    oneTaskSet.executed_ = false ∧
    (∀ b ∈ oneTaskSet.ref_boundaries_, quietInput.bndry_ready b = true) ∧
    quietInput.all_messages_sent = true ∧
    AngleSetAdvance oneTaskSet quietInput = some (AngleSetStatus.NOT_FINISHED, oneTaskSwept) ∧
    (∀ c ∈ oneTaskSwept.current_task_list_, c.completed_ = true) ∧
    oneTaskSwept.executed_ = false := by
  decide

/-- C5, amended: a call entered with `executed_ = false` and all boundaries
ready returns FINISHED, and sets `executed_`, exactly when every task of the
list is already completed when the scan starts and the last `SendData` reports
all messages sent; a call whose scan starts with an open task returns
NOT_FINISHED and leaves `executed_` false, also when it sweeps that task. -/
theorem advance_finished_iff (s : CBC_AngleSet) (inp : AdvanceInput)
    (hex : s.executed_ = false) (hb : ∀ b ∈ s.ref_boundaries_, inp.bndry_ready b = true) :
    ∃ r s', AngleSetAdvance s inp = some (r, s') ∧
      (r = AngleSetStatus.FINISHED ↔
        (∀ c ∈ inp.tasks_who_received_data.foldl decAt (materialize s), c.completed_ = true) ∧
          inp.all_messages_sent = true) ∧
      (s'.executed_ = true ↔ r = AngleSetStatus.FINISHED) ∧
      (r ≠ AngleSetStatus.FINISHED → r = AngleSetStatus.NOT_FINISHED) := by
  obtain ⟨st, hst, hres⟩ := AngleSetAdvance_ready s inp hex hb
  by_cases hfin : st.all_tasks_completed = true ∧ inp.all_messages_sent = true
  · rw [if_pos hfin] at hres
    obtain ⟨_, _, h3⟩ := whileLoop_all _ _ _ hst rfl hfin.1
    refine ⟨_, _, hres, ?_, ?_, ?_⟩
    · exact ⟨fun _ => ⟨h3, hfin.2⟩, fun _ => rfl⟩
    · exact ⟨fun _ => rfl, fun _ => rfl⟩
    · intro h; exact absurd rfl h
  · rw [if_neg hfin] at hres
    refine ⟨_, _, hres, ?_, ?_, ?_⟩
    · constructor
      · intro h; cases h
      · intro ⟨h1, h2⟩
        exfalso
        apply hfin
        have := whileLoop_of_completed (inp.tasks_who_received_data.foldl decAt
          (materialize s)).length
          { tasks := inp.tasks_who_received_data.foldl decAt (materialize s)
            all_tasks_completed := true
            a_task_executed := true
            trace := s.trace ++ [Event.SetAngleSet, Event.ReceiveData] ++ [Event.SendData] ++
              s.ref_boundaries_.map Event.CheckAnglesReadyStatus } rfl h1
        rw [hst] at this
        cases this
        exact ⟨rfl, h2⟩
    · constructor
      · intro h
        simp only at h
        rw [hex] at h
        cases h
      · intro h; cases h
    · intro _; rfl

/-- Witness of C5 (amended): the second call on the one-task angle set. -/
theorem advance_finished_iff_witness :
    ∃ r s', AngleSetAdvance oneTaskSwept quietInput = some (r, s') ∧
      (r = AngleSetStatus.FINISHED ↔
        (∀ c ∈ quietInput.tasks_who_received_data.foldl decAt (materialize oneTaskSwept),
          c.completed_ = true) ∧ quietInput.all_messages_sent = true) ∧
      (s'.executed_ = true ↔ r = AngleSetStatus.FINISHED) ∧
      (r ≠ AngleSetStatus.FINISHED → r = AngleSetStatus.NOT_FINISHED) :=
  advance_finished_iff oneTaskSwept quietInput rfl (by decide)

/-- C6: on an angle set with `executed_ = true` every further call returns
FINISHED and leaves the whole state as it is: task list, `executed_`, and the
log of calls, so that no `ReceiveData`, `SendData`, boundary or kernel call is
made; this holds for any number of calls. -/
theorem advance_executed_noop (s : CBC_AngleSet) (inps : List AdvanceInput)
    (hex : s.executed_ = true) :
    (∀ inp, AngleSetAdvance s inp = some (AngleSetStatus.FINISHED, s)) ∧
      runAdvances s inps = some (List.replicate inps.length AngleSetStatus.FINISHED, s) := by
  refine ⟨fun inp => AngleSetAdvance_executed s inp hex, ?_⟩
  induction inps with
  | nil => rfl
  | cons inp rest ih =>
    rw [runAdvances, AngleSetAdvance_executed s inp hex]
    simp only
    rw [ih]
    rfl

/-- Witness of C6: three calls on an executed one-task angle set. -/
theorem advance_executed_noop_witness :
    (∀ inp, AngleSetAdvance { oneTaskSwept with executed_ := true } inp =
        some (AngleSetStatus.FINISHED, { oneTaskSwept with executed_ := true })) ∧
      runAdvances { oneTaskSwept with executed_ := true } [quietInput, blockedInput, quietInput] =
        some (List.replicate [quietInput, blockedInput, quietInput].length
          AngleSetStatus.FINISHED, { oneTaskSwept with executed_ := true }) :=
  advance_executed_noop { oneTaskSwept with executed_ := true }
    [quietInput, blockedInput, quietInput] rfl

/-- C7: when a reference boundary is not ready, a call entered with
`executed_ = false` returns NOT_FINISHED with `executed_` still false and
without a kernel call; the task list it leaves is the list in use after line
46 with, at every position `j`, one decrement of `num_dependencies_` per
occurrence of `j` in the list returned by `ReceiveData`, and with the same
`completed_` flags. -/
theorem advance_blocked_frame (s : CBC_AngleSet) (inp : AdvanceInput)
    (hex : s.executed_ = false) (hb : ∃ b ∈ s.ref_boundaries_, inp.bndry_ready b = false) :
    ∃ s', AngleSetAdvance s inp = some (AngleSetStatus.NOT_FINISHED, s') ∧
      s'.executed_ = false ∧
      sweptCells s'.trace = sweptCells s.trace ∧
      s'.current_task_list_ = inp.tasks_who_received_data.foldl decAt (materialize s) ∧
      (∀ j, s'.current_task_list_[j]? = ((materialize s)[j]?).map (fun t : Task =>
        { t with num_dependencies_ :=
            decrement^[inp.tasks_who_received_data.count j] t.num_dependencies_ })) ∧
      s'.current_task_list_.map Task.completed_ = (materialize s).map Task.completed_ := by
  refine ⟨_, AngleSetAdvance_blocked s inp hex (checkBoundaries_some _ _ _ hb), hex, ?_, rfl,
    fun j => foldl_decAt_getElem? _ _ j, ?_⟩
  · obtain ⟨ev, e1, e2⟩ := checkBoundaries_trace inp.bndry_ready s.ref_boundaries_
      (s.trace ++ [Event.SetAngleSet, Event.ReceiveData] ++ [Event.SendData])
    simp only
    rw [e1, List.append_assoc, List.append_assoc, sweptCells_append,
      sweptCells_of_no_sweep ([Event.SetAngleSet, Event.ReceiveData] ++ ([Event.SendData] ++ ev))
        (by
          intro e he b hh
          subst hh
          simp at he
          obtain ⟨b', hb'⟩ := e2 _ he
          cases hb'), List.append_nil]
  · simp only
    have := congrArg (List.map Prod.fst) (foldl_decAt_keys inp.tasks_who_received_data
      (materialize s))
    simpa [List.map_map, Function.comp_def] using this

/-- Witness of C7: the 2x2 grid with boundary 0 not ready. -/
theorem advance_blocked_frame_witness :
    ∃ s', AngleSetAdvance grid2x2Set blockedInput = some (AngleSetStatus.NOT_FINISHED, s') ∧
      s'.executed_ = false ∧
      sweptCells s'.trace = sweptCells grid2x2Set.trace ∧
      s'.current_task_list_ =
        blockedInput.tasks_who_received_data.foldl decAt (materialize grid2x2Set) ∧
      (∀ j, s'.current_task_list_[j]? = ((materialize grid2x2Set)[j]?).map (fun t : Task =>
        { t with num_dependencies_ :=
            decrement^[blockedInput.tasks_who_received_data.count j] t.num_dependencies_ })) ∧
      s'.current_task_list_.map Task.completed_ =
        (materialize grid2x2Set).map Task.completed_ :=
  advance_blocked_frame grid2x2Set blockedInput rfl ⟨0, by decide, by decide⟩

/-- C8: a call entered with `executed_ = false` and all boundaries ready
returns, and the task list it leaves holds no task with
`num_dependencies_ = 0` and `completed_ = false`. -/
theorem advance_scan_fixpoint (s : CBC_AngleSet) (inp : AdvanceInput)
    (hex : s.executed_ = false) (hb : ∀ b ∈ s.ref_boundaries_, inp.bndry_ready b = true) :
    ∃ r s', AngleSetAdvance s inp = some (r, s') ∧
      ∀ c ∈ s'.current_task_list_, ¬ (c.num_dependencies_ = 0 ∧ c.completed_ = false) := by
  obtain ⟨r, s', h, hfix⟩ := scan_reaches_fixpoint s inp hex hb
  exact ⟨r, s', h, hfix⟩

/-- Witness of C8: the first call on the 2x2 grid. -/
theorem advance_scan_fixpoint_witness :
    ∃ r s', AngleSetAdvance grid2x2Set quietInput = some (r, s') ∧
      ∀ c ∈ s'.current_task_list_, ¬ (c.num_dependencies_ = 0 ∧ c.completed_ = false) :=
  advance_scan_fixpoint grid2x2Set quietInput rfl (by decide)

/-! ## One call on an acyclic local list (C9) -/

/-- C10, counterexample: `ReceiveData` reports task 0 while its counter is 0;
the decrement of line 53 takes the counter from 0 to 4294967295. -/
theorem counter_wraps_at_zero :
    (materialize (ResetSweepBuffers oneTaskSet)).map Task.num_dependencies_ = [0] ∧
    (runAdvances (ResetSweepBuffers oneTaskSet) [reportsTask0]).map
      (fun r => r.2.current_task_list_.map Task.num_dependencies_) = some [4294967295] := by
  decide

/-- C10, amended: on a task list, built with every `completed_` false, in which
every counter (an `unsigned int`) is the number of listings of the task in the
successors lists plus its number of remote incoming faces, and for calls in which `ReceiveData` reports a task at most once per
remote incoming face: from the state after any call of the sweep to the state
after any later call no counter has grown, and the counter of a task that has
been swept is 0; the scan hands a task to the kernel only when its counter is
0. -/
theorem counters_never_increase (s : CBC_AngleSet) (inps more : List AdvanceInput)
    (remote : Nat → Nat)
    (hinit : ∀ (t : Nat) (c : Task), s.cbc_spds_[t]? = some c →
      c.num_dependencies_ = localEdgesInto s.cbc_spds_ t + remote t ∧
      c.num_dependencies_ < 2 ^ 32 ∧ c.completed_ = false)
    (hrecv : ∀ t, (allReceived (inps ++ more)).count t ≤ remote t) :
    ∃ rs s1 new rs2 s2, runAdvances (ResetSweepBuffers s) inps = some (rs, s1) ∧
      s1.trace = (ResetSweepBuffers s).trace ++ new ∧
      runAdvances s1 more = some (rs2, s2) ∧
      (∀ (t : Nat) (c1 c2 : Task), (materialize s1)[t]? = some c1 →
        (materialize s2)[t]? = some c2 → c2.num_dependencies_ ≤ c1.num_dependencies_) ∧
      (∀ (t : Nat) (c1 : Task), (materialize s1)[t]? = some c1 → t ∈ sweptCells new →
        c1.num_dependencies_ = 0) ∧
      (∀ (st : LoopState) (i : Nat), sweptCells (visit st i).trace ≠ sweptCells st.trace →
        ∃ c, st.tasks[i]? = some c ∧ c.num_dependencies_ = 0) := by
  obtain ⟨rs, s1, hrun⟩ := runAdvances_total (ResetSweepBuffers s) inps
  obtain ⟨rs2, s2, hrun2⟩ := runAdvances_total s1 more
  obtain ⟨new, rem, e1, hinv, hl1, _, hbud⟩ := runAdvances_sweepInv (ResetSweepBuffers s).trace
    (fun _ => 2 ^ 32) (fun t => (allReceived more).count t) inps (ResetSweepBuffers s) rs s1
    hrun rfl remote [] (by rw [List.append_nil]) (SweepInv.init s.cbc_spds_ remote hinit)
    (fun t => by
      have := hrecv t
      rw [allReceived_append, List.count_append] at this
      exact this)
  have hinv1 : SweepInv rem
      (fun t => match (materialize s1)[t]? with
        | some c => c.num_dependencies_
        | none => 0) (materialize s1) new :=
    SweepInv.weaken hinv (fun t c ht => by simp only [ht]; exact le_refl _)
  obtain ⟨new2, rem2, _, hinv2, _, _, _⟩ := runAdvances_sweepInv (ResetSweepBuffers s).trace
    (fun t => match (materialize s1)[t]? with
      | some c => c.num_dependencies_
      | none => 0) (fun _ => 0) more s1 rs2 s2 hrun2 hl1 rem new e1 hinv1
    (fun t => by have := hbud t; show _ + 0 ≤ _; omega)
  refine ⟨rs, s1, new, rs2, s2, hrun, e1, hrun2, ?_, ?_, ?_⟩
  · intro t c1 c2 h1 h2
    have := (hinv2.1 t c2 h2).2.1
    simp only [h1] at this
    exact this
  · intro t c1 h1 hsw
    have hc := (hinv.2.1 t).mp hsw
    rw [isCompleted_of_getElem? h1] at hc
    exact (hinv.1 t c1 h1).2.2.2 hc
  · intro st i hne
    cases hi : st.tasks[i]? with
    | none => rw [visit_none hi] at hne; exact absurd rfl hne
    | some c =>
      by_cases hr : c.ready
      · exact ⟨c, rfl, hr.1⟩
      · rw [visit_not_ready hi hr] at hne; exact absurd rfl hne

/-- Witness of C10 (amended): the 2x2 grid, one call and then one more. -/
theorem counters_never_increase_witness :
    ∃ rs s1 new rs2 s2, runAdvances (ResetSweepBuffers grid2x2Set) [quietInput] =
        some (rs, s1) ∧
      s1.trace = (ResetSweepBuffers grid2x2Set).trace ++ new ∧
      runAdvances s1 [quietInput] = some (rs2, s2) ∧
      (∀ (t : Nat) (c1 c2 : Task), (materialize s1)[t]? = some c1 →
        (materialize s2)[t]? = some c2 → c2.num_dependencies_ ≤ c1.num_dependencies_) ∧
      (∀ (t : Nat) (c1 : Task), (materialize s1)[t]? = some c1 → t ∈ sweptCells new →
        c1.num_dependencies_ = 0) ∧
      (∀ (st : LoopState) (i : Nat), sweptCells (visit st i).trace ≠ sweptCells st.trace →
        ∃ c, st.tasks[i]? = some c ∧ c.num_dependencies_ = 0) :=
  counters_never_increase grid2x2Set [quietInput] [quietInput] (fun _ => 0)
    (by
      intro t c ht
      have hlt : t < 4 := (List.getElem?_eq_some.mp ht).1
      interval_cases t <;> simp [grid2x2Set, grid2x2] at ht <;> subst ht <;> decide)
    (by intro t; simp [allReceived, quietInput])

/-! ## Counting the decrements (C11) -/

theorem sweepDecrements_sweep (spds : List Task) (new : List Event) (t i : Nat) :
    sweepDecrements spds (new ++ [Event.SweepCell i]) t =
      sweepDecrements spds new t + listings spds t i := by
  unfold sweepDecrements
  rw [sweptCells_sweep, List.map_append, List.sum_append]
  simp

theorem sweepDecrements_other (spds : List Task) (new : List Event) (t : Nat) (e : Event)
    (h : ∀ i, e ≠ Event.SweepCell i) :
    sweepDecrements spds (new ++ [e]) t = sweepDecrements spds new t := by
  unfold sweepDecrements
  rw [sweptCells_other new e h]

theorem ledger_exec {spds : List Task} {R : List Nat} {tl : List Task}
    {new : List Event} (h : DecrementLedger spds R tl new) {i0 : Nat} {c0 : Task}
    (hi : tl[i0]? = some c0) :
    DecrementLedger spds R (setCompleted (c0.successors_.foldl decAt tl) i0)
      (new ++ [Event.SweepCell i0]) := by
  obtain ⟨hs, hd⟩ := h
  refine ⟨(exec_successors tl c0 i0).trans hs, ?_⟩
  intro t c' ht
  obtain ⟨c, hct, _, hdep, _⟩ := exec_getElem?_some ht
  obtain ⟨cs, hcs, hds⟩ := hd t c hct
  obtain ⟨ci, hci, hsi⟩ := getElem?_of_map_successors hs.symm hi
  refine ⟨cs, hcs, ?_⟩
  have hl : listings spds t i0 = c0.successors_.count t := by
    unfold listings; rw [hci, hsi]
  rw [hdep, hds, sweepDecrements_sweep, hl, ← Function.iterate_add_apply]
  congr 1
  omega

theorem ledger_event {spds : List Task} {R : List Nat} {tl : List Task}
    {new : List Event} (h : DecrementLedger spds R tl new) (e : Event)
    (hns : ∀ i, e ≠ Event.SweepCell i) : DecrementLedger spds R tl (new ++ [e]) := by
  obtain ⟨hs, hd⟩ := h
  refine ⟨hs, fun t c ht => ?_⟩
  obtain ⟨cs, hcs, hds⟩ := hd t c ht
  exact ⟨cs, hcs, by rw [sweepDecrements_other spds new t e hns]; exact hds⟩

theorem ledger_receive {spds : List Task} {R : List Nat} {tl : List Task}
    {new : List Event} (h : DecrementLedger spds R tl new) (L : List Nat) :
    DecrementLedger spds (R ++ L) (L.foldl decAt tl) new := by
  obtain ⟨hs, hd⟩ := h
  refine ⟨(foldl_decAt_successors L tl).trans hs, ?_⟩
  intro t c' ht
  obtain ⟨c, hct, _, hdep, _⟩ := foldl_decAt_getElem?_some ht
  obtain ⟨cs, hcs, hds⟩ := hd t c hct
  refine ⟨cs, hcs, ?_⟩
  rw [hdep, hds, ← Function.iterate_add_apply, List.count_append]
  congr 1
  omega

theorem processedReceived_cons {s : CBC_AngleSet} {inp : AdvanceInput} {r : AngleSetStatus}
    {s1 : CBC_AngleSet} (h : AngleSetAdvance s inp = some (r, s1)) (rest : List AdvanceInput) :
    processedReceived s (inp :: rest) =
      (if s.executed_ then [] else inp.tasks_who_received_data) ++ processedReceived s1 rest := by
  rw [processedReceived, h]

/-- The ledger of decrements is kept through any sequence of calls. -/
theorem runAdvances_ledger (spds : List Task) (base : List Event) (inps : List AdvanceInput)
    (s : CBC_AngleSet) (rs : List AngleSetStatus) (s' : CBC_AngleSet)
    (hrun : runAdvances s inps = some (rs, s'))
    (hlen : (materialize s).length = s.cbc_spds_.length)
    (R : List Nat) (new : List Event) (htr : s.trace = base ++ new)
    (h0 : DecrementLedger spds R (materialize s) new) :
    ∃ new', s'.trace = base ++ new' ∧
      DecrementLedger spds (R ++ processedReceived s inps) (materialize s') new' := by
  induction inps generalizing s rs R new with
  | nil =>
    rw [runAdvances] at hrun
    cases hrun
    exact ⟨new, htr, by rw [processedReceived, List.append_nil]; exact h0⟩
  | cons inp rest ih =>
    obtain ⟨r, s1, rs1, h1, h2, _⟩ := runAdvances_cons hrun
    rw [processedReceived_cons h1]
    cases hex : s.executed_ with
    | true =>
      have h1' := h1
      rw [AngleSetAdvance_executed s inp hex] at h1'
      cases h1'
      simp only [if_true, List.nil_append]
      exact ih s rs1 h2 hlen R new htr h0
    | false =>
      obtain ⟨f1, _, f3, _, _⟩ := AngleSetAdvance_step s inp r s1 hex h1
      obtain ⟨new1, g1, g2⟩ := AngleSetAdvance_inv
        (DecrementLedger spds (R ++ inp.tasks_who_received_data))
        (fun tl tr i c hq hi _ => ledger_exec hq hi)
        (fun tl tr e hns hq => ledger_event hq e hns)
        base s inp r s1 hex h1 new htr (ledger_receive h0 _)
      have hlen1 : s1.current_task_list_.length = s1.cbc_spds_.length := by
        rw [f3, f1, hlen]
      have hm1 := materialize_of_length s1 hlen1
      obtain ⟨new', k1, k2⟩ := ih s1 rs1 h2 (by rw [hm1]; exact hlen1)
        (R ++ inp.tasks_who_received_data) new1 g1 (by rw [hm1]; exact g2)
      refine ⟨new', k1, ?_⟩
      simp only [Bool.false_eq_true, if_false]
      rw [← List.append_assoc]
      exact k2

theorem count_processedReceived_le (inps : List AdvanceInput) (s : CBC_AngleSet) (t : Nat) :
    (processedReceived s inps).count t ≤ (allReceived inps).count t := by
  induction inps generalizing s with
  | nil => exact le_refl _
  | cons inp rest ih =>
    obtain ⟨r, s1, h1⟩ := AngleSetAdvance_total s inp
    rw [processedReceived_cons h1, allReceived, List.count_append, List.count_append]
    have := ih s1
    split
    · simp only [List.count_nil]; omega
    · omega

/-- In the calls that follow `ResetSweepBuffers`, on a list built with every
`completed_` false, the kernel calls logged for a position are one if the task
is completed and none otherwise. -/
theorem runAdvances_sweep_counts (s : CBC_AngleSet) (inps : List AdvanceInput)
    (hspds : ∀ c ∈ s.cbc_spds_, c.completed_ = false) (rs : List AngleSetStatus)
    (s1 : CBC_AngleSet) (hrun : runAdvances (ResetSweepBuffers s) inps = some (rs, s1)) :
    ∃ new, s1.trace = (ResetSweepBuffers s).trace ++ new ∧
      (∀ i, (sweptCells new).count i = if isCompleted (materialize s1) i then 1 else 0) ∧
      (materialize s1).length = s.cbc_spds_.length := by
  obtain ⟨new, e1, q1, l1, sp1⟩ := runAdvances_inv
    (fun tl n => ∀ i, (sweptCells n).count i = if isCompleted tl i then 1 else 0)
    (by
      intro tl tr i0 c hq hi hr i
      rw [sweptCells_sweep, List.count_append, hq i, isCompleted_exec tl c i0 i hi,
        List.count_singleton]
      by_cases hii : i = i0
      · subst hii
        have : isCompleted tl i = false := by rw [isCompleted_of_getElem? hi]; exact hr.2
        simp [this]
      · have : ¬ i0 = i := fun e => hii e.symm
        simp [hii, this])
    (by
      intro tl tr e hns hq i
      rw [sweptCells_other tr e hns]; exact hq i)
    (ResetSweepBuffers s).trace inps
    (by
      intro inp _ tl tr hq i
      rw [isCompleted_foldl_decAt]; exact hq i)
    (ResetSweepBuffers s) rs s1 hrun rfl [] (by rw [List.append_nil])
    (by
      intro i
      show _ = if isCompleted s.cbc_spds_ i then 1 else 0
      rw [isCompleted_false_of_all _ hspds i]
      rfl)
  exact ⟨new, e1, q1, l1.trans (by rw [sp1]; rfl)⟩

theorem map_listings_range (tl : List Task) (t : Nat) :
    (List.range tl.length).map (listings tl t) = tl.map (fun s => s.successors_.count t) := by
  apply List.ext_getElem?
  intro j
  rw [List.getElem?_map, List.getElem?_map]
  by_cases hj : j < tl.length
  · rw [List.getElem?_range hj, List.getElem?_eq_getElem hj]
    simp [listings, List.getElem?_eq_getElem hj]
  · rw [List.getElem?_eq_none (by simpa using hj), List.getElem?_eq_none (by simpa using hj)]
    rfl

/-- When every position below `n` occurs once and no other position occurs, the
decrements applied by the sweeps are the local edges. -/
theorem sweepDecrements_of_counts (tl : List Task) (new : List Event) (t : Nat)
    (h : ∀ i, (sweptCells new).count i = if i < tl.length then 1 else 0) :
    sweepDecrements tl new t = localEdgesInto tl t := by
  have hperm : (sweptCells new).Perm (List.range tl.length) := by
    rw [List.perm_iff_count]
    intro i
    rw [h i]
    by_cases hi : i < tl.length
    · rw [if_pos hi, List.count_eq_one_of_mem (List.nodup_range _) (List.mem_range.mpr hi)]
    · rw [if_neg hi, List.count_eq_zero.mpr (by simpa using hi)]
  unfold sweepDecrements localEdgesInto
  rw [(hperm.map (listings tl t)).sum_eq, map_listings_range]

/-- C11, counterexample: the one task of the list has no local edge and no
remote incoming face; `ReceiveData` reports it in the second call, after it was
swept, the counter is decremented once, from 0 to 4294967295, and the call
returns FINISHED: one decrement on a task with no incident edge. -/
theorem decrement_without_edge :
    oneTaskSet.cbc_spds_.map Task.num_dependencies_ = [0] ∧
      localEdgesInto oneTaskSet.cbc_spds_ 0 = 0 ∧
      (runAdvances (ResetSweepBuffers oneTaskSet) [quietInput, reportsTask0]).map
          (fun r => (r.1, r.2.current_task_list_.map Task.num_dependencies_,
            sweptCells r.2.trace)) =
        some ([AngleSetStatus.NOT_FINISHED, AngleSetStatus.FINISHED], [4294967295], [0]) ∧
      (processedReceived (ResetSweepBuffers oneTaskSet) [quietInput, reportsTask0]).count 0 =
        1 := by
  decide

/-- C11, amended: on a task list, built with every `completed_` false, in which every
counter (an `unsigned int`) is the number of listings of the task in the
successors lists plus its number of remote incoming faces `remote t`, and for
calls in which `ReceiveData` reports a task at most once per remote incoming
face: at any point of the sweep the counter of `t` is its first value
decremented once per report of `t` by `ReceiveData` and once per listing of `t`
in the successors of a swept task; and once a call has returned FINISHED every
task has been swept once, the decrements for the listings of `t` are as many
as the local edges into `t`, and the reports of `t` as many as its remote
incoming faces. -/
theorem decrements_match_edges (s : CBC_AngleSet) (inps : List AdvanceInput)
    (remote : Nat → Nat)
    (hinit : ∀ (t : Nat) (c : Task), s.cbc_spds_[t]? = some c →
      c.num_dependencies_ = localEdgesInto s.cbc_spds_ t + remote t ∧
      c.num_dependencies_ < 2 ^ 32 ∧ c.completed_ = false)
    (hrecv : ∀ t, (allReceived inps).count t ≤ remote t) :
    ∃ rs s1 new, runAdvances (ResetSweepBuffers s) inps = some (rs, s1) ∧
      s1.trace = (ResetSweepBuffers s).trace ++ new ∧
      (∀ (t : Nat) (c : Task), (materialize s1)[t]? = some c →
        ∃ c0, s.cbc_spds_[t]? = some c0 ∧ c.num_dependencies_ =
          decrement^[(processedReceived (ResetSweepBuffers s) inps).count t +
            sweepDecrements s.cbc_spds_ new t] c0.num_dependencies_) ∧
      (AngleSetStatus.FINISHED ∈ rs → ∀ t, t < s.cbc_spds_.length →
        (sweptCells new).count t = 1 ∧
        sweepDecrements s.cbc_spds_ new t = localEdgesInto s.cbc_spds_ t ∧
        (processedReceived (ResetSweepBuffers s) inps).count t = remote t) := by
  obtain ⟨rs, s1, hrun⟩ := runAdvances_total (ResetSweepBuffers s) inps
  have hopen : ∀ c ∈ s.cbc_spds_, c.completed_ = false := by
    intro c hc
    obtain ⟨t, ht⟩ := List.mem_iff_getElem?.mp hc
    exact (hinit t c ht).2.2
  obtain ⟨new, e1, hled⟩ := runAdvances_ledger s.cbc_spds_ (ResetSweepBuffers s).trace inps
    (ResetSweepBuffers s) rs s1 hrun rfl [] [] (by rw [List.append_nil])
    ⟨rfl, fun t c ht => ⟨c, ht, rfl⟩⟩
  rw [List.nil_append] at hled
  obtain ⟨new2, e2, hcnt, hlen⟩ := runAdvances_sweep_counts s inps hopen rs s1 hrun
  have hn2 : new2 = new := List.append_cancel_left (e2.symm.trans e1)
  subst hn2
  obtain ⟨new3, rem, e3, hinv, _, _, _⟩ := runAdvances_sweepInv (ResetSweepBuffers s).trace
    (fun _ => 2 ^ 32) (fun _ => 0) inps (ResetSweepBuffers s) rs s1 hrun rfl remote []
    (by rw [List.append_nil]) (SweepInv.init s.cbc_spds_ remote hinit)
    (fun t => by have := hrecv t; show _ + 0 ≤ _; omega)
  have hn3 : new3 = new2 := List.append_cancel_left (e3.symm.trans e1)
  subst hn3
  obtain ⟨x1, x2⟩ := runAdvances_executed inps (ResetSweepBuffers s) rs s1 hrun rfl
    (fun h => by cases h)
  refine ⟨rs, s1, new3, hrun, e1, hled.2, ?_⟩
  intro hfin t ht
  have hall := x2 (x1 (Or.inl hfin))
  have hcnt' : ∀ i, (sweptCells new3).count i = if i < s.cbc_spds_.length then 1 else 0 := by
    intro i
    rw [hcnt i]
    by_cases hi : i < s.cbc_spds_.length
    · rw [isCompleted_true_of_all _ hall i (by rw [hlen]; exact hi), if_pos hi]; rfl
    · have : isCompleted (materialize s1) i = false := by
        unfold isCompleted
        rw [List.getElem?_eq_none (by rw [hlen]; simpa using hi)]
      rw [this, if_neg hi]; rfl
  have hloc := sweepDecrements_of_counts s.cbc_spds_ new3 t hcnt'
  refine ⟨by rw [hcnt' t, if_pos ht], hloc, ?_⟩
  have htl : t < (materialize s1).length := by rw [hlen]; exact ht
  obtain ⟨c0, hc0, hdec⟩ := hled.2 t _ (List.getElem?_eq_getElem htl)
  obtain ⟨i1, i2, _⟩ := hinit t c0 hc0
  have hzero : ((materialize s1)[t]).num_dependencies_ = 0 :=
    (hinv.1 t _ (List.getElem?_eq_getElem htl)).2.2.2 (hall _ (List.getElem_mem _))
  have hle := count_processedReceived_le inps (ResetSweepBuffers s) t
  have hr := hrecv t
  rw [hzero, hloc, decrement_iterate (by omega) i2] at hdec
  omega

/-- Witness of C11: a chain of two tasks, the first with one remote incoming
face, the second with the first as local predecessor; the cross-partition data
arrives in the first call, both tasks are swept in it, the second call returns
FINISHED. -/
theorem decrements_match_edges_witness :
    ∃ rs s1 new, runAdvances (ResetSweepBuffers chainSet) [reportsTask0, quietInput] =
        some (rs, s1) ∧
      s1.trace = (ResetSweepBuffers chainSet).trace ++ new ∧
      (∀ (t : Nat) (c : Task), (materialize s1)[t]? = some c →
        ∃ c0, chainSet.cbc_spds_[t]? = some c0 ∧ c.num_dependencies_ =
          decrement^[(processedReceived (ResetSweepBuffers chainSet)
            [reportsTask0, quietInput]).count t +
            sweepDecrements chainSet.cbc_spds_ new t] c0.num_dependencies_) ∧
      (AngleSetStatus.FINISHED ∈ rs → ∀ t, t < chainSet.cbc_spds_.length →
        (sweptCells new).count t = 1 ∧
        sweepDecrements chainSet.cbc_spds_ new t = localEdgesInto chainSet.cbc_spds_ t ∧
        (processedReceived (ResetSweepBuffers chainSet)
          [reportsTask0, quietInput]).count t = if t = 0 then 1 else 0) :=
  decrements_match_edges chainSet [reportsTask0, quietInput]
    (fun t => if t = 0 then 1 else 0)
    (by
      intro t c ht
      have hlt : t < 2 := (List.getElem?_eq_some.mp ht).1
      interval_cases t <;> simp [chainSet] at ht <;> subst ht <;> decide)
    (by
      intro t
      by_cases h : t = 0
      · subst h; decide
      · simp [allReceived, quietInput, reportsTask0, h, List.count_singleton])

/-! ## Decrements at 0 (C12) -/

/-- C12, counterexample: the sweep of task 0 decrements the counter of task 1,
which is 0; the call does not fail, it returns NOT_FINISHED with the counter
of task 1 at 4294967295. -/
theorem advance_continues_after_wrap :
    AngleSetAdvance wrapSet quietInput =
      some (AngleSetStatus.NOT_FINISHED,
        { wrapSet with
          current_task_list_ :=
            [ { num_dependencies_ := 0, successors_ := [1], reference_id_ := 0,
                completed_ := true },
              { num_dependencies_ := 4294967295, successors_ := [], reference_id_ := 1,
                completed_ := false } ]
          trace := [Event.SetAngleSet, Event.ReceiveData, Event.SendData,
            Event.CheckAnglesReadyStatus 0, Event.SweepCell 0, Event.SendData, Event.SendData,
            Event.SendData, Event.SendData] }) := by
  decide

/-- C12, amended: `AngleSetAdvance` has no error exit, every call returns a
status and a state; the decrement of a counter, also of one that is 0, is
applied and the call goes on: at 0 it leaves 4294967295. -/
theorem advance_never_fails (s : CBC_AngleSet) (inp : AdvanceInput) (tl : List Task)
    (i j : Nat) :
    (∃ r s', AngleSetAdvance s inp = some (r, s')) ∧
      (decAt tl i)[j]? = (tl[j]?).map (fun t : Task =>
        if j = i then { t with num_dependencies_ := decrement t.num_dependencies_ } else t) ∧
      decrement 0 = 4294967295 :=
  ⟨AngleSetAdvance_total s inp, decAt_getElem? tl i j, by decide⟩

/-! ## Replaying a sweep (C13) -/

theorem visit_prepend (p : List Event) (st : LoopState) (i : Nat) :
    visit (st.prepend p) i = (visit st i).prepend p := by
  unfold visit LoopState.prepend
  simp only
  cases st.tasks[i]? with
  | none => rfl
  | some c =>
    simp only
    split
    · simp only [List.append_assoc]
    · rfl

theorem foldl_visit_prepend (p : List Event) (idx : List Nat) (st : LoopState) :
    idx.foldl visit (st.prepend p) = (idx.foldl visit st).prepend p := by
  induction idx generalizing st with
  | nil => rfl
  | cons i idx ih => rw [List.foldl_cons, List.foldl_cons, visit_prepend, ih]

theorem forPass_prepend (p : List Event) (st : LoopState) :
    forPass (st.prepend p) = (forPass st).prepend p := by
  have key := foldl_visit_prepend p (List.range st.tasks.length)
    { st with a_task_executed := false }
  unfold forPass
  simp only [LoopState.prepend] at key ⊢
  rw [key]
  simp only [List.append_assoc]

theorem whileLoop_prepend (p : List Event) (fuel : Nat) (st : LoopState) :
    whileLoop fuel (st.prepend p) = (whileLoop fuel st).map (LoopState.prepend p) := by
  induction fuel generalizing st with
  | zero =>
    rw [whileLoop, whileLoop]
    show (if st.a_task_executed = true then none else some (st.prepend p)) = _
    split <;> rfl
  | succ fuel ih =>
    rw [whileLoop, whileLoop]
    show (if st.a_task_executed = true then whileLoop fuel (forPass (st.prepend p))
      else some (st.prepend p)) = _
    split
    · rw [forPass_prepend, ih]
    · rfl

theorem checkBoundaries_prepend (p : List Event) (ready : Nat → Bool) (bs : List Nat)
    (tr : List Event) :
    checkBoundaries ready bs (p ++ tr) =
      ((checkBoundaries ready bs tr).1, p ++ (checkBoundaries ready bs tr).2) := by
  induction bs generalizing tr with
  | nil => rfl
  | cons b bs ih =>
    rw [checkBoundaries, checkBoundaries]
    split
    · rw [List.append_assoc, ih]
    · simp only [List.append_assoc]

/-- A call does not read the log: with `p` in front of the log it returns the
same status and the same state, with `p` in front of its log. -/
theorem AngleSetAdvance_prepend (p : List Event) (s : CBC_AngleSet) (inp : AdvanceInput) :
    AngleSetAdvance (s.prepend p) inp =
      (AngleSetAdvance s inp).map (fun r => (r.1, r.2.prepend p)) := by
  cases hex : s.executed_ with
  | true =>
    rw [AngleSetAdvance_executed s inp hex, AngleSetAdvance_executed (s.prepend p) inp hex]
    rfl
  | false =>
    have hex' : (s.prepend p).executed_ = false := hex
    have hcb := checkBoundaries_prepend p inp.bndry_ready s.ref_boundaries_
      (s.trace ++ [Event.SetAngleSet, Event.ReceiveData] ++ [Event.SendData])
    by_cases hb : ∀ b ∈ s.ref_boundaries_, inp.bndry_ready b = true
    · obtain ⟨st, hst, hres⟩ := AngleSetAdvance_ready s inp hex hb
      obtain ⟨st2, hst2, hres2⟩ := AngleSetAdvance_ready (s.prepend p) inp hex' hb
      have e : st2 = st.prepend p := by
        have := whileLoop_prepend p
          ((inp.tasks_who_received_data.foldl decAt (materialize s)).length + 1)
          { tasks := inp.tasks_who_received_data.foldl decAt (materialize s)
            all_tasks_completed := true
            a_task_executed := true
            trace := s.trace ++ [Event.SetAngleSet, Event.ReceiveData] ++ [Event.SendData] ++
              s.ref_boundaries_.map Event.CheckAnglesReadyStatus }
        rw [hst] at this
        have h2 : whileLoop
            ((inp.tasks_who_received_data.foldl decAt (materialize s)).length + 1)
            (LoopState.prepend p
              { tasks := inp.tasks_who_received_data.foldl decAt (materialize s)
                all_tasks_completed := true
                a_task_executed := true
                trace := s.trace ++ [Event.SetAngleSet, Event.ReceiveData] ++
                  [Event.SendData] ++ s.ref_boundaries_.map Event.CheckAnglesReadyStatus }) =
            some st2 := by
          rw [← hst2]
          simp only [LoopState.prepend, CBC_AngleSet.prepend, materialize, List.append_assoc]
        rw [h2] at this
        simpa using this
      rw [hres, hres2, e]
      simp only [LoopState.prepend]
      split <;> simp [CBC_AngleSet.prepend, List.append_assoc]
    · have hb' : ∃ b ∈ s.ref_boundaries_, inp.bndry_ready b = false := by
        push_neg at hb
        obtain ⟨b, hb1, hb2⟩ := hb
        exact ⟨b, hb1, by simpa using hb2⟩
      rw [AngleSetAdvance_blocked s inp hex (checkBoundaries_some _ _ _ hb'),
        AngleSetAdvance_blocked (s.prepend p) inp hex' (checkBoundaries_some _ _ _ hb')]
      simp only [CBC_AngleSet.prepend, materialize, List.append_assoc, Option.map_some'] at hcb ⊢
      rw [hcb]

theorem runAdvances_prepend (p : List Event) (inps : List AdvanceInput) (s : CBC_AngleSet) :
    runAdvances (s.prepend p) inps =
      (runAdvances s inps).map (fun r => (r.1, r.2.prepend p)) := by
  induction inps generalizing s with
  | nil => rfl
  | cons inp rest ih =>
    obtain ⟨r, s1, h1⟩ := AngleSetAdvance_total s inp
    obtain ⟨rs, s2, h2⟩ := runAdvances_total s1 rest
    rw [runAdvances, runAdvances, AngleSetAdvance_prepend, h1]
    simp only [Option.map_some']
    rw [ih s1, h2]
    rfl

/-- A sequence of calls leaves the SPDS task list and the boundaries of the
angle set as they are. -/
theorem runAdvances_frame (inps : List AdvanceInput) (s : CBC_AngleSet)
    (rs : List AngleSetStatus) (s' : CBC_AngleSet) (h : runAdvances s inps = some (rs, s')) :
    s'.cbc_spds_ = s.cbc_spds_ ∧ s'.ref_boundaries_ = s.ref_boundaries_ := by
  induction inps generalizing s rs with
  | nil =>
    rw [runAdvances] at h
    cases h
    exact ⟨rfl, rfl⟩
  | cons inp rest ih =>
    obtain ⟨r, s1, rs1, h1, h2, _⟩ := runAdvances_cons h
    obtain ⟨k1, k2⟩ := ih s1 rs1 h2
    cases hex : s.executed_ with
    | true =>
      rw [AngleSetAdvance_executed s inp hex] at h1
      cases h1
      exact ⟨k1, k2⟩
    | false =>
      obtain ⟨f1, f2, _⟩ := AngleSetAdvance_step s inp r s1 hex h1
      exact ⟨k1.trans f1, k2.trans f2⟩

/-- The calls after `ResetSweepBuffers` are those of the fresh angle set, logged
behind what was logged before. -/
theorem runAdvances_reset (s : CBC_AngleSet) (inps : List AdvanceInput) :
    runAdvances (ResetSweepBuffers s) inps =
      (runAdvances s.fresh inps).map (fun r =>
        (r.1, r.2.prepend (s.trace ++ [Event.CommReset, Event.ClearLocalAndReceivePsi]))) := by
  have e : ResetSweepBuffers s =
      s.fresh.prepend (s.trace ++ [Event.CommReset, Event.ClearLocalAndReceivePsi]) := by
    simp [ResetSweepBuffers, CBC_AngleSet.fresh, CBC_AngleSet.prepend]
  rw [e, runAdvances_prepend]

/-- C13: after `ResetSweepBuffers` the angle set has `executed_ = false` and an
empty task list, so that the next call works on the task list of the SPDS,
which the calls never change; the same answers of `ReceiveData`, `SendData`
and the boundaries, given again after a second reset, produce the same
statuses and the same sequence of logged calls, kernel calls included. -/
theorem replay_after_reset (s : CBC_AngleSet) (inps : List AdvanceInput) :
    (ResetSweepBuffers s).executed_ = false ∧
    (ResetSweepBuffers s).current_task_list_ = [] ∧
    materialize (ResetSweepBuffers s) = s.cbc_spds_ ∧
    ∃ rs s1 new, runAdvances (ResetSweepBuffers s) inps = some (rs, s1) ∧
      s1.trace = (ResetSweepBuffers s).trace ++ new ∧ s1.cbc_spds_ = s.cbc_spds_ ∧
      materialize (ResetSweepBuffers s1) = s.cbc_spds_ ∧
      ∃ s2 new2, runAdvances (ResetSweepBuffers s1) inps = some (rs, s2) ∧
        s2.trace = (ResetSweepBuffers s1).trace ++ new2 ∧ new2 = new ∧
        sweptCells new2 = sweptCells new := by
  refine ⟨rfl, rfl, rfl, ?_⟩
  obtain ⟨rs, z1, hz⟩ := runAdvances_total s.fresh inps
  have h1 := runAdvances_reset s inps
  rw [hz] at h1
  obtain ⟨f1, f2⟩ := runAdvances_frame inps s.fresh rs z1 hz
  have hfresh : (z1.prepend (ResetSweepBuffers s).trace).fresh = s.fresh := by
    simp only [CBC_AngleSet.fresh, CBC_AngleSet.prepend]
    rw [f1, f2]
    rfl
  have h2 := runAdvances_reset (z1.prepend (ResetSweepBuffers s).trace) inps
  rw [hfresh, hz] at h2
  exact ⟨rs, _, z1.trace, h1, rfl, f1, f1, _, z1.trace, h2, rfl, rfl, rfl⟩

/-! ## C14: the counters of the task list -/

/-- C14, as stated, fails: on two local cells that depend on each other, built
with `allow_cycles`, the edge from cell 1 to cell 0 is recorded in
`local_sweep_fas_`, no incoming edge of cell 0 remains, and the task of cell 0
still has `num_dependencies` 1. -/
theorem counter_counts_removed_edge :
    CBC_SPDS.construct cyclicGrid cyclicOrient cyclicSuccessors [] true =
        Except.ok { local_sweep_fas_ := [(1, 0)], spls_item_id := [0, 1],
                    task_list_ := [⟨1, [1], 0, false⟩, ⟨1, [0], 1, false⟩] } ∧
      cyclicGrid.local_cells[0]? = some ⟨0, [⟨true, 1⟩, ⟨true, 1⟩]⟩ ∧
      remainingIncoming cyclicGrid (cyclicOrient 0) [(1, 0)] ⟨0, [⟨true, 1⟩, ⟨true, 1⟩]⟩ = 0 ∧
      ¬ ∀ s, CBC_SPDS.construct cyclicGrid cyclicOrient cyclicSuccessors [] true = Except.ok s →
        ∀ (i : Nat) (cell : Cell) (task : Task), cyclicGrid.local_cells[i]? = some cell →
          s.task_list_[i]? = some task →
          task.num_dependencies_ =
            remainingIncoming cyclicGrid (cyclicOrient cell.local_id) s.local_sweep_fas_ cell := by
  have hc : CBC_SPDS.construct cyclicGrid cyclicOrient cyclicSuccessors [] true =
      Except.ok { local_sweep_fas_ := [(1, 0)], spls_item_id := [0, 1],
                  task_list_ := [⟨1, [1], 0, false⟩, ⟨1, [0], 1, false⟩] } := by
    rfl
  refine ⟨hc, rfl, by decide, ?_⟩
  intro hall
  have := hall _ hc 0 ⟨0, [⟨true, 1⟩, ⟨true, 1⟩]⟩ ⟨1, [1], 0, false⟩ rfl rfl
  revert this
  decide

/-- C14, amended: the task list of a constructed `CBC_SPDS` has one task per
local cell, in the order of the local cells and carrying the cell's local id;
the counter of a cell with fewer than 2^32 faces is the number of its INCOMING
faces with a local neighbour, whether or not the edge is in `local_sweep_fas_`,
plus the number of its INCOMING faces with a remote neighbour; faces without a
neighbour are not counted. -/
theorem task_counter_counts_incoming_faces (grid : MeshContinuum)
    (orient : Nat → Nat → FaceOrientation) (cs : List (List (Nat × Nat)))
    (fas0 : List (Nat × Nat)) (allow_cycles : Bool) (s : CBC_SPDS)
    (hs : CBC_SPDS.construct grid orient cs fas0 allow_cycles = Except.ok s)
    (i : Nat) (cell : Cell) (hcell : grid.local_cells[i]? = some cell)
    (hfaces : cell.faces.length < 2 ^ 32) :
    s.task_list_.length = grid.local_cells.length ∧
      ∃ task, s.task_list_[i]? = some task ∧ task.reference_id_ = cell.local_id ∧
        task.completed_ = false ∧
        task.num_dependencies_ =
          incomingFaces (fun face => face.has_neighbor && grid.IsCellLocal face.neighbor_id)
              (orient cell.local_id) cell.faces 0 +
            incomingFaces (fun face => face.has_neighbor && !grid.IsCellLocal face.neighbor_id)
              (orient cell.local_id) cell.faces 0 ∧
        task.num_dependencies_ =
          incomingFaces (fun face => face.has_neighbor) (orient cell.local_id) cell.faces 0 := by
  obtain ⟨htl, _, _⟩ := construct_inv grid orient cs fas0 allow_cycles s hs
  rw [htl]
  have hcount : (cellTask grid orient cell).num_dependencies_ =
      incomingFaces (fun face => face.has_neighbor) (orient cell.local_id) cell.faces 0 := by
    show (faceLoop grid (orient cell.local_id) cell.faces 0 (0, [])).1 = _
    rw [faceLoop_fst grid (orient cell.local_id) cell.faces 0 (0, []) (by norm_num),
      Nat.zero_add]
    exact Nat.mod_eq_of_lt (lt_of_le_of_lt (incomingFaces_le _ _ _ _) hfaces)
  refine ⟨?_, cellTask grid orient cell, ?_, rfl, rfl, ?_, hcount⟩
  · unfold CBC_SPDS_TaskList
    rw [List.length_map]
  · unfold CBC_SPDS_TaskList
    rw [List.getElem?_map, hcell]
    rfl
  · rw [hcount]
    exact incomingFaces_split (fun face => grid.IsCellLocal face.neighbor_id)
      (orient cell.local_id) cell.faces 0

theorem task_counter_counts_incoming_faces_witness :
    [(⟨1, [1], 0, false⟩ : Task), ⟨1, [0], 1, false⟩].length = cyclicGrid.local_cells.length ∧
      ∃ task, [(⟨1, [1], 0, false⟩ : Task), ⟨1, [0], 1, false⟩][0]? = some task ∧
        task.reference_id_ = 0 ∧ task.completed_ = false ∧
        task.num_dependencies_ =
          incomingFaces (fun face => face.has_neighbor && cyclicGrid.IsCellLocal face.neighbor_id)
              (cyclicOrient 0) [⟨true, 1⟩, ⟨true, 1⟩] 0 +
            incomingFaces
              (fun face => face.has_neighbor && !cyclicGrid.IsCellLocal face.neighbor_id)
              (cyclicOrient 0) [⟨true, 1⟩, ⟨true, 1⟩] 0 ∧
        task.num_dependencies_ =
          incomingFaces (fun face => face.has_neighbor) (cyclicOrient 0)
            [⟨true, 1⟩, ⟨true, 1⟩] 0 :=
  task_counter_counts_incoming_faces cyclicGrid cyclicOrient cyclicSuccessors [] true
    { local_sweep_fas_ := [(1, 0)], spls_item_id := [0, 1],
      task_list_ := [⟨1, [1], 0, false⟩, ⟨1, [0], 1, false⟩] }
    rfl 0 ⟨0, [⟨true, 1⟩, ⟨true, 1⟩]⟩ rfl (by decide)

/-! ## C15: the 2x2 grid swept along a diagonal -/

/-- C15: for the single-partition 2x2 grid and the direction (1, 1, 0) along the
diagonal from cell 0 to cell 3, the constructor returns a task list of four
tasks: cell 0 with `num_dependencies` 0 and the two successors 1 and 2 (the
source), cells 1 and 2 with `num_dependencies` 1 and the sink 3 as only
successor, and cell 3 with `num_dependencies` 2 and no successors (the sink). -/
theorem diagonal_grid_task_list :
    CBC_SPDS.construct diagGrid diagOrient diagSuccessors [] false =
        Except.ok { local_sweep_fas_ := [], spls_item_id := [0, 2, 1, 3],
                    task_list_ :=
                      [ ⟨0, [1, 2], 0, false⟩, ⟨1, [3], 1, false⟩, ⟨1, [3], 2, false⟩,
                        ⟨2, [], 3, false⟩ ] } ∧
      CBC_SPDS_TaskList diagGrid diagOrient =
        [ ⟨0, [1, 2], 0, false⟩, ⟨1, [3], 1, false⟩, ⟨1, [3], 2, false⟩, ⟨2, [], 3, false⟩ ] ∧
      ((CBC_SPDS_TaskList diagGrid diagOrient).filter
          (fun t => decide (t.num_dependencies_ = 0 ∧ t.successors_.length = 2))).length = 1 ∧
      ((CBC_SPDS_TaskList diagGrid diagOrient).filter
          (fun t => decide (t.num_dependencies_ = 1 ∧ t.successors_ = [3]))).length = 2 ∧
      ((CBC_SPDS_TaskList diagGrid diagOrient).filter
          (fun t => decide (t.num_dependencies_ = 2 ∧ t.successors_ = []))).length = 1 ∧
      (CBC_SPDS_TaskList diagGrid diagOrient).length = 4 :=
  ⟨rfl, by decide, by decide, by decide, by decide, by decide⟩

/-! ## C16: the sweep order of an acyclic graph -/

/-- C16: for a grid of N >= 1 local cells whose local cell graph, built from
`cell_successors`, has its edges between the cells 0..N-1 and no directed
cycle, the constructor succeeds, with or without `allow_cycles`, and its sweep
order `spls_.item_id` is a permutation of 0..N-1 in which, for every graph edge
(a, b), the position of a is strictly smaller than the position of b. -/
theorem sweep_order_is_topological (grid : MeshContinuum)
    (orient : Nat → Nat → FaceOrientation) (cs : List (List (Nat × Nat)))
    (fas0 : List (Nat × Nat)) (allow_cycles : Bool)
    (hN : 1 ≤ grid.local_cells.length)
    (hdst : ∀ e ∈ buildEdges grid.local_cells.length cs, e.dst < grid.local_cells.length)
    (hac : GraphAcyclic (buildEdges grid.local_cells.length cs)) :
    ∃ s, CBC_SPDS.construct grid orient cs fas0 allow_cycles = Except.ok s ∧
      s.spls_item_id.Perm (List.range grid.local_cells.length) ∧
      ∀ a b, edgeRel (buildEdges grid.local_cells.length cs) a b →
        comesBefore s.spls_item_id a b ∧ s.spls_item_id.indexOf b < s.spls_item_id.length := by
  have hs := sortLoop_complete _ _ hac hdst
  have hG : buildEdges grid.local_cells.length cs =
      if allow_cycles then
        (RemoveCyclicDependencies grid.local_cells.length
          (buildEdges grid.local_cells.length cs)).1
      else buildEdges grid.local_cells.length cs := by
    cases allow_cycles
    · rfl
    · rw [removeCyclicDependencies_of_sorted _ _ hs]
      rfl
  obtain ⟨hso, hperm⟩ := sortLoop_perm _ _ hs
  refine ⟨_, construct_of_sorted grid orient cs fas0 allow_cycles _ _ hG rfl hN hs,
    (List.reverse_perm _).trans hperm, ?_⟩
  intro a b hab
  refine ⟨comesBefore_reverse _ _ _ hso
    (fun v hv => hperm.symm.subset (List.mem_range.mpr hv))
    (buildEdges_src_lt _ cs) a b hab, ?_⟩
  obtain ⟨e, he, _, rfl⟩ := hab
  exact List.indexOf_lt_length.mpr
    (List.mem_reverse.mpr (hperm.symm.subset (List.mem_range.mpr (hdst e he))))

theorem sweep_order_is_topological_witness :
    ∃ s, CBC_SPDS.construct diagGrid diagOrient diagSuccessors [] false = Except.ok s ∧
      s.spls_item_id.Perm (List.range diagGrid.local_cells.length) ∧
      ∀ a b, edgeRel (buildEdges diagGrid.local_cells.length diagSuccessors) a b →
        comesBefore s.spls_item_id a b ∧ s.spls_item_id.indexOf b < s.spls_item_id.length :=
  sweep_order_is_topological diagGrid diagOrient diagSuccessors [] false (by decide)
    (by decide)
    (sortLoop_acyclic 4 (buildEdges 4 diagSuccessors) (by decide) (by decide))

/-! ## C17: a cyclic graph without `allow_cycles` -/

/-- C17: when `allow_cycles` is false and the local cell graph built from
`cell_successors` has a directed cycle, the constructor ends with the error of
the topological sort: it returns no object, hence neither a sweep order nor a
task list. -/
theorem cyclic_graph_is_rejected (grid : MeshContinuum)
    (orient : Nat → Nat → FaceOrientation) (cs : List (List (Nat × Nat)))
    (fas0 : List (Nat × Nat))
    (hcyc : ∃ v, Relation.TransGen (edgeRel (buildEdges grid.local_cells.length cs)) v v) :
    CBC_SPDS.construct grid orient cs fas0 false = Except.error CtorError.not_a_dag ∧
      ∀ s, CBC_SPDS.construct grid orient cs fas0 false ≠ Except.ok s := by
  have hf : (sortLoop grid.local_cells.length (buildEdges grid.local_cells.length cs)
      grid.local_cells.length []).2 = false := by
    cases hs : (sortLoop grid.local_cells.length (buildEdges grid.local_cells.length cs)
      grid.local_cells.length []).2 with
    | false => rfl
    | true =>
      obtain ⟨v, hv⟩ := hcyc
      exact absurd hv (sortLoop_acyclic _ _ hs (buildEdges_src_lt _ cs) v)
  have he : CBC_SPDS.construct grid orient cs fas0 false =
      Except.error CtorError.not_a_dag := by
    rw [construct_eq grid orient cs fas0 false _ _ rfl rfl]
    show (match topological_sort grid.local_cells.length
        (buildEdges grid.local_cells.length cs) with
      | Except.error err => Except.error err
      | Except.ok order => _) = _
    rw [topological_sort_error _ _ hf]
  refine ⟨he, ?_⟩
  intro s hs
  rw [he] at hs
  cases hs

theorem cyclic_graph_is_rejected_witness :
    CBC_SPDS.construct cyclicGrid cyclicOrient cyclicSuccessors [] false =
        Except.error CtorError.not_a_dag ∧
      ∀ s, CBC_SPDS.construct cyclicGrid cyclicOrient cyclicSuccessors [] false ≠ Except.ok s :=
  cyclic_graph_is_rejected cyclicGrid cyclicOrient cyclicSuccessors []
    ⟨0, Relation.TransGen.tail
      (Relation.TransGen.single ⟨⟨0, 1, 2⟩, by decide, rfl, rfl⟩)
      ⟨⟨1, 0, 1⟩, by decide, rfl, rfl⟩⟩

/-! ## C18: cycle removal and the feedback arc set -/

/-- C18: for every local cell graph, cyclic or not, the graph left by
`RemoveCyclicDependencies` has no directed cycle and keeps, together with the
removed edges, the edges of the graph; the topological sort then orders all N
cells; with `allow_cycles` and N >= 1 the constructor succeeds and its
`local_sweep_fas_` is the one before followed by the pairs (a, b) of the removed
edges in the order of their removal; without `allow_cycles` a constructed object
has `local_sweep_fas_` unchanged. -/
theorem removed_edges_are_recorded (grid : MeshContinuum)
    (orient : Nat → Nat → FaceOrientation) (cs : List (List (Nat × Nat)))
    (fas0 : List (Nat × Nat)) :
    GraphAcyclic (RemoveCyclicDependencies grid.local_cells.length
        (buildEdges grid.local_cells.length cs)).1 ∧
      (buildEdges grid.local_cells.length cs).Perm
        ((RemoveCyclicDependencies grid.local_cells.length
            (buildEdges grid.local_cells.length cs)).1 ++
          (RemoveCyclicDependencies grid.local_cells.length
            (buildEdges grid.local_cells.length cs)).2) ∧
      (∃ order, topological_sort grid.local_cells.length
          (RemoveCyclicDependencies grid.local_cells.length
            (buildEdges grid.local_cells.length cs)).1 = Except.ok order ∧
        order.Perm (List.range grid.local_cells.length)) ∧
      (1 ≤ grid.local_cells.length →
        ∃ s, CBC_SPDS.construct grid orient cs fas0 true = Except.ok s ∧
          s.spls_item_id.Perm (List.range grid.local_cells.length) ∧
          s.local_sweep_fas_ = fas0 ++
            (RemoveCyclicDependencies grid.local_cells.length
              (buildEdges grid.local_cells.length cs)).2.map (fun e => (e.src, e.dst))) ∧
      (∀ s, CBC_SPDS.construct grid orient cs fas0 false = Except.ok s →
        s.local_sweep_fas_ = fas0) := by
  obtain ⟨h1, h2, h3⟩ := removeCyclicDependencies_spec grid.local_cells.length
    (buildEdges grid.local_cells.length cs)
  have hsrc : ∀ e ∈ (RemoveCyclicDependencies grid.local_cells.length
      (buildEdges grid.local_cells.length cs)).1, e.src < grid.local_cells.length :=
    fun e he => buildEdges_src_lt _ cs e (h3.subset he)
  obtain ⟨_, hperm⟩ := sortLoop_perm _ _ h1
  refine ⟨sortLoop_acyclic _ _ h1 hsrc, h2, ⟨_, topological_sort_ok _ _ h1, hperm⟩, ?_, ?_⟩
  · intro hN
    exact ⟨_, construct_of_sorted grid orient cs fas0 true _ _ rfl rfl hN h1,
      (List.reverse_perm _).trans hperm, rfl⟩
  · intro s hs
    exact (construct_inv grid orient cs fas0 false s hs).2.1

theorem removed_edges_are_recorded_witness :
    (1 ≤ cyclicGrid.local_cells.length) ∧
      (RemoveCyclicDependencies 2 (buildEdges 2 cyclicSuccessors)).2 = [⟨1, 0, 1⟩] ∧
      ∃ s, CBC_SPDS.construct cyclicGrid cyclicOrient cyclicSuccessors [(7, 8)] true =
          Except.ok s ∧
        s.spls_item_id.Perm (List.range cyclicGrid.local_cells.length) ∧
        s.local_sweep_fas_ = [(7, 8)] ++
          (RemoveCyclicDependencies cyclicGrid.local_cells.length
            (buildEdges cyclicGrid.local_cells.length cyclicSuccessors)).2.map
              (fun e => (e.src, e.dst)) :=
  ⟨by decide, by decide,
    (removed_edges_are_recorded cyclicGrid cyclicOrient cyclicSuccessors [(7, 8)]).2.2.2.1
      (by decide)⟩

/-! ## C19: what `SetRange` computes -/

/-- C19: with the old range [c, d], d > c, the new range [a, b], b > a, at least
one and fewer than 2^32 quadrature points and as many weights as points, in
exact arithmetic, `SetRange` returns; it has replaced the first coordinate x of
every abscissa by a + (x - c)(b - a)/(d - c), which sends c to a and d to b,
multiplied every weight by (b - a)/(d - c), so that the sum of the weights is
scaled by that ratio, left the other coordinates and the number of points as
they were, and set `range_` to [a, b]. -/
theorem setRange_maps_interval (q : LineQuadrature) (a b : ℚ)
    (hnew : a < b) (hold : q.range_.1 < q.range_.2) (hne : q.qpoints ≠ [])
    (hlen : q.weights.length = q.qpoints.length) (hsize : q.qpoints.length < 2 ^ 32) :
    (q.SetRange (a, b)).1 = SetRangeOutcome.returned ∧
      (q.SetRange (a, b)).2.qpoints =
        q.qpoints.map (fun p : Vector3 =>
          { x := a + (p.x - q.range_.1) * (b - a) / (q.range_.2 - q.range_.1),
            y := p.y, z := p.z }) ∧
      (q.SetRange (a, b)).2.weights =
        q.weights.map (fun w => w * ((b - a) / (q.range_.2 - q.range_.1))) ∧
      (q.SetRange (a, b)).2.range_ = (a, b) ∧
      (q.SetRange (a, b)).2.qpoints.length = q.qpoints.length ∧
      (q.SetRange (a, b)).2.weights.length = q.weights.length ∧
      (q.SetRange (a, b)).2.weights.sum =
        q.weights.sum * ((b - a) / (q.range_.2 - q.range_.1)) ∧
      a + (q.range_.1 - q.range_.1) * (b - a) / (q.range_.2 - q.range_.1) = a ∧
      a + (q.range_.2 - q.range_.1) * (b - a) / (q.range_.2 - q.range_.1) = b := by
  have hc : ¬ ((a, b).2 - (a, b).1 ≤ 0 ∨ q.range_.2 - q.range_.1 ≤ 0) := by
    rw [sub_nonpos, sub_nonpos]
    push_neg
    exact ⟨hnew, hold⟩
  have hem : q.qpoints.isEmpty = false := by
    rw [List.isEmpty_eq_false]
    exact hne
  have hsz : ¬ 2 ^ 32 ≤ q.qpoints.length := by omega
  have hrun : q.SetRange (a, b) =
      (SetRangeOutcome.returned,
        { qpoints := q.qpoints.map (fun p : Vector3 =>
            { p with x := a + (p.x - q.range_.1) * ((b - a) / (q.range_.2 - q.range_.1)) })
          weights := q.weights.map (fun w => w * ((b - a) / (q.range_.2 - q.range_.1)))
          range_ := (a, b) }) := by
    unfold LineQuadrature.SetRange
    simp only [hc, if_false, hem, Bool.false_eq_true, hsz]
    rw [scaleLoop_map a q.range_.1 _ q hlen]
  have hd : q.range_.2 - q.range_.1 ≠ 0 := ne_of_gt (sub_pos.mpr hold)
  rw [hrun]
  refine ⟨rfl, ?_, rfl, rfl, ?_, ?_, ?_, ?_, ?_⟩
  · apply List.map_congr_left
    intro p _
    rw [mul_div_assoc]
  · exact List.length_map _ _
  · exact List.length_map _ _
  · exact sum_map_mul_right _ _
  · rw [sub_self, zero_mul, zero_div, add_zero]
  · rw [mul_div_assoc, mul_div_cancel₀ _ hd]
    ring

theorem setRange_maps_interval_witness :
    (unitQuadrature.SetRange (2, 6)).1 = SetRangeOutcome.returned ∧
      (unitQuadrature.SetRange (2, 6)).2.qpoints = [⟨3, 5, 0⟩, ⟨5, 0, 7⟩] ∧
      (unitQuadrature.SetRange (2, 6)).2.weights = [2, 2] ∧
      (unitQuadrature.SetRange (2, 6)).2.range_ = (2, 6) := by
  have h := setRange_maps_interval unitQuadrature 2 6 (by norm_num)
    (by norm_num [unitQuadrature]) (by simp [unitQuadrature]) rfl (by simp [unitQuadrature])
  refine ⟨h.1, ?_, ?_, h.2.2.2.1⟩
  · rw [h.2.1]
    norm_num [unitQuadrature]
  · rw [h.2.2.1]
    norm_num [unitQuadrature]

/-! ## C20: when `SetRange` throws -/

/-- C20: `SetRange` throws an invalid-argument error if and only if the new
range has non-positive length, the current range has non-positive length, or
there are no abscissae; whenever it throws, `qpoints`, `weights` and `range_`
are exactly as before the call. -/
theorem setRange_throws_iff (q : LineQuadrature) (range : ℚ × ℚ) :
    ((∃ e, (q.SetRange range).1 = SetRangeOutcome.invalid_argument e) ↔
        (range.2 - range.1 ≤ 0 ∨ q.range_.2 - q.range_.1 ≤ 0 ∨ q.qpoints = [])) ∧
      (∀ e, (q.SetRange range).1 = SetRangeOutcome.invalid_argument e →
        (q.SetRange range).2 = q) := by
  obtain ⟨c1, c2, c3⟩ := setRange_cases q range
  by_cases hr : range.2 ≤ range.1 ∨ q.range_.2 ≤ q.range_.1
  · have h := c1 hr
    rw [h]
    refine ⟨⟨fun _ => ?_, fun _ => ⟨_, rfl⟩⟩, fun _ _ => rfl⟩
    rcases hr with hr | hr
    · exact Or.inl (sub_nonpos.mpr hr)
    · exact Or.inr (Or.inl (sub_nonpos.mpr hr))
  · push_neg at hr
    by_cases hq : q.qpoints = []
    · have h := c2 hr.1 hr.2 hq
      rw [h]
      exact ⟨⟨fun _ => Or.inr (Or.inr hq), fun _ => ⟨_, rfl⟩⟩, fun _ _ => rfl⟩
    · have h := c3 hr.1 hr.2 hq
      refine ⟨⟨?_, ?_⟩, ?_⟩
      · rintro ⟨e, he⟩
        exact absurd he (h e)
      · intro hcond
        rcases hcond with hcond | hcond | hcond
        · exact absurd (sub_nonpos.mp hcond) (not_le.mpr hr.1)
        · exact absurd (sub_nonpos.mp hcond) (not_le.mpr hr.2)
        · exact absurd hcond hq
      · intro e he
        exact absurd he (h e)

theorem setRange_throws_iff_witness :
    (pointQuadrature.SetRange (0, 1)).1 =
        SetRangeOutcome.invalid_argument SetRangeError.negative_or_zero_ranges ∧
      (pointQuadrature.SetRange (0, 1)).2 = pointQuadrature := by
  have h1 : (pointQuadrature.SetRange (0, 1)).1 =
      SetRangeOutcome.invalid_argument SetRangeError.negative_or_zero_ranges := by
    simp [LineQuadrature.SetRange, pointQuadrature]
  exact ⟨h1, (setRange_throws_iff pointQuadrature (0, 1)).2 _ h1⟩

/-! ## C21: `SetMaterialSourceOptions` -/

/-- C21: `SetMaterialSourceOptions` throws an invalid-argument error for a
material id that already has a source, and for a strength array whose length
differs from the number of groups of the solver, and leaves the object as it
was in both cases; otherwise it returns, the strength array is stored under the
material id, and no other entry of `material_sources_` and no other member has
changed. -/
theorem material_source_checked (ev : ResponseEvaluator) (matid : Int) (values : List ℚ) :
    (∀ prior, ev.material_sources_ matid = some prior →
        ev.SetMaterialSourceOptions matid values =
          (CallOutcome.thrown ResponseError.material_source_exists, ev)) ∧
      (ev.material_sources_ matid = none → values.length ≠ ev.NumGroups →
        ev.SetMaterialSourceOptions matid values =
          (CallOutcome.thrown ResponseError.strength_size_mismatch, ev)) ∧
      (ev.material_sources_ matid = none → values.length = ev.NumGroups →
        (ev.SetMaterialSourceOptions matid values).1 = CallOutcome.returned ∧
        (ev.SetMaterialSourceOptions matid values).2.material_sources_ matid = some values ∧
        (∀ k, k ≠ matid →
          (ev.SetMaterialSourceOptions matid values).2.material_sources_ k =
            ev.material_sources_ k) ∧
        (ev.SetMaterialSourceOptions matid values).2.boundary_sources_ = ev.boundary_sources_ ∧
        (ev.SetMaterialSourceOptions matid values).2.NumGroups = ev.NumGroups) := by
  refine ⟨?_, ?_, ?_⟩
  · intro prior h
    unfold ResponseEvaluator.SetMaterialSourceOptions
    rw [h]
    rfl
  · intro h hlen
    unfold ResponseEvaluator.SetMaterialSourceOptions
    rw [h]
    simp only [Option.isSome_none, Bool.false_eq_true, if_false, ne_eq, hlen, not_false_eq_true,
      if_true]
  · intro h hlen
    unfold ResponseEvaluator.SetMaterialSourceOptions
    rw [h]
    simp only [Option.isSome_none, Bool.false_eq_true, if_false, ne_eq, hlen, not_true_eq_false,
      if_true, true_and]
    refine ⟨?_, ?_⟩
    · intro k hk
      rw [if_neg hk]
    · trivial

theorem material_source_checked_witness :
    (twoGroupEvaluator.SetMaterialSourceOptions 3 [1, 2]).1 = CallOutcome.returned ∧
      (twoGroupEvaluator.SetMaterialSourceOptions 3 [1, 2]).2.material_sources_ 3 =
        some [1, 2] ∧
      (∀ k, k ≠ 3 →
        (twoGroupEvaluator.SetMaterialSourceOptions 3 [1, 2]).2.material_sources_ k =
          twoGroupEvaluator.material_sources_ k) ∧
      (twoGroupEvaluator.SetMaterialSourceOptions 3 [1, 2]).2.boundary_sources_ =
        twoGroupEvaluator.boundary_sources_ ∧
      (twoGroupEvaluator.SetMaterialSourceOptions 3 [1, 2]).2.NumGroups =
        twoGroupEvaluator.NumGroups :=
  (material_source_checked twoGroupEvaluator 3 [1, 2]).2.2 rfl rfl

/-! ## C27: `Unknown::GetMap` -/

/-- For every unknown and component number, `GetMap` throws exactly when the
component number is not below `num_components_`. -/
theorem getMap_throws_iff (u : Unknown) (c : Nat) :
    u.GetMap c = Except.error UnknownError.out_of_range ↔ c ≥ u.num_components_ := by
  unfold Unknown.GetMap
  cases u.type_ <;> simp only <;> split <;> simp_all

/-- For an unknown that is not a SCALAR and a component below `num_components_`,
`GetMap` returns `map_begin_` plus the component number, in `unsigned int`. -/
theorem getMap_of_not_scalar (u : Unknown) (c : Nat) (ht : u.type_ ≠ UnknownType.SCALAR)
    (hc : c < u.num_components_) :
    u.GetMap c = Except.ok ((u.map_begin_ + c) % 2 ^ 32) := by
  unfold Unknown.GetMap
  have hn : ¬ c ≥ u.num_components_ := by omega
  cases h : u.type_ with
  | SCALAR => exact absurd h ht
  | VECTOR_2 => simp only [hn, if_false]
  | VECTOR_3 => simp only [hn, if_false]
  | VECTOR_N => simp only [hn, if_false]
  | TENSOR => simp only [hn, if_false]

/-- C27, evaluated: the SCALAR unknown that begins at 5 maps its component 0 to
0, below `map_begin_` = 5 = `GetMapEnd()`, where the claim has 5; the VECTOR_N
unknown with one component that begins at 5 maps its component 0 to 5. -/
theorem scalar_getMap_ignores_map_begin :
    (Unknown.construct UnknownType.SCALAR 1 5).GetMap 0 = Except.ok 0 ∧
      (Unknown.construct UnknownType.SCALAR 1 5).map_begin_ = 5 ∧
      (Unknown.construct UnknownType.SCALAR 1 5).num_components_ = 1 ∧
      (Unknown.construct UnknownType.SCALAR 1 5).GetMapEnd = 5 ∧
      (Unknown.construct UnknownType.VECTOR_N 1 5).GetMap 0 = Except.ok 5 :=
  ⟨rfl, by decide, by decide, by decide, rfl⟩

/-! ## C29: the function registry -/

/-- C29: `AddFunctionToRegistry` never overwrites an entry: for a name that is in
`lua_function_registry_` it throws `std::logic_error` and leaves the registry as
it was; otherwise it returns, the registry holds the function under that name,
and no other entry has changed. `AddFunctionToRegistryInNamespaceWithName`
registers under the key `namespace_name` followed by "::" and
`function_name`. -/
theorem registry_never_overwrites (console : Console) (name_in_lua : String)
    (function_ptr : Nat) (namespace_name function_name : String) :
    (∀ entry, console.lua_function_registry_ name_in_lua = some entry →
        console.AddFunctionToRegistry name_in_lua function_ptr =
          (RegistryOutcome.logic_error, console)) ∧
      (console.lua_function_registry_ name_in_lua = none →
        (console.AddFunctionToRegistry name_in_lua function_ptr).1 = RegistryOutcome.returned ∧
        (console.AddFunctionToRegistry name_in_lua function_ptr).2.lua_function_registry_
            name_in_lua =
          some { function_ptr := function_ptr, function_raw_name := name_in_lua } ∧
        ∀ k, k ≠ name_in_lua →
          (console.AddFunctionToRegistry name_in_lua function_ptr).2.lua_function_registry_ k =
            console.lua_function_registry_ k) ∧
      console.AddFunctionToRegistryInNamespaceWithName function_ptr namespace_name
          function_name =
        console.AddFunctionToRegistry (namespace_name ++ "::" ++ function_name)
          function_ptr := by
  refine ⟨?_, ?_, rfl⟩
  · intro entry h
    unfold Console.AddFunctionToRegistry
    rw [h]
    rfl
  · intro h
    unfold Console.AddFunctionToRegistry
    rw [h]
    simp only [Option.isSome_none, Bool.false_eq_true, if_false, if_true, true_and]
    intro k hk
    rw [if_neg hk]

theorem registry_never_overwrites_witness :
    oneFunctionConsole.AddFunctionToRegistry "chi::Exit" 2 =
        (RegistryOutcome.logic_error, oneFunctionConsole) ∧
      (oneFunctionConsole.AddFunctionToRegistry "chi::Sleep" 2).1 = RegistryOutcome.returned ∧
      (oneFunctionConsole.AddFunctionToRegistry "chi::Sleep" 2).2.lua_function_registry_
          "chi::Sleep" =
        some { function_ptr := 2, function_raw_name := "chi::Sleep" } :=
  ⟨(registry_never_overwrites oneFunctionConsole "chi::Exit" 2 "chi" "Exit").1
      { function_ptr := 1, function_raw_name := "chi::Exit" } (by decide),
    ((registry_never_overwrites oneFunctionConsole "chi::Sleep" 2 "chi" "Sleep").2.1
      (by decide)).1,
    ((registry_never_overwrites oneFunctionConsole "chi::Sleep" 2 "chi" "Sleep").2.1
      (by decide)).2.1⟩

/-! ## C22: the error on an empty sweep order -/

/-- The error of cbc.cc:59 is raised only for a grid without local cells. -/
theorem cyclic_error_only_when_empty (grid : MeshContinuum)
    (orient : Nat → Nat → FaceOrientation) (cs : List (List (Nat × Nat)))
    (fas0 : List (Nat × Nat)) (b : Bool)
    (h : CBC_SPDS.construct grid orient cs fas0 b =
      Except.error CtorError.cyclic_dependencies) : grid.local_cells.length = 0 := by
  rw [construct_eq grid orient cs fas0 b _ _ rfl rfl] at h
  split at h
  · rename_i err he
    cases h
    rename_i G
    cases hs : (sortLoop grid.local_cells.length (if b = true then
        (RemoveCyclicDependencies grid.local_cells.length
          (buildEdges grid.local_cells.length cs)).1
      else buildEdges grid.local_cells.length cs) grid.local_cells.length []).2 with
    | true =>
      rw [topological_sort_ok _ _ hs] at he
      cases he
    | false =>
      rw [topological_sort_error _ _ hs] at he
      cases he
  · rename_i order ho
    split at h
    · rename_i hem
      obtain ⟨hs, rfl⟩ := topological_sort_inv _ _ order ho
      have hlen := (sortLoop_perm _ _ hs).2.length_eq
      rw [List.length_range] at hlen
      rw [List.isEmpty_iff, List.reverse_eq_nil_iff] at hem
      rw [hem] at hlen
      exact hlen.symm
    · cases h

/-- C22, evaluated: on a grid without local cells, whatever the other arguments,
the constructor ends with the error of cbc.cc:59, "Cyclic dependencies found in
the local cell graph", while the local cell graph has no edge and no directed
cycle. -/
theorem empty_partition_reports_cycle (IsCellLocal : Nat → Bool) (cell_local_id : Nat → Nat)
    (orient : Nat → Nat → FaceOrientation) (cs : List (List (Nat × Nat)))
    (fas0 : List (Nat × Nat)) (allow_cycles : Bool) :
    CBC_SPDS.construct ⟨[], IsCellLocal, cell_local_id⟩ orient cs fas0 allow_cycles =
        Except.error CtorError.cyclic_dependencies ∧
      buildEdges 0 cs = [] ∧ GraphAcyclic (buildEdges 0 cs) := by
  refine ⟨?_, rfl, ?_⟩
  · cases allow_cycles <;> rfl
  · exact sortLoop_acyclic 0 (buildEdges 0 cs) rfl (buildEdges_src_lt 0 cs)

/-! ## C23: the indices of the task list -/

theorem faceLoop_snd (grid : MeshContinuum) (orient : Nat → FaceOrientation)
    (faces : List CellFace) (f : Nat) (acc : Nat × List Nat) (succ : Nat)
    (h : succ ∈ (faceLoop grid orient faces f acc).2) :
    succ ∈ acc.2 ∨ ∃ k face, faces[k]? = some face ∧
      orient (f + k) = FaceOrientation.OUTGOING ∧ face.has_neighbor = true ∧
      grid.IsCellLocal face.neighbor_id = true ∧
      succ = grid.cell_local_id face.neighbor_id := by
  induction faces generalizing f acc with
  | nil => exact Or.inl h
  | cons face rest ih =>
    rw [faceLoop] at h
    rcases ih (f + 1) _ h with h1 | ⟨k, fc, hk, ho, hn, hl, hs⟩
    · unfold faceStep at h1
      cases ho : orient f with
      | PARALLEL =>
        rw [ho] at h1
        exact Or.inl h1
      | INCOMING =>
        rw [ho] at h1
        simp only at h1
        split at h1
        · exact Or.inl h1
        · exact Or.inl h1
      | OUTGOING =>
        rw [ho] at h1
        simp only at h1
        split at h1
        · rename_i hc
          rw [Bool.and_eq_true] at hc
          rcases List.mem_append.mp h1 with h2 | h2
          · exact Or.inl h2
          · rw [List.mem_singleton] at h2
            exact Or.inr ⟨0, face, List.getElem?_cons_zero, ho, hc.1, hc.2, h2⟩
        · exact Or.inl h1
    · refine Or.inr ⟨k + 1, fc, ?_, ?_, hn, hl, hs⟩
      · rw [List.getElem?_cons_succ]
        exact hk
      · rw [← ho]
        congr 1
        omega

/-- C23: for a mesh whose local cells are iterated in local-id order 0..N-1 and
whose local cells have their local id below N, the task list has N tasks, the
task at index i refers to the cell with local id i, and every entry of its
successors list is the local id of a local neighbour across an OUTGOING face
of that cell, hence below N; so in every state reached by `AngleSetAdvance`
calls on an angle set of that task list, every entry of every successors list
is an index inside `current_task_list_`. -/
theorem successors_index_in_bounds (grid : MeshContinuum)
    (orient : Nat → Nat → FaceOrientation)
    (hid : ∀ (i : Nat) (cell : Cell), grid.local_cells[i]? = some cell → cell.local_id = i)
    (hloc : ∀ g, grid.IsCellLocal g = true → grid.cell_local_id g < grid.local_cells.length) :
    (CBC_SPDS_TaskList grid orient).length = grid.local_cells.length ∧
      (∀ (i : Nat) (task : Task), (CBC_SPDS_TaskList grid orient)[i]? = some task →
        task.reference_id_ = i ∧
        ∀ succ ∈ task.successors_, succ < grid.local_cells.length ∧
          ∃ cell f face, grid.local_cells[i]? = some cell ∧ cell.faces[f]? = some face ∧
            orient cell.local_id f = FaceOrientation.OUTGOING ∧ face.has_neighbor = true ∧
            grid.IsCellLocal face.neighbor_id = true ∧
            succ = grid.cell_local_id face.neighbor_id) ∧
      ∀ (s : CBC_AngleSet) (inps : List AdvanceInput) (rs : List AngleSetStatus)
        (s1 : CBC_AngleSet), s.cbc_spds_ = CBC_SPDS_TaskList grid orient →
        runAdvances (ResetSweepBuffers s) inps = some (rs, s1) →
        (materialize s1).length = grid.local_cells.length ∧
        ∀ task ∈ materialize s1, ∀ local_task_num ∈ task.successors_,
          local_task_num < (materialize s1).length := by
  have hlen : (CBC_SPDS_TaskList grid orient).length = grid.local_cells.length := by
    unfold CBC_SPDS_TaskList
    rw [List.length_map]
  have htask : ∀ (i : Nat) (task : Task), (CBC_SPDS_TaskList grid orient)[i]? = some task →
      task.reference_id_ = i ∧
      ∀ succ ∈ task.successors_, succ < grid.local_cells.length ∧
        ∃ cell f face, grid.local_cells[i]? = some cell ∧ cell.faces[f]? = some face ∧
          orient cell.local_id f = FaceOrientation.OUTGOING ∧ face.has_neighbor = true ∧
          grid.IsCellLocal face.neighbor_id = true ∧
          succ = grid.cell_local_id face.neighbor_id := by
    intro i task ht
    unfold CBC_SPDS_TaskList at ht
    rw [List.getElem?_map] at ht
    cases hc : grid.local_cells[i]? with
    | none =>
      rw [hc] at ht
      cases ht
    | some cell =>
      rw [hc] at ht
      simp only [Option.map_some', Option.some.injEq] at ht
      subst ht
      refine ⟨hid i cell hc, ?_⟩
      intro succ hs
      have hs2 : succ ∈ (faceLoop grid (orient cell.local_id) cell.faces 0 (0, [])).2 := hs
      rcases faceLoop_snd grid (orient cell.local_id) cell.faces 0 (0, []) succ hs2 with
        h0 | ⟨k, face, hk, ho, hn, hl, he⟩
      · cases h0
      · rw [Nat.zero_add] at ho
        exact ⟨by rw [he]; exact hloc _ hl, cell, k, face, rfl, hk, ho, hn, hl, he⟩
  refine ⟨hlen, htask, ?_⟩
  intro s inps rs s1 hs hrun
  have hmap := runAdvances_successors inps s rs s1 hrun
  have hl2 : (materialize s1).length = grid.local_cells.length := by
    have := congrArg List.length hmap
    rw [List.length_map, List.length_map, hs, hlen] at this
    exact this
  refine ⟨hl2, ?_⟩
  intro task htm n hn
  obtain ⟨p, hp⟩ := List.getElem?_of_mem htm
  obtain ⟨c2, hc2, heq⟩ := getElem?_of_map_successors hmap.symm hp
  rw [hs] at hc2
  rw [heq] at hn
  rw [hl2]
  exact ((htask p c2 hc2).2 n hn).1

theorem successors_index_in_bounds_witness :
    (CBC_SPDS_TaskList ownGrid diagOrient).length = ownGrid.local_cells.length ∧
      (∀ (i : Nat) (task : Task), (CBC_SPDS_TaskList ownGrid diagOrient)[i]? = some task →
        task.reference_id_ = i ∧
        ∀ succ ∈ task.successors_, succ < ownGrid.local_cells.length ∧
          ∃ cell f face, ownGrid.local_cells[i]? = some cell ∧ cell.faces[f]? = some face ∧
            diagOrient cell.local_id f = FaceOrientation.OUTGOING ∧
            face.has_neighbor = true ∧ ownGrid.IsCellLocal face.neighbor_id = true ∧
            succ = ownGrid.cell_local_id face.neighbor_id) ∧
      ∀ (s : CBC_AngleSet) (inps : List AdvanceInput) (rs : List AngleSetStatus)
        (s1 : CBC_AngleSet), s.cbc_spds_ = CBC_SPDS_TaskList ownGrid diagOrient →
        runAdvances (ResetSweepBuffers s) inps = some (rs, s1) →
        (materialize s1).length = ownGrid.local_cells.length ∧
        ∀ task ∈ materialize s1, ∀ local_task_num ∈ task.successors_,
          local_task_num < (materialize s1).length :=
  successors_index_in_bounds ownGrid diagOrient
    (by
      intro i cell h
      have hi : i < 4 := (List.getElem?_eq_some_iff.mp h).1
      interval_cases i <;> simp [ownGrid, diagGrid] at h <;> subst h <;> rfl)
    (by
      intro g hg
      have hg4 : g < 4 := of_decide_eq_true hg
      exact hg4)

/-! ## C24: termination of the ready-task loop -/

theorem loopScans_of_not_executed (fuel : Nat) (st : LoopState)
    (h : st.a_task_executed = false) : loopScans fuel st = 0 := by
  cases fuel with
  | zero => rfl
  | succ fuel => rw [loopScans, h]; rfl

theorem loopScans_le (fuel : Nat) (st : LoopState) :
    loopScans fuel st ≤ uncompleted st.tasks + 1 := by
  induction fuel generalizing st with
  | zero => rw [loopScans]; omega
  | succ fuel ih =>
    rw [loopScans]
    cases hx : st.a_task_executed with
    | false => simp
    | true =>
      simp only [if_true]
      cases hf : (forPass st).a_task_executed with
      | false =>
        rw [loopScans_of_not_executed fuel _ hf]
        omega
      | true =>
        have h1 := forPass_uncompleted st hf
        have h2 := ih (forPass st)
        omega

/-- C24: the ready-task loop ends for every task list, also a cyclic or
inconsistent one: a pass after which the loop goes on has lowered the number of
tasks that are not completed, so from a state with K such tasks the loop makes
at most K + 1 full scans of the list, and K + 1 turns are enough for it to
end. -/
theorem ready_loop_terminates (st : LoopState) :
    ((forPass st).a_task_executed = true →
        uncompleted (forPass st).tasks < uncompleted st.tasks) ∧
      (∀ fuel, loopScans fuel st ≤ uncompleted st.tasks + 1) ∧
      (∃ st', whileLoop (uncompleted st.tasks + 1) st = some st' ∧
        st'.a_task_executed = false) := by
  refine ⟨forPass_uncompleted st, fun fuel => loopScans_le fuel st, ?_⟩
  obtain ⟨st', h⟩ := whileLoop_total (uncompleted st.tasks + 1) st (fun _ => Nat.lt_succ_self _)
  refine ⟨st', h, ?_⟩
  cases hx : st.a_task_executed with
  | true => exact (whileLoop_exit _ st st' h hx).1
  | false =>
    rw [whileLoop_of_not_executed _ st hx] at h
    cases h
    exact hx

theorem ready_loop_terminates_witness :
    uncompleted (forPass ⟨grid2x2, true, true, []⟩).tasks < uncompleted grid2x2 ∧
      loopScans 10 ⟨grid2x2, true, true, []⟩ = 2 ∧
      loopScans 10 ⟨grid2x2, true, true, []⟩ ≤ uncompleted grid2x2 + 1 :=
  ⟨(ready_loop_terminates ⟨grid2x2, true, true, []⟩).1 (by decide), by decide,
    (ready_loop_terminates ⟨grid2x2, true, true, []⟩).2.1 10⟩

/-! ## C25: the index into the non-local buffers -/

/-- The attributes of a written file are the four of lines 68, 69, 76 and 77. -/
theorem written_attributes (solver : GroupsetView) (src : List ℚ) (created : Bool)
    (file : H5File) (h : WriteGroupsetAngularFluxes solver src created = Except.ok file) :
    file.attributes =
      [ ("mesh/num_local_cells", solver.local_cells.length),
        ("mesh/num_local_nodes", solver.num_local_nodes),
        ("num_directions", solver.abscissae_size),
        ("num_groups", solver.num_gs_groups) ] := by
  unfold WriteGroupsetAngularFluxes at h
  split at h
  · cases h
  · simp only at h
    split at h
    · cases h
    · cases h
      rfl

/-- C26, evaluated: whatever the solver state and the source vector, the file
that `WriteGroupsetAngularFluxes` writes has no attribute "num_gs_dirs" (the
writer names it "num_directions"), which `ReadGroupsetAngularFluxes` reads
before its compatibility checks; the reader does not get to a defined value of
`file_num_gs_angles` and the round trip does not succeed. -/
theorem written_file_lacks_read_attribute (solver : GroupsetView) (src : List ℚ)
    (file : H5File) (h : WriteGroupsetAngularFluxes solver src true = Except.ok file) :
    "num_gs_dirs" ∈ attributesRead ∧ H5ReadAttribute file "num_gs_dirs" = none ∧
      H5ReadAttribute file "num_gs_groups" = none ∧
      H5ReadAttribute file "num_directions" = some solver.abscissae_size ∧
      readMacroData solver (some file) =
        Except.error (FluxIOError.attribute_not_found "num_gs_dirs") := by
  have ha := written_attributes solver src true file h
  have h1 : H5ReadAttribute file "num_gs_dirs" = none := by
    unfold H5ReadAttribute
    rw [ha]
    rfl
  have h2 : H5ReadAttribute file "num_gs_groups" = none := by
    unfold H5ReadAttribute
    rw [ha]
    rfl
  have h3 : H5ReadAttribute file "num_directions" = some solver.abscissae_size := by
    unfold H5ReadAttribute
    rw [ha]
    rfl
  have h4 : H5ReadAttribute file "mesh/num_local_cells" = some solver.local_cells.length := by
    unfold H5ReadAttribute
    rw [ha]
    rfl
  have h5 : H5ReadAttribute file "mesh/num_local_nodes" = some solver.num_local_nodes := by
    unfold H5ReadAttribute
    rw [ha]
    rfl
  refine ⟨by decide, h1, h2, h3, ?_⟩
  unfold readMacroData readAttribute
  simp only [h4, h5, h1]

theorem written_file_lacks_read_attribute_witness :
    ∃ file, WriteGroupsetAngularFluxes oneDofView [1] true = Except.ok file ∧
      H5ReadAttribute file "num_gs_dirs" = none ∧
      readMacroData oneDofView (some file) =
        Except.error (FluxIOError.attribute_not_found "num_gs_dirs") :=
  ⟨_, rfl,
    (written_file_lacks_read_attribute oneDofView [1] _ rfl).2.1,
    (written_file_lacks_read_attribute oneDofView [1] _ rfl).2.2.2.2⟩

/-! ## C28: the boundary source of the response -/

theorem groupLoop_spec (source : List ℚ) (fg : Nat) (k gsg : Nat) (psi : List ℚ)
    (h : fg + gsg + k ≤ source.length) :
    ∃ out, groupLoop source fg k gsg psi = some (psi ++ out) ∧ out.length = k ∧
      ∀ j, j < k → out[j]? = source[fg + gsg + j]? := by
  induction k generalizing gsg psi with
  | zero =>
    refine ⟨[], by rw [groupLoop, List.append_nil], rfl, ?_⟩
    intro j hj
    omega
  | succ k ih =>
    have hlt : fg + gsg < source.length := by omega
    obtain ⟨out, e1, e2, e3⟩ := ih (gsg + 1) (psi ++ [source[fg + gsg]]) (by omega)
    refine ⟨source[fg + gsg] :: out, ?_, by rw [List.length_cons, e2], ?_⟩
    · rw [groupLoop, List.getElem?_eq_getElem hlt]
      simp only
      rw [e1, List.append_assoc]
      rfl
    · intro j hj
      cases j with
      | zero =>
        rw [List.getElem?_cons_zero, Nat.add_zero, List.getElem?_eq_getElem hlt]
      | succ j =>
        rw [List.getElem?_cons_succ, e3 j (by omega)]
        congr 1
        omega

theorem angleLoop_spec (source : List ℚ) (fg G : Nat) (k : Nat) (psi : List ℚ)
    (h : fg + G ≤ source.length) :
    ∃ out, angleLoop source fg G k psi = some (psi ++ out) ∧ out.length = k * G ∧
      ∀ n gsg, n < k → gsg < G → out[G * n + gsg]? = source[fg + gsg]? := by
  induction k generalizing psi with
  | zero =>
    refine ⟨[], by rw [angleLoop, List.append_nil], by simp, ?_⟩
    intro n gsg hn
    omega
  | succ k ih =>
    obtain ⟨o1, a1, a2, a3⟩ := groupLoop_spec source fg G 0 psi (by omega)
    obtain ⟨o2, b1, b2, b3⟩ := ih (psi ++ o1)
    refine ⟨o1 ++ o2, ?_, ?_, ?_⟩
    · rw [angleLoop, a1]
      simp only
      rw [b1, List.append_assoc]
    · rw [List.length_append, a2, b2]
      ring
    · intro n gsg hn hg
      cases n with
      | zero =>
        rw [Nat.mul_zero, Nat.zero_add, List.getElem?_append_left (by omega), a3 gsg hg,
          Nat.add_zero]
      | succ n =>
        have hge : o1.length ≤ G * (n + 1) + gsg := by
          rw [a2, Nat.mul_succ]
          omega
        rw [List.getElem?_append_right hge]
        have hidx : G * (n + 1) + gsg - o1.length = G * n + gsg := by
          rw [a2, Nat.mul_succ]
          omega
        rw [hidx]
        exact b3 n gsg (by omega) hg

/-- For a stored isotropic source that has an entry for every group of the
groupset, `EvaluateBoundaryCondition` returns a vector of length A*G whose entry
at index G*n + gsg is `group_strength[g0 + gsg]`. -/
theorem evaluateBoundaryCondition_of_long_source (ev : ResponseEvaluator) (bid : Nat)
    (groupset : LBSGroupset) (source : List ℚ) (g0 : Nat)
    (hbc : ev.boundary_sources_ bid = some ⟨BoundaryType.ISOTROPIC, source⟩)
    (hfirst : groupset.groups.head? = some g0)
    (hlen : g0 + groupset.groups.length ≤ source.length) :
    ∃ psi, ev.EvaluateBoundaryCondition bid groupset = Except.ok psi ∧
      psi.length = groupset.num_gs_angles * groupset.groups.length ∧
      ∀ n gsg, n < groupset.num_gs_angles → gsg < groupset.groups.length →
        psi[groupset.groups.length * n + gsg]? = source[g0 + gsg]? := by
  obtain ⟨out, e1, e2, e3⟩ := angleLoop_spec source g0 groupset.groups.length
    groupset.num_gs_angles [] hlen
  refine ⟨out, ?_, e2, e3⟩
  unfold ResponseEvaluator.EvaluateBoundaryCondition
  simp only [hfirst, hbc, if_true, e1, List.nil_append]

/-- C28, evaluated: the isotropic source with the one-entry `group_strength` {1.0}
and an array parameter "values", as line 282 requires, is accepted for the
boundary "xmin" of a solver with two groups and stored with its one entry;
`EvaluateBoundaryCondition` for the groupset of the two groups then reads
`isotropic_mg_source[1]`, outside the stored vector. The same strength array is
rejected by `SetMaterialSourceOptions`; without the parameter "values" the call
throws and stores nothing. -/
theorem short_group_strength_is_read_past_end :
    (twoGroupEvaluator.SetBoundarySourceOptions shortSourceParams).1 = CallOutcome.returned ∧
      ((twoGroupEvaluator.SetBoundarySourceOptions shortSourceParams).2.boundary_sources_
          0).map (fun bc => (bc.type, bc.isotropic_mg_source.length)) =
        some (BoundaryType.ISOTROPIC, 1) ∧
      (twoGroupEvaluator.SetBoundarySourceOptions shortSourceParams).2.EvaluateBoundaryCondition
          0 twoGroupGroupset =
        Except.error ResponseError.undefined_behaviour ∧
      (twoGroupEvaluator.SetMaterialSourceOptions 0 [1]).1 =
        CallOutcome.thrown ResponseError.strength_size_mismatch ∧
      (twoGroupEvaluator.SetBoundarySourceOptions noValuesParams).1 =
        CallOutcome.thrown ResponseError.block_type_mismatch ∧
      ((twoGroupEvaluator.SetBoundarySourceOptions noValuesParams).2.boundary_sources_
          0).isNone = true :=
  ⟨by decide, by decide, rfl, by decide, by decide, by decide⟩

/-- Whatever the length of `group_strength`, `SetBoundarySourceOptions` stores it
for an isotropic source on a supported boundary whose parameters hold an array
"values": the length is not compared with the number of groups. -/
theorem setBoundarySourceOptions_stores_any_length (ev : ResponseEvaluator)
    (params : BoundarySourceParams) (bid : Nat) (strength : List ℚ)
    (hname : ev.supported_boundary_names params.name = some bid)
    (htype : params.type = "isotropic") (hgs : params.group_strength = some strength)
    (hval : params.values = some ParameterBlockType.ARRAY) :
    (ev.SetBoundarySourceOptions params).1 = CallOutcome.returned ∧
      ((ev.SetBoundarySourceOptions params).2.boundary_sources_ bid).map
          (fun bc => (bc.type, bc.isotropic_mg_source)) =
        some (BoundaryType.ISOTROPIC, strength) := by
  unfold ResponseEvaluator.SetBoundarySourceOptions RequireParameterBlockTypeIs
  simp only [hname, htype, hgs, hval, if_true, decide_True, Option.map_some']
  exact ⟨trivial, trivial⟩

end OpenSn
